import Mathlib

/-!
# SwiperSniffer: the watch-and-queue module

A shallow embedding of `src/src/swiper-sniffer.js` and `src/dist/swiper-sniffer.js`.
The two files differ in one expression only: at readiness the `src` file stores
`node` in `swiperInstances`, the `dist` file stores `node.swiper`.

The three closure variables `swiperInstances`, `pendingSwiperInstances` and
`pendingOperations` are fields of the state. A JavaScript exception is an outcome
`thrown` carrying the state at the throw (nothing is rolled back). The list of connected
readiness observers is host state, kept in the field `observers`. Two history fields,
`invoked` and `registered`, record every call of an operation and every call of
`registerSwiperChange`; no function of the module reads them.

The registries are private to the closure and observer callbacks are delivered as
separate tasks, so while an operation runs it can reach the module only by calling
`registerSwiperChange`. An operation is therefore described by the calls it makes
(`Prog.call`, with or without a surrounding `try`/`catch`) and by how it ends
(`Prog.ret` or `Prog.raise`).

The embedding has two layers. The first (`State`, `registerSwiperChange`, ...) keeps the
own properties of the three registries; it carries the statements about an identifier
that has an entry, where the own property decides every read. The second (`Js.State`,
`Js.registerSwiperChange`, ...) follows reads and assignments through the prototype chain
of the registries, which are plain objects: it has the members inherited from
`Object.prototype`, the `__proto__` setter, and the `TypeError` of a call of `forEach` or
`push` on an inherited member; it carries the statements about identifiers without an
entry. On every trace that brings in no identifier inherited from `Object.prototype` the
two layers reach the same state (`exec_init_toJs`). The console output of `debugLog` is
not modelled.
-/

namespace SwiperSniffer

/-- The two source files. -/
inductive Variant
  | src
  | dist
  deriving DecidableEq, Repr

/-- The JavaScript values that reach the registries. -/
inductive JSValue
  | undefined
  | element (ref : Nat)
  | object (ref : Nat)
  deriving DecidableEq, Repr

/-- Truthiness as tested by `if (value)`. -/
def JSValue.truthy : JSValue → Bool
  | .undefined => false
  | .element _ => true
  | .object _ => true

/-- What an operation does to the module while it runs. -/
inductive Prog
  | ret
  | raise
  | call (dataId : String) (label : Nat) (body : Prog) (caught : Bool) (next : Prog)
  deriving DecidableEq, Repr

/-- A registered operation: a name for the function and its behaviour. -/
structure Operation where
  label : Nat
  body : Prog
  deriving DecidableEq, Repr

/-- The place an operation is called from: the `forEach` of `applyPendingOperations`
or the first branch of `registerSwiperChange`. -/
inductive Site
  | drain
  | immediate
  deriving DecidableEq, Repr

/-- One call `operation(swiperInstances[dataId])`. -/
structure Invocation where
  dataId : String
  label : Nat
  arg : JSValue
  site : Site
  deriving DecidableEq, Repr

/-- The element `node.closest(".elementor-element")`, seen through
`getAttribute("data-id")` (`none` is `null`: the attribute is absent). -/
structure Container where
  dataId : Option String
  deriving DecidableEq, Repr

/-- An added node as `handleMutations` reads it (`closest = none` is `null`). -/
structure Node where
  ref : Nat
  nodeType : Nat
  classList : List String
  closest : Option Container
  deriving DecidableEq, Repr

/-- A mutation record of the discovery observer. -/
structure MutationRecord where
  addedNodes : List Node
  deriving DecidableEq, Repr

/-- A connected readiness observer: the `node` and `dataId` its callback closes over. -/
structure Watcher where
  node : Nat
  dataId : String
  deriving DecidableEq, Repr

/-- The module state. -/
structure State where
  swiperInstances : String → Option JSValue
  pendingSwiperInstances : String → Option JSValue
  pendingOperations : String → Option (List Operation)
  observers : List Watcher
  invoked : List Invocation
  registered : List (String × Operation)

/-- The state when the module has been loaded. -/
def State.init : State :=
  { swiperInstances := fun _ => none
    pendingSwiperInstances := fun _ => none
    pendingOperations := fun _ => none
    observers := []
    invoked := []
    registered := [] }

/-- How a call ends: it returns, or an exception leaves it. -/
inductive Outcome
  | normal (s : State)
  | thrown (s : State)

/-- The state a call leaves behind. -/
def Outcome.state : Outcome → State
  | .normal s => s
  | .thrown s => s

/-- Whether the call returned. -/
def Outcome.returned : Outcome → Bool
  | .normal _ => true
  | .thrown _ => false

/-- Sequencing: an exception skips what follows. -/
def Outcome.andThen : Outcome → (State → Outcome) → Outcome
  | .normal s, k => k s
  | .thrown s, _ => .thrown s

/-- The value of `swiperInstances[dataId]`. -/
def State.instance? (s : State) (dataId : String) : JSValue :=
  (s.swiperInstances dataId).getD .undefined

/-- The array `pendingOperations[dataId]`, empty when there is none. -/
def State.queue (s : State) (dataId : String) : List Operation :=
  (s.pendingOperations dataId).getD []

/-- History: `registerSwiperChange(dataId, operation)` has been entered. -/
def State.noteRegistered (s : State) (dataId : String) (operation : Operation) : State :=
  { s with registered := s.registered ++ [(dataId, operation)] }

/-- History: `operation(swiperInstances[dataId])` is being called. -/
def State.noteInvoked (s : State) (dataId : String) (label : Nat) (site : Site) : State :=
  { s with invoked := s.invoked ++ [⟨dataId, label, s.instance? dataId, site⟩] }

/-- The else branch of `registerSwiperChange`: create the array if absent, then push. -/
def State.enqueue (s : State) (dataId : String) (operation : Operation) : State :=
  { s with pendingOperations :=
      Function.update s.pendingOperations dataId (some (s.queue dataId ++ [operation])) }

/-- The statement `delete pendingOperations[dataId]`. -/
def State.clear (s : State) (dataId : String) : State :=
  { s with pendingOperations := Function.update s.pendingOperations dataId none }

/-- The assignment `swiperInstances[dataId] = value`. -/
def State.record (s : State) (dataId : String) (value : JSValue) : State :=
  { s with swiperInstances := Function.update s.swiperInstances dataId (some value) }

/-- The call `obs.disconnect()` of the readiness observer at position `i`. -/
def State.disconnect (s : State) (i : Nat) : State :=
  { s with observers := s.observers.eraseIdx i }

/-- Runs the body of an operation. A `Prog.call` is `registerSwiperChange` called from
inside the operation (see `runBody_call`). -/
def runBody : Prog → State → Outcome
  | .ret, s => .normal s
  | .raise, s => .thrown s
  | .call dataId label body caught next, s =>
    let s1 := s.noteRegistered dataId ⟨label, body⟩
    if (s1.instance? dataId).truthy then
      match runBody body (s1.noteInvoked dataId label .immediate) with
      | .normal s2 => runBody next s2
      | .thrown s2 => if caught then runBody next s2 else .thrown s2
    else
      runBody next (s1.enqueue dataId ⟨label, body⟩)

/-- The call `operation(swiperInstances[dataId])`. -/
def invoke (dataId : String) (site : Site) (operation : Operation) (s : State) : Outcome :=
  runBody operation.body (s.noteInvoked dataId operation.label site)

/-- The source function `registerSwiperChange`. -/
def registerSwiperChange (dataId : String) (operation : Operation) (s : State) : Outcome :=
  let s1 := s.noteRegistered dataId operation
  if (s1.instance? dataId).truthy then
    invoke dataId .immediate operation s1
  else
    .normal (s1.enqueue dataId operation)

/-- The array method `forEach`: the callback runs on each element in turn and an exception
leaves the loop. -/
def forEach {α : Type} (f : α → State → Outcome) : List α → State → Outcome
  | [], s => .normal s
  | x :: xs, s => (f x s).andThen (forEach f xs)

/-- The source function `applyPendingOperations`. The operations visited are those in the
array when `forEach` starts: an operation pushed meanwhile lies beyond the length
`forEach` read at its start. -/
def applyPendingOperations (dataId : String) (s : State) : Outcome :=
  match s.pendingOperations dataId with
  | some operations =>
    (forEach (invoke dataId .drain) operations s).andThen fun s1 => .normal (s1.clear dataId)
  | none => .normal s

/-- The source function `isSwiperElement`. -/
def isSwiperElement (classList : List String) : Bool :=
  classList.contains "swiper"

/-- The source function `isSwiperInitialized`. -/
def isSwiperInitialized (classList : List String) : Bool :=
  classList.contains "swiper-initialized"

/-- The test `if (dataId)` on the result of `getAttribute`. -/
def dataIdTruthy : Option String → Bool
  | none => false
  | some d => d != ""

/-- The body of `if (dataId)` in `handleMutations`: the node is stored under `dataId` and a
readiness observer is created on it. -/
def State.discover (s : State) (node : Node) (dataId : String) : State :=
  { s with
    pendingSwiperInstances :=
      Function.update s.pendingSwiperInstances dataId (some (.element node.ref))
    observers := s.observers ++ [⟨node.ref, dataId⟩] }

/-- The inner callback of `handleMutations`, run on one added node. With no container,
`containerElement.getAttribute` is a property read on `null` and throws. -/
def handleNode (node : Node) (s : State) : Outcome :=
  if node.nodeType == 1 && isSwiperElement node.classList then
    match node.closest with
    | none => .thrown s
    | some containerElement =>
      if dataIdTruthy containerElement.dataId then
        .normal (s.discover node (containerElement.dataId.getD ""))
      else .normal s
  else .normal s

/-- The source function `handleMutations`. -/
def handleMutations (mutations : List MutationRecord) (s : State) : Outcome :=
  forEach (fun mutation => forEach handleNode mutation.addedNodes) mutations s

/-- The value written to `swiperInstances[dataId]` at readiness: `node` in `src`,
`node.swiper` in `dist`. -/
def recorded : Variant → Nat → JSValue → JSValue
  | .src, node, _ => .element node
  | .dist, _, swiper => swiper

/-- The callback of the readiness observer at position `i`, run when the class attribute
of its node has changed; `classList` and `swiper` are what the node holds then. -/
def readinessCallback (v : Variant) (i : Nat) (classList : List String) (swiper : JSValue)
    (s : State) : Outcome :=
  match s.observers.get? i with
  | none => .normal s
  | some w =>
    if isSwiperInitialized classList then
      let s1 := s.record w.dataId (recorded v w.node swiper)
      (applyPendingOperations w.dataId s1).andThen fun s2 => .normal (s2.disconnect i)
    else .normal s

/-- What the host can make the module do. -/
inductive Event
  | register (dataId : String) (operation : Operation)
  | mutations (records : List MutationRecord)
  | classChange (observer : Nat) (classList : List String) (swiper : JSValue)

/-- One event. -/
def step (v : Variant) : Event → State → Outcome
  | .register dataId operation, s => registerSwiperChange dataId operation s
  | .mutations records, s => handleMutations records s
  | .classChange i classList swiper, s => readinessCallback v i classList swiper s

/-- A trace of events; an exception ends the event it occurs in, not the page. -/
def exec (v : Variant) : List Event → State → State
  | [], s => s
  | e :: es, s => exec v es (step v e s).state

/-- The states the module can be in. -/
def Reachable (v : Variant) (s : State) : Prop :=
  ∃ es, s = exec v es State.init

/-- What running operations can change: nothing but the queues of identifiers whose
instance is not truthy, which grow at the end, and the two histories, which grow by
`extra` and by some registrations. -/
structure Grows (s t : State) (extra : List Invocation) : Prop where
  instances : t.swiperInstances = s.swiperInstances
  elements : t.pendingSwiperInstances = s.pendingSwiperInstances
  observers : t.observers = s.observers
  ready : ∀ d, (s.instance? d).truthy = true → t.pendingOperations d = s.pendingOperations d
  queue : ∀ d, t.pendingOperations d = s.pendingOperations d ∨
    ∃ more, t.pendingOperations d = some (s.queue d ++ more)
  invoked : t.invoked = s.invoked ++ extra
  registered : ∃ more, t.registered = s.registered ++ more

/-- The calls found in `extra` were made from the first branch of `registerSwiperChange`,
for an identifier whose instance is truthy in `s`, with that instance. -/
def Immediate (s : State) (extra : List Invocation) : Prop :=
  ∀ x ∈ extra, x.site = .immediate ∧ (s.instance? x.dataId).truthy = true ∧
    x.arg = s.instance? x.dataId

/-- The operation returns whenever it is called, and so does every operation it registers. -/
def Prog.returns : Prog → Bool
  | .ret => true
  | .raise => false
  | .call _ _ body _ next => body.returns && next.returns

/-- The operation throws whenever it is called: what it does ends in a `throw`. -/
def Prog.throws : Prog → Bool
  | .ret => false
  | .raise => true
  | .call _ _ _ _ next => next.throws

/-- The operation does not call back into the module. -/
def Prog.isLeaf : Prog → Bool
  | .ret => true
  | .raise => true
  | .call _ _ _ _ _ => false

/-- Every queued operation returns whenever it is called. -/
def QueuedReturn (s : State) : Prop :=
  ∀ d ops, s.pendingOperations d = some ops → ∀ op ∈ ops, op.body.returns = true

/-- The calls the `forEach` of `applyPendingOperations` makes on `ops`, in order. -/
def drainCalls (d : String) (arg : JSValue) (ops : List Operation) : List Invocation :=
  ops.map fun op => ⟨d, op.label, arg, .drain⟩

/-- The calls of a history that were made by a `forEach` of `applyPendingOperations`. -/
def drained (calls : List Invocation) : List Invocation :=
  calls.filter fun x => decide (x.site = .drain)

/-- The calls of a history made for the identifier `d`. -/
def callsFor (d : String) (calls : List Invocation) : List Invocation :=
  calls.filter fun x => decide (x.dataId = d)

/-- The calls in `extra` are those of a drain of `d` and those the operations caused by
registering for identifiers whose instance is truthy. -/
def Mixed (d : String) (s : State) (extra : List Invocation) : Prop :=
  ∀ x ∈ extra, (x.site = .drain ∧ x.dataId = d ∧ x.arg = s.instance? d) ∨
    (x.site = .immediate ∧ (s.instance? x.dataId).truthy = true ∧ x.arg = s.instance? x.dataId)

/-- The discovery callback leaves the instances, the queues and the histories alone. -/
structure Discovers (s t : State) : Prop where
  instances : t.swiperInstances = s.swiperInstances
  queues : t.pendingOperations = s.pendingOperations
  invoked : t.invoked = s.invoked
  registered : t.registered = s.registered

/-- The event makes a readiness observer of the identifier `d` record an instance. -/
def Event.fulfils : Event → State → String → Bool
  | .classChange i classList _, s, d =>
    isSwiperInitialized classList &&
      match s.observers.get? i with
      | some w => decide (w.dataId = d)
      | none => false
  | .register _ _, _, _ => false
  | .mutations _, _, _ => false

/-- No event of the trace makes a readiness observer of `d` record an instance. -/
def Quiet (v : Variant) (d : String) : List Event → State → Prop
  | [], _ => True
  | e :: es, s => e.fulfils s d = false ∧ Quiet v d es (step v e s).state

/-- Whether a trace is quiet for `d` can be computed. -/
instance Quiet.decidable (v : Variant) (d : String) :
    (es : List Event) → (s : State) → Decidable (Quiet v d es s)
  | [], _ => isTrue trivial
  | e :: es, s => @instDecidableAnd _ _ _ (Quiet.decidable v d es (step v e s).state)

/-- Every recorded instance is a DOM element. -/
def AllElements (s : State) : Prop :=
  ∀ d val, s.swiperInstances d = some val → ∃ r, val = .element r

/-- A trace of the `dist` file: a widget root is discovered under the identifier `a`, and
it receives the initialized class while its `swiper` property is not set. -/
def undefinedTrace : List Event :=
  [.mutations [⟨[⟨1, 1, ["swiper"], some ⟨some "a"⟩⟩]⟩],
   .classChange 0 ["swiper", "swiper-initialized"] .undefined]

/-- The state of the `dist` file after `undefinedTrace`: `swiperInstances.a` exists and
is `undefined`. -/
def undefinedEntry : State :=
  exec .dist undefinedTrace State.init

/-- A state of the `src` file in which the element 1 is recorded for the identifier `a`. -/
def readyEntry : State :=
  exec .src
    [.mutations [⟨[⟨1, 1, ["swiper"], some ⟨some "a"⟩⟩]⟩],
     .classChange 0 ["swiper", "swiper-initialized"] .undefined]
    State.init

/-- A trace in which an operation is registered for an identifier that is never
discovered: other registrations, one of them for an identifier that is ready. -/
def strayTrace : List Event :=
  [.register "b" ⟨8, .ret⟩, .register "a" ⟨9, .call "a" 10 .raise true .ret⟩,
   .classChange 0 ["swiper", "swiper-initialized"] .undefined]

/-- A trace of the `src` file: two operations are registered for `a`, the first of which
throws; then the widget root of `a` is discovered and becomes ready. -/
def throwingTrace : List Event :=
  [.register "a" ⟨1, .raise⟩, .register "a" ⟨2, .ret⟩,
   .mutations [⟨[⟨1, 1, ["swiper"], some ⟨some "a"⟩⟩]⟩],
   .classChange 0 ["swiper", "swiper-initialized"] .undefined]

/-- A state in which the widget root of `a` has been discovered and is not ready. -/
def discoveredEntry : State :=
  exec .src [.mutations [⟨[⟨1, 1, ["swiper"], some ⟨some "a"⟩⟩]⟩]] State.init

/-- A state in which `a` has been discovered and three operations wait for it, the second
of which throws. -/
def waitingEntry : State :=
  exec .src [.register "a" ⟨1, .ret⟩, .register "a" ⟨2, .raise⟩, .register "a" ⟨3, .ret⟩]
    discoveredEntry

/-- The operation the event registers, if any, returns whenever it is called, and so does
every operation it registers. -/
def Event.returns : Event → Bool
  | .register _ operation => operation.body.returns
  | .mutations _ => true
  | .classChange _ _ _ => true

/-- No identifier has both a truthy instance and a queue. -/
def ReadyUnqueued (s : State) : Prop :=
  ∀ d, (s.instance? d).truthy = true → s.pendingOperations d = none

/-- A trace in which every operation returns; one of them registers another. -/
def returningTrace : List Event :=
  [.register "a" ⟨1, .call "b" 2 .ret false .ret⟩,
   .mutations [⟨[⟨1, 1, ["swiper"], some ⟨some "a"⟩⟩]⟩],
   .classChange 0 ["swiper", "swiper-initialized"] (.object 5),
   .register "a" ⟨3, .ret⟩]

/-- A batch of one record with two added widget roots: the first has no ancestor of class
`elementor-element`, the second sits in the container `a`. -/
def orphanBatch : List MutationRecord :=
  [⟨[⟨1, 1, ["swiper"], none⟩, ⟨2, 1, ["swiper"], some ⟨some "a"⟩⟩]⟩]

/-- A widget root whose container has an empty `data-id`. -/
def unnamedNode : Node := ⟨3, 1, ["swiper"], some ⟨some ""⟩⟩

/-- A trace of the `src` file in which two widget roots are discovered under the
identifier `a` and both become ready. -/
def twiceReady : List Event :=
  [.mutations [⟨[⟨1, 1, ["swiper"], some ⟨some "a"⟩⟩, ⟨2, 1, ["swiper"], some ⟨some "a"⟩⟩]⟩],
   .classChange 0 ["swiper", "swiper-initialized"] .undefined,
   .classChange 0 ["swiper", "swiper-initialized"] .undefined]

/-! ## Lookups through the prototype chain

The three registries are plain objects created by `{}`. A read `registry[dataId]` finds
an own property first and otherwise what the prototype chain holds under that name; an
assignment `registry[dataId] = value` changes an own property, creates one, or reaches an
inherited setter. The definitions `Js.*` below follow both. With `Object.prototype` as
prototype the inherited names are its members and the accessor `__proto__`, whose setter
replaces the prototype of the registry. What a registry inherits once its prototype is an
element or another object of the page is an input, `Js.Host`. -/

/-- The JavaScript values met when lookups follow the prototype chain. A `function` is the
built-in function a prototype holds under `name` (`Object` under `constructor`, ...). -/
inductive Js.Value
  | undefined
  | null
  | primitive (truthy : Bool)
  | element (ref : Nat)
  | object (ref : Nat)
  | function (name : String)
  | objectPrototype
  deriving DecidableEq, Repr

/-- Truthiness as tested by `if (value)`. -/
def Js.Value.truthy : Js.Value → Bool
  | .undefined => false
  | .null => false
  | .primitive b => b
  | .element _ => true
  | .object _ => true
  | .function _ => true
  | .objectPrototype => true

/-- The value is an object (functions included), not `null` and not a primitive. -/
def Js.Value.isObject : Js.Value → Bool
  | .element _ => true
  | .object _ => true
  | .function _ => true
  | .objectPrototype => true
  | _ => false

/-- The result of a property read: a value, or a `TypeError` raised by an inherited getter. -/
inductive Js.Lookup
  | found (value : Js.Value)
  | raises
  deriving DecidableEq, Repr

/-- What an assignment under a name the object does not own does, as decided by the
prototype chain: it creates an own property, is ignored (a read-only inherited property),
raises (an inherited setter that rejects the receiver), or reaches the `__proto__` setter. -/
inductive Js.Assign
  | define
  | ignore
  | raises
  | setPrototype
  deriving DecidableEq, Repr

/-- The objects of the page: what an object whose prototype is `p` inherits under `name`
when it is read (`get p name`) and assigned (`set p name`). -/
structure Js.Host where
  get : Js.Value → String → Js.Lookup
  set : Js.Value → String → Js.Assign

/-- The names of the function-valued members of `Object.prototype`. -/
def Js.objectPrototypeMembers : List String :=
  ["constructor", "toString", "toLocaleString", "valueOf", "hasOwnProperty",
   "isPrototypeOf", "propertyIsEnumerable", "__defineGetter__", "__defineSetter__",
   "__lookupGetter__", "__lookupSetter__"]

/-- The identifier is not a name a plain object inherits from `Object.prototype`. -/
def Js.safe (dataId : String) : Bool :=
  dataId != "__proto__" && !Js.objectPrototypeMembers.contains dataId

/-- A read of `name` on an object that does not own it and whose prototype is `proto`. -/
def Js.inherited (h : Js.Host) (proto : Js.Value) (name : String) : Js.Lookup :=
  match proto with
  | .objectPrototype =>
    if name = "__proto__" then .found .objectPrototype
    else if Js.objectPrototypeMembers.contains name then .found (.function name)
    else .found .undefined
  | .element r => h.get (.element r) name
  | .object r => h.get (.object r) name
  | .function n => h.get (.function n) name
  | .undefined => .found .undefined
  | .null => .found .undefined
  | .primitive _ => .found .undefined

/-- The `__proto__` setter: an object or `null` becomes the prototype, any other value is
ignored. -/
def Js.setPrototype (proto value : Js.Value) : Js.Value :=
  if value.isObject || value == .null then value else proto

/-- The assignment `registry[name] = value` on a registry with own properties `own` and
prototype `proto`; `none` when it raises. -/
def Js.assign (h : Js.Host) (own : String → Option Js.Value) (proto : Js.Value)
    (name : String) (value : Js.Value) : Option ((String → Option Js.Value) × Js.Value) :=
  match own name with
  | some _ => some (Function.update own name (some value), proto)
  | none =>
    match proto with
    | .objectPrototype =>
      if name = "__proto__" then some (own, Js.setPrototype proto value)
      else some (Function.update own name (some value), proto)
    | .undefined => some (Function.update own name (some value), proto)
    | .null => some (Function.update own name (some value), proto)
    | .primitive _ => some (Function.update own name (some value), proto)
    | p =>
      match h.set p name with
      | .define => some (Function.update own name (some value), proto)
      | .ignore => some (own, proto)
      | .raises => none
      | .setPrototype => some (own, Js.setPrototype proto value)

/-- One call `operation(swiperInstances[dataId])`. -/
structure Js.Invocation where
  dataId : String
  label : Nat
  arg : Js.Value
  site : Site
  deriving DecidableEq, Repr

/-- The module state: own properties and prototype of `swiperInstances` and of
`pendingSwiperInstances`, own properties of `pendingOperations` (whose prototype stays
`Object.prototype`, see `Js.State.queue?`), the connected readiness observers, and the
two histories. -/
structure Js.State where
  swiperInstances : String → Option Js.Value
  swiperInstancesProto : Js.Value
  pendingSwiperInstances : String → Option Js.Value
  pendingSwiperInstancesProto : Js.Value
  pendingOperations : String → Option (List Operation)
  observers : List Watcher
  invoked : List Js.Invocation
  registered : List (String × Operation)

/-- The state when the module has been loaded: three empty objects. -/
def Js.State.init : Js.State :=
  { swiperInstances := fun _ => none
    swiperInstancesProto := .objectPrototype
    pendingSwiperInstances := fun _ => none
    pendingSwiperInstancesProto := .objectPrototype
    pendingOperations := fun _ => none
    observers := []
    invoked := []
    registered := [] }

/-- How a call ends: it returns, or an exception leaves it. -/
inductive Js.Outcome
  | normal (s : Js.State)
  | thrown (s : Js.State)

/-- The state a call leaves behind. -/
def Js.Outcome.state : Js.Outcome → Js.State
  | .normal s => s
  | .thrown s => s

/-- Whether the call returned. -/
def Js.Outcome.returned : Js.Outcome → Bool
  | .normal _ => true
  | .thrown _ => false

/-- Sequencing: an exception skips what follows. -/
def Js.Outcome.andThen : Js.Outcome → (Js.State → Js.Outcome) → Js.Outcome
  | .normal s, k => k s
  | .thrown s, _ => .thrown s

/-- The read `swiperInstances[dataId]`. -/
def Js.State.instance? (h : Js.Host) (s : Js.State) (dataId : String) : Js.Lookup :=
  match s.swiperInstances dataId with
  | some value => .found value
  | none => Js.inherited h s.swiperInstancesProto dataId

/-- What the read `pendingOperations[dataId]` finds: an own array, an inherited member
(truthy, and with neither `forEach` nor `push`), or nothing. -/
inductive Js.Queue
  | array (operations : List Operation)
  | inherited
  | absent
  deriving DecidableEq, Repr

/-- The read `pendingOperations[dataId]`. The only assignment to `pendingOperations` is
guarded by `!pendingOperations[dataId]`, which is false for `__proto__`, so the prototype
of `pendingOperations` is `Object.prototype` throughout. -/
def Js.State.queue? (s : Js.State) (dataId : String) : Js.Queue :=
  match s.pendingOperations dataId with
  | some operations => .array operations
  | none => if Js.safe dataId then .absent else .inherited

/-- The own array `pendingOperations[dataId]`, empty when there is none. -/
def Js.State.queue (s : Js.State) (dataId : String) : List Operation :=
  (s.pendingOperations dataId).getD []

/-- History: `registerSwiperChange(dataId, operation)` has been entered. -/
def Js.State.noteRegistered (s : Js.State) (dataId : String) (operation : Operation) :
    Js.State :=
  { s with registered := s.registered ++ [(dataId, operation)] }

/-- History: `operation(value)` is being called for `dataId`. -/
def Js.State.noteInvoked (s : Js.State) (dataId : String) (label : Nat) (value : Js.Value)
    (site : Site) : Js.State :=
  { s with invoked := s.invoked ++ [⟨dataId, label, value, site⟩] }

/-- The else branch of `registerSwiperChange` when `pendingOperations[dataId]` is an own
array or nothing: create the array if absent, then push. -/
def Js.State.enqueue (s : Js.State) (dataId : String) (operation : Operation) : Js.State :=
  { s with pendingOperations :=
      Function.update s.pendingOperations dataId (some (s.queue dataId ++ [operation])) }

/-- The statement `delete pendingOperations[dataId]`: it removes an own property. -/
def Js.State.clear (s : Js.State) (dataId : String) : Js.State :=
  { s with pendingOperations := Function.update s.pendingOperations dataId none }

/-- The state in which the own property `swiperInstances[dataId]` holds `value`. -/
def Js.State.define (s : Js.State) (dataId : String) (value : Js.Value) : Js.State :=
  { s with swiperInstances := Function.update s.swiperInstances dataId (some value) }

/-- The assignment `swiperInstances[dataId] = value`; `none` when it raises. -/
def Js.State.record (h : Js.Host) (s : Js.State) (dataId : String) (value : Js.Value) :
    Option Js.State :=
  match Js.assign h s.swiperInstances s.swiperInstancesProto dataId value with
  | some (own, proto) => some { s with swiperInstances := own, swiperInstancesProto := proto }
  | none => none

/-- The assignment `pendingSwiperInstances[dataId] = node`; `none` when it raises. -/
def Js.State.remember (h : Js.Host) (s : Js.State) (dataId : String) (value : Js.Value) :
    Option Js.State :=
  match Js.assign h s.pendingSwiperInstances s.pendingSwiperInstancesProto dataId value with
  | some (own, proto) =>
    some { s with pendingSwiperInstances := own, pendingSwiperInstancesProto := proto }
  | none => none

/-- The creation of a readiness observer on `node`, closing over `dataId`. -/
def Js.State.observe (s : Js.State) (node : Nat) (dataId : String) : Js.State :=
  { s with observers := s.observers ++ [⟨node, dataId⟩] }

/-- The call `obs.disconnect()` of the readiness observer at position `i`. -/
def Js.State.disconnect (s : Js.State) (i : Nat) : Js.State :=
  { s with observers := s.observers.eraseIdx i }

/-- Runs the body of an operation. A `Prog.call` is `registerSwiperChange` called from
inside the operation (see `Js.runBody_registers`). -/
def Js.runBody (h : Js.Host) : Prog → Js.State → Js.Outcome
  | .ret, s => .normal s
  | .raise, s => .thrown s
  | .call dataId label body caught next, s =>
    let s1 := s.noteRegistered dataId ⟨label, body⟩
    match s1.instance? h dataId with
    | .raises => if caught then Js.runBody h next s1 else .thrown s1
    | .found value =>
      if value.truthy then
        match Js.runBody h body (s1.noteInvoked dataId label value .immediate) with
        | .normal s2 => Js.runBody h next s2
        | .thrown s2 => if caught then Js.runBody h next s2 else .thrown s2
      else
        match s1.queue? dataId with
        | .inherited => if caught then Js.runBody h next s1 else .thrown s1
        | .array _ => Js.runBody h next (s1.enqueue dataId ⟨label, body⟩)
        | .absent => Js.runBody h next (s1.enqueue dataId ⟨label, body⟩)

/-- The source function `registerSwiperChange`. A read that raises ends it; so does the
`push` on an inherited member, which is not a function. -/
def Js.registerSwiperChange (h : Js.Host) (dataId : String) (operation : Operation)
    (s : Js.State) : Js.Outcome :=
  let s1 := s.noteRegistered dataId operation
  match s1.instance? h dataId with
  | .raises => .thrown s1
  | .found value =>
    if value.truthy then
      Js.runBody h operation.body (s1.noteInvoked dataId operation.label value .immediate)
    else
      match s1.queue? dataId with
      | .inherited => .thrown s1
      | .array _ => .normal (s1.enqueue dataId operation)
      | .absent => .normal (s1.enqueue dataId operation)

/-- The callback of the `forEach` in `applyPendingOperations`:
`operation(swiperInstances[dataId])`. -/
def Js.invoke (h : Js.Host) (dataId : String) (operation : Operation) (s : Js.State) :
    Js.Outcome :=
  match s.instance? h dataId with
  | .raises => .thrown s
  | .found value => Js.runBody h operation.body (s.noteInvoked dataId operation.label value .drain)

/-- The array method `forEach`: the callback runs on each element in turn and an exception
leaves the loop. -/
def Js.forEach {α : Type} (f : α → Js.State → Js.Outcome) : List α → Js.State → Js.Outcome
  | [], s => .normal s
  | x :: xs, s => (f x s).andThen (Js.forEach f xs)

/-- The source function `applyPendingOperations`. On an inherited member the call of
`forEach`, which is `undefined` there, raises. The operations visited are those in the
array when `forEach` starts. -/
def Js.applyPendingOperations (h : Js.Host) (dataId : String) (s : Js.State) : Js.Outcome :=
  match s.queue? dataId with
  | .array operations =>
    (Js.forEach (Js.invoke h dataId) operations s).andThen fun s1 => .normal (s1.clear dataId)
  | .inherited => .thrown s
  | .absent => .normal s

/-- The inner callback of `handleMutations`, run on one added node. -/
def Js.handleNode (h : Js.Host) (node : Node) (s : Js.State) : Js.Outcome :=
  if node.nodeType == 1 && isSwiperElement node.classList then
    match node.closest with
    | none => .thrown s
    | some containerElement =>
      if dataIdTruthy containerElement.dataId then
        match s.remember h (containerElement.dataId.getD "") (.element node.ref) with
        | some s1 => .normal (s1.observe node.ref (containerElement.dataId.getD ""))
        | none => .thrown s
      else .normal s
  else .normal s

/-- The source function `handleMutations`. -/
def Js.handleMutations (h : Js.Host) (mutations : List MutationRecord) (s : Js.State) :
    Js.Outcome :=
  Js.forEach (fun mutation => Js.forEach (Js.handleNode h) mutation.addedNodes) mutations s

/-- The value assigned to `swiperInstances[dataId]` at readiness: `node` in `src`,
`node.swiper` in `dist`. -/
def Js.recorded : Variant → Nat → Js.Value → Js.Value
  | .src, node, _ => .element node
  | .dist, _, swiper => swiper

/-- The callback of the readiness observer at position `i`, run when the class attribute
of its node has changed; `classList` and `swiper` are what the node holds then. -/
def Js.readinessCallback (h : Js.Host) (v : Variant) (i : Nat) (classList : List String)
    (swiper : Js.Value) (s : Js.State) : Js.Outcome :=
  match s.observers.get? i with
  | none => .normal s
  | some w =>
    if isSwiperInitialized classList then
      match s.record h w.dataId (Js.recorded v w.node swiper) with
      | none => .thrown s
      | some s1 =>
        (Js.applyPendingOperations h w.dataId s1).andThen fun s2 => .normal (s2.disconnect i)
    else .normal s

/-- What the host can make the module do. -/
inductive Js.Event
  | register (dataId : String) (operation : Operation)
  | mutations (records : List MutationRecord)
  | classChange (observer : Nat) (classList : List String) (swiper : Js.Value)

/-- One event. -/
def Js.step (h : Js.Host) (v : Variant) : Js.Event → Js.State → Js.Outcome
  | .register dataId operation, s => Js.registerSwiperChange h dataId operation s
  | .mutations records, s => Js.handleMutations h records s
  | .classChange i classList swiper, s => Js.readinessCallback h v i classList swiper s

/-- A trace of events; an exception ends the event it occurs in, not the page. -/
def Js.exec (h : Js.Host) (v : Variant) : List Js.Event → Js.State → Js.State
  | [], s => s
  | e :: es, s => Js.exec h v es (Js.step h v e s).state

/-- A page whose elements answer as a browser does for the names used below: `closest`
is a method, `id` is an accessor that rejects a receiver that is not an element,
`__proto__` and the members of `Object.prototype` are inherited, other names are not
found. -/
def Js.pageHost : Js.Host :=
  { get := fun p name =>
      if name = "__proto__" then .found p
      else if name = "closest" then .found (.function "closest")
      else if name = "id" then .raises
      else if Js.objectPrototypeMembers.contains name then .found (.function name)
      else .found .undefined
    set := fun _ name =>
      if name = "__proto__" then .setPrototype
      else if name = "id" then .raises
      else .define }

/-- What running operations can change: nothing but the own queues, which grow at the end
(and not at all for an identifier whose lookup is truthy), and the histories. -/
structure Js.Runs (h : Js.Host) (s t : Js.State) (extra : List Js.Invocation) : Prop where
  instances : t.swiperInstances = s.swiperInstances
  instancesProto : t.swiperInstancesProto = s.swiperInstancesProto
  elements : t.pendingSwiperInstances = s.pendingSwiperInstances
  elementsProto : t.pendingSwiperInstancesProto = s.pendingSwiperInstancesProto
  observers : t.observers = s.observers
  ready : ∀ d value, s.instance? h d = .found value → value.truthy = true →
    t.pendingOperations d = s.pendingOperations d
  queue : ∀ d, t.pendingOperations d = s.pendingOperations d ∨
    ∃ more, t.pendingOperations d = some (s.queue d ++ more)
  invoked : t.invoked = s.invoked ++ extra

/-- The calls found in `extra` were made from the first branch of `registerSwiperChange`,
for an identifier whose lookup in `s` is truthy, with the value found. -/
def Js.Direct (h : Js.Host) (s : Js.State) (extra : List Js.Invocation) : Prop :=
  ∀ x ∈ extra, x.site = .immediate ∧ s.instance? h x.dataId = .found x.arg ∧
    x.arg.truthy = true

/-- The calls the `forEach` of `applyPendingOperations` makes on `ops`, in order. -/
def Js.drainCalls (d : String) (arg : Js.Value) (ops : List Operation) :
    List Js.Invocation :=
  ops.map fun op => ⟨d, op.label, arg, .drain⟩

/-- The calls of a history that were made by a `forEach` of `applyPendingOperations`. -/
def Js.drained (calls : List Js.Invocation) : List Js.Invocation :=
  calls.filter fun x => decide (x.site = .drain)

/-- The calls of a history made for the identifier `d`. -/
def Js.callsFor (d : String) (calls : List Js.Invocation) : List Js.Invocation :=
  calls.filter fun x => decide (x.dataId = d)

/-- The calls in `extra` are those of a drain of `d` and those the operations caused by
registering for identifiers whose lookup is truthy. -/
def Js.Mixed (h : Js.Host) (d : String) (s : Js.State) (extra : List Js.Invocation) : Prop :=
  ∀ x ∈ extra, (x.site = .drain ∧ x.dataId = d) ∨
    (x.site = .immediate ∧ s.instance? h x.dataId = .found x.arg ∧ x.arg.truthy = true)

/-- The discovery callback leaves `swiperInstances`, the queues and the histories alone. -/
structure Js.Finds (s t : Js.State) : Prop where
  instances : t.swiperInstances = s.swiperInstances
  instancesProto : t.swiperInstancesProto = s.swiperInstancesProto
  queues : t.pendingOperations = s.pendingOperations
  invoked : t.invoked = s.invoked
  registered : t.registered = s.registered

/-- The event makes a readiness observer of the identifier `d` assign
`swiperInstances[d]`. -/
def Js.Event.fulfils : Js.Event → Js.State → String → Bool
  | .classChange i classList _, s, d =>
    isSwiperInitialized classList &&
      match s.observers.get? i with
      | some w => decide (w.dataId = d)
      | none => false
  | .register _ _, _, _ => false
  | .mutations _, _, _ => false

/-- No event of the trace makes a readiness observer of `d` assign `swiperInstances[d]`. -/
def Js.Quiet (h : Js.Host) (v : Variant) (d : String) : List Js.Event → Js.State → Prop
  | [], _ => True
  | e :: es, s => e.fulfils s d = false ∧ Js.Quiet h v d es (Js.step h v e s).state

/-- Whether a trace is quiet for `d` can be computed. -/
instance Js.Quiet.decidable (h : Js.Host) (v : Variant) (d : String) :
    (es : List Js.Event) → (s : Js.State) → Decidable (Js.Quiet h v d es s)
  | [], _ => isTrue trivial
  | e :: es, s =>
    @instDecidableAnd _ _ _ (Js.Quiet.decidable h v d es (Js.step h v e s).state)

/-- A trace after a registration for an identifier that is never discovered: other
registrations, a discovery and a readiness callback for another identifier. -/
def Js.strayTrace : List Js.Event :=
  [.register "b" ⟨8, .ret⟩, .register "constructor" ⟨9, .call "a" 10 .raise true .ret⟩,
   .mutations [⟨[⟨1, 1, ["swiper"], some ⟨some "b"⟩⟩]⟩],
   .classChange 0 ["swiper", "swiper-initialized"] (.object 5)]

/-- A trace in which two operations are registered for `a`, the first of which throws;
then the widget root of `a` is discovered and becomes ready. -/
def Js.throwingTrace : List Js.Event :=
  [.register "a" ⟨1, .raise⟩, .register "a" ⟨2, .ret⟩,
   .mutations [⟨[⟨1, 1, ["swiper"], some ⟨some "a"⟩⟩]⟩],
   .classChange 0 ["swiper", "swiper-initialized"] .undefined]

/-- A trace in which an operation is registered for `constructor`, and then a widget
root in a container whose `data-id` is `constructor` is discovered and becomes ready. -/
def Js.constructorTrace : List Js.Event :=
  [.register "constructor" ⟨1, .ret⟩,
   .mutations [⟨[⟨1, 1, ["swiper"], some ⟨some "constructor"⟩⟩]⟩],
   .classChange 0 ["swiper", "swiper-initialized"] .undefined]

/-- The state in which the widget root of `a` has been discovered and is not ready. -/
def Js.discoveredEntry : Js.State :=
  Js.exec Js.pageHost .src [.mutations [⟨[⟨1, 1, ["swiper"], some ⟨some "a"⟩⟩]⟩]] Js.State.init

/-- Three operations; the second registers another for `a`, the third registers for `b`
an operation that throws and catches what the registration may raise. -/
def Js.threeOperations : List Operation :=
  [⟨1, .ret⟩, ⟨2, .call "a" 3 .ret false .ret⟩, ⟨4, .call "b" 5 .raise true .ret⟩]

/-- The value a read yields, `undefined` standing for a read that raises. -/
def Js.Lookup.value : Js.Lookup → Js.Value
  | .found value => value
  | .raises => .undefined

/-- The state in which a widget root whose container has the `data-id` `__proto__` has
been discovered and is not ready. -/
def Js.discoveredProto : Js.State :=
  Js.exec Js.pageHost .src
    [.mutations [⟨[⟨1, 1, ["swiper"], some ⟨some "__proto__"⟩⟩]⟩]] Js.State.init

/-- A state in which `a` and `b` have been discovered and operations wait for both. -/
def Js.twoQueues : Js.State :=
  Js.exec Js.pageHost .src
    [.register "a" ⟨1, .ret⟩, .register "b" ⟨2, .ret⟩, .register "a" ⟨3, .raise⟩,
     .mutations [⟨[⟨1, 1, ["swiper"], some ⟨some "a"⟩⟩, ⟨2, 1, ["swiper"], some ⟨some "b"⟩⟩]⟩]]
    Js.State.init

/-- The identifiers an operation registers for, itself or through the operations it
registers. -/
def Prog.ids : Prog → List String
  | .ret => []
  | .raise => []
  | .call dataId _ body _ next => dataId :: (body.ids ++ next.ids)

/-- No operation registered by this one registers, itself or through the operations it
registers, for the identifier it is registered for. -/
def Prog.selfFree : Prog → Bool
  | .ret => true
  | .raise => true
  | .call dataId _ body _ next => !body.ids.contains dataId && body.selfFree && next.selfFree

/-- The operation, registered for `d`, never registers for `d`, neither itself nor through
the operations it registers, the same holds of those operations, and all the identifiers
they register for are safe. -/
def Js.fit (d : String) (op : Operation) : Bool :=
  !op.body.ids.contains d && op.body.selfFree && op.body.ids.all Js.safe

/-- The operations called so far for `d`, by label, in the order of the calls. -/
def Js.calledFor (d : String) (s : Js.State) : List Nat :=
  (Js.callsFor d s.invoked).map fun x => x.label

/-- The operations registered so far for `d`, by label, in the order of registration. -/
def Js.registeredFor (d : String) (s : Js.State) : List Nat :=
  (s.registered.filter fun p => decide (p.1 = d)).map fun p => p.2.label

/-- The operations in the own queue of `d`, by label. -/
def Js.waitingFor (d : String) (s : Js.State) : List Nat :=
  (s.queue d).map fun op => op.label

/-- For `d`, the operations called followed by those waiting are the operations
registered, in the order of registration. -/
def Js.Balanced (d : String) (s : Js.State) : Prop :=
  Js.calledFor d s ++ Js.waitingFor d s = Js.registeredFor d s

/-- An identifier with a truthy entry has no queue. -/
def Js.Unqueued (d : String) (s : Js.State) : Prop :=
  ∀ value, s.swiperInstances d = some value → value.truthy = true →
    s.pendingOperations d = none

/-- Every queued operation fits the identifier it waits for. -/
def Js.QueuedFit (s : Js.State) : Prop :=
  ∀ d ops, s.pendingOperations d = some ops → ∀ op ∈ ops, Js.fit d op = true

/-- What a run that registers only for the identifiers `ids` does to the tallies: those
of other identifiers are untouched, a balance is kept, queued operations still fit. -/
structure Js.Tallies (ids : List String) (s t : Js.State) : Prop where
  frame : ∀ b, b ∉ ids → Js.calledFor b t = Js.calledFor b s ∧
    Js.registeredFor b t = Js.registeredFor b s ∧ t.pendingOperations b = s.pendingOperations b
  balanced : ∀ b, Js.Balanced b s → Js.Balanced b t
  fit : Js.QueuedFit s → Js.QueuedFit t

/-- The event is one the order of the calls survives: a registration for a safe identifier
of an operation that fits it; a readiness callback that, when its node carries the
initialized class, is for a safe identifier and is not left by an exception. -/
def Js.Event.orderly (h : Js.Host) (v : Variant) : Js.Event → Js.State → Bool
  | .register dataId operation, _ => Js.safe dataId && Js.fit dataId operation
  | .mutations _, _ => true
  | .classChange i classList swiper, s =>
    match s.observers.get? i with
    | some w =>
      !isSwiperInitialized classList ||
        (Js.safe w.dataId && (Js.readinessCallback h v i classList swiper s).returned)
    | none => true

/-- Every event of the trace is orderly in the state it occurs in. -/
def Js.Orderly (h : Js.Host) (v : Variant) : List Js.Event → Js.State → Prop
  | [], _ => True
  | e :: es, s => e.orderly h v s = true ∧ Js.Orderly h v es (Js.step h v e s).state

/-- Whether a trace is orderly can be computed. -/
instance Js.Orderly.decidable (h : Js.Host) (v : Variant) :
    (es : List Js.Event) → (s : Js.State) → Decidable (Js.Orderly h v es s)
  | [], _ => isTrue trivial
  | e :: es, s => @instDecidableAnd _ _ _ (Js.Orderly.decidable h v es (Js.step h v e s).state)

/-- What the order of the calls rests on: `Object.prototype` is the prototype of
`swiperInstances`, no identifier has both a truthy entry and a queue, every queued
operation fits its identifier, and every identifier is balanced. -/
structure Js.Sound (s : Js.State) : Prop where
  pristine : s.swiperInstancesProto = .objectPrototype
  unqueued : ∀ b, Js.Unqueued b s
  fit : Js.QueuedFit s
  balanced : ∀ b, Js.Balanced b s

/-- A trace in which the first of two operations queued for `a` registers a third one for
`a` while it runs in the drain. -/
def Js.reentrantTrace : List Js.Event :=
  [.register "a" ⟨1, .call "a" 3 .ret false .ret⟩, .register "a" ⟨2, .ret⟩,
   .mutations [⟨[⟨1, 1, ["swiper"], some ⟨some "a"⟩⟩]⟩],
   .classChange 0 ["swiper", "swiper-initialized"] .undefined]

/-- A trace in which an operation is registered for `closest`, a widget root in a
container whose `data-id` is `__proto__` is discovered and becomes ready, and a second
operation is registered for `closest`. -/
def Js.protoTrace : List Js.Event :=
  [.register "closest" ⟨1, .ret⟩,
   .mutations [⟨[⟨1, 1, ["swiper"], some ⟨some "__proto__"⟩⟩]⟩],
   .classChange 0 ["swiper", "swiper-initialized"] .undefined,
   .register "closest" ⟨2, .ret⟩]

/-- An orderly trace: operations that register for other identifiers, an operation that
throws when it is called at once, two widget roots under `a`, and readiness callbacks
for `a`, twice, and for `b`. -/
def Js.orderlyTrace : List Js.Event :=
  [.register "a" ⟨1, .call "b" 2 .ret false .ret⟩, .register "b" ⟨3, .ret⟩,
   .mutations [⟨[⟨1, 1, ["swiper"], some ⟨some "a"⟩⟩, ⟨2, 1, ["swiper"], some ⟨some "a"⟩⟩,
     ⟨3, 1, ["swiper"], some ⟨some "b"⟩⟩]⟩],
   .classChange 0 ["swiper", "swiper-initialized"] (.object 4),
   .register "a" ⟨4, .call "b" 5 .ret true .ret⟩,
   .register "a" ⟨6, .raise⟩,
   .classChange 0 ["swiper", "swiper-initialized"] (.object 5),
   .classChange 0 ["swiper", "swiper-initialized"] (.object 6),
   .register "b" ⟨7, .call "a" 8 .ret false .ret⟩]

/-- The value as the second layer has it. -/
def JSValue.toJs : JSValue → Js.Value
  | .undefined => .undefined
  | .element ref => .element ref
  | .object ref => .object ref

/-- The call as the second layer has it. -/
def Invocation.toJs (x : Invocation) : Js.Invocation :=
  ⟨x.dataId, x.label, x.arg.toJs, x.site⟩

/-- The state of the first layer seen in the second: the same own properties, on
registries whose prototype is `Object.prototype`. -/
def State.toJs (s : State) : Js.State :=
  { swiperInstances := fun d => (s.swiperInstances d).map JSValue.toJs
    swiperInstancesProto := .objectPrototype
    pendingSwiperInstances := fun d => (s.pendingSwiperInstances d).map JSValue.toJs
    pendingSwiperInstancesProto := .objectPrototype
    pendingOperations := s.pendingOperations
    observers := s.observers
    invoked := s.invoked.map Invocation.toJs
    registered := s.registered }

/-- The outcome as the second layer has it. -/
def Outcome.toJs : Outcome → Js.Outcome
  | .normal s => .normal s.toJs
  | .thrown s => .thrown s.toJs

/-- The event as the second layer has it. -/
def Event.toJs : Event → Js.Event
  | .register dataId operation => .register dataId operation
  | .mutations records => .mutations records
  | .classChange i classList swiper => .classChange i classList swiper.toJs

/-- The identifiers the event brings in (the one registered for, those the operation
registers for, the `data-id` of the containers of the added nodes) are not names inherited
from `Object.prototype`. -/
def Event.plain : Event → Bool
  | .register dataId operation => Js.safe dataId && operation.body.ids.all Js.safe
  | .mutations records =>
    records.all fun mutation => mutation.addedNodes.all fun node =>
      match node.closest with
      | some containerElement => Js.safe (containerElement.dataId.getD "")
      | none => true
  | .classChange _ _ _ => true

/-- The identifiers of the connected observers, and those the queued operations register
for, are not names inherited from `Object.prototype`. -/
structure Plain (s : State) : Prop where
  observers : ∀ w ∈ s.observers, Js.safe w.dataId = true
  queued : ∀ d ops, s.pendingOperations d = some ops →
    ∀ op ∈ ops, op.body.ids.all Js.safe = true

/-! # Theorems -/

/-- A call made by an operation is `registerSwiperChange`, followed by the rest of the
operation unless an exception that is not caught leaves it. -/
theorem runBody_call (dataId : String) (label : Nat) (body : Prog) (caught : Bool)
    (next : Prog) (s : State) :
    runBody (.call dataId label body caught next) s =
      match registerSwiperChange dataId ⟨label, body⟩ s with
      | .normal s2 => runBody next s2
      | .thrown s2 => if caught then runBody next s2 else .thrown s2 := by
  simp only [runBody, registerSwiperChange, invoke]
  split <;> rfl

theorem Grows.refl (s : State) : Grows s s [] :=
  ⟨rfl, rfl, rfl, fun _ _ => rfl, fun _ => Or.inl rfl, by simp, ⟨[], by simp⟩⟩

theorem Grows.instance_eq {s t : State} {extra : List Invocation} (h : Grows s t extra)
    (d : String) : t.instance? d = s.instance? d := by
  simp [State.instance?, h.instances]

theorem Grows.trans {s t u : State} {e1 e2 : List Invocation} (h1 : Grows s t e1)
    (h2 : Grows t u e2) : Grows s u (e1 ++ e2) := by
  refine ⟨h2.instances.trans h1.instances, h2.elements.trans h1.elements,
    h2.observers.trans h1.observers, ?_, ?_, ?_, ?_⟩
  · intro d hd
    rw [h2.ready d (by rw [h1.instance_eq]; exact hd), h1.ready d hd]
  · intro d
    rcases h1.queue d with a | ⟨m1, a⟩ <;> rcases h2.queue d with b | ⟨m2, b⟩
    · exact Or.inl (b.trans a)
    · right; exact ⟨m2, by rw [b]; simp [State.queue, a]⟩
    · right; exact ⟨m1, b.trans a⟩
    · right; exact ⟨m1 ++ m2, by rw [b]; simp [State.queue, a]⟩
  · rw [h2.invoked, h1.invoked, List.append_assoc]
  · obtain ⟨m1, a⟩ := h1.registered
    obtain ⟨m2, b⟩ := h2.registered
    exact ⟨m1 ++ m2, by rw [b, a, List.append_assoc]⟩

theorem grows_noteRegistered (s : State) (d : String) (op : Operation) :
    Grows s (s.noteRegistered d op) [] :=
  ⟨rfl, rfl, rfl, fun _ _ => rfl, fun _ => Or.inl rfl, by simp [State.noteRegistered],
    ⟨[(d, op)], rfl⟩⟩

theorem grows_noteInvoked (s : State) (d : String) (l : Nat) (site : Site) :
    Grows s (s.noteInvoked d l site) [⟨d, l, s.instance? d, site⟩] :=
  ⟨rfl, rfl, rfl, fun _ _ => rfl, fun _ => Or.inl rfl, rfl, ⟨[], by simp [State.noteInvoked]⟩⟩

theorem grows_enqueue (s : State) (d : String) (op : Operation)
    (h : (s.instance? d).truthy = false) : Grows s (s.enqueue d op) [] := by
  refine ⟨rfl, rfl, rfl, ?_, ?_, by simp [State.enqueue], ⟨[], by simp [State.enqueue]⟩⟩
  · intro d2 hd2
    have hne : d2 ≠ d := by
      rintro rfl
      rw [h] at hd2
      exact Bool.noConfusion hd2
    simp [State.enqueue, Function.update_noteq hne]
  · intro d2
    by_cases hd : d2 = d
    · subst hd
      right
      exact ⟨[op], by simp [State.enqueue]⟩
    · left
      simp [State.enqueue, Function.update_noteq hd]

theorem Immediate.concat {s t : State} {e0 e1 e2 : List Invocation} (h : Grows s t e0)
    (h1 : Immediate s e1) (h2 : Immediate t e2) : Immediate s (e1 ++ e2) := by
  intro x hx
  rcases List.mem_append.1 hx with hx | hx
  · exact h1 x hx
  · have := h2 x hx
    rwa [h.instance_eq] at this

theorem runBody_grows (b : Prog) : ∀ s : State,
    ∃ extra, Grows s (runBody b s).state extra ∧ Immediate s extra := by
  induction b with
  | ret => exact fun s => ⟨[], Grows.refl s, by simp [Immediate]⟩
  | raise => exact fun s => ⟨[], Grows.refl s, by simp [Immediate]⟩
  | call d l body caught next ihb ihn =>
    intro s
    have hreg := grows_noteRegistered s d ⟨l, body⟩
    by_cases ht : ((s.noteRegistered d ⟨l, body⟩).instance? d).truthy = true
    · have hinv := grows_noteInvoked (s.noteRegistered d ⟨l, body⟩) d l .immediate
      have h01 := hreg.trans hinv
      have himm1 : Immediate s ([] ++ [⟨d, l, (s.noteRegistered d ⟨l, body⟩).instance? d,
          .immediate⟩]) := by
        intro x hx
        simp only [List.nil_append, List.mem_singleton] at hx
        subst hx
        rw [hreg.instance_eq] at ht ⊢
        exact ⟨rfl, ht, rfl⟩
      obtain ⟨eb, hb, hbi⟩ :=
        ihb ((s.noteRegistered d ⟨l, body⟩).noteInvoked d l .immediate)
      have h02 := h01.trans hb
      have himm2 := Immediate.concat h01 himm1 hbi
      cases hrun : runBody body ((s.noteRegistered d ⟨l, body⟩).noteInvoked d l .immediate) with
      | normal s2 =>
        rw [hrun] at hb h02
        obtain ⟨en, hn, hni⟩ := ihn s2
        refine ⟨_, ?_, Immediate.concat h02 himm2 hni⟩
        simp only [runBody, ht, if_true, hrun]
        exact h02.trans hn
      | thrown s2 =>
        rw [hrun] at hb h02
        cases caught with
        | true =>
          obtain ⟨en, hn, hni⟩ := ihn s2
          refine ⟨_, ?_, Immediate.concat h02 himm2 hni⟩
          simp only [runBody, ht, if_true, hrun]
          exact h02.trans hn
        | false =>
          refine ⟨_, ?_, himm2⟩
          simp only [runBody, ht, if_true, hrun]
          exact h02
    · have ht2 : ((s.noteRegistered d ⟨l, body⟩).instance? d).truthy = false := by
        simpa using ht
      have henq := grows_enqueue (s.noteRegistered d ⟨l, body⟩) d ⟨l, body⟩ ht2
      have h01 := hreg.trans henq
      obtain ⟨en, hn, hni⟩ := ihn ((s.noteRegistered d ⟨l, body⟩).enqueue d ⟨l, body⟩)
      have hnil : Immediate s ([] ++ []) := by simp [Immediate]
      refine ⟨_, ?_, Immediate.concat h01 hnil hni⟩
      simp only [runBody, ht]
      exact h01.trans hn

theorem runBody_returns (b : Prog) : ∀ s : State, b.returns = true →
    ∃ t, runBody b s = .normal t := by
  induction b with
  | ret => exact fun s _ => ⟨s, rfl⟩
  | raise => exact fun s h => by simp [Prog.returns] at h
  | call d l body caught next ihb ihn =>
    intro s h
    simp only [Prog.returns, Bool.and_eq_true] at h
    by_cases ht : ((s.noteRegistered d ⟨l, body⟩).instance? d).truthy = true
    · obtain ⟨s2, h2⟩ := ihb ((s.noteRegistered d ⟨l, body⟩).noteInvoked d l .immediate) h.1
      obtain ⟨t, h3⟩ := ihn s2 h.2
      exact ⟨t, by simp only [runBody, ht, if_true, h2, h3]⟩
    · obtain ⟨t, h3⟩ := ihn ((s.noteRegistered d ⟨l, body⟩).enqueue d ⟨l, body⟩) h.2
      exact ⟨t, by simp only [runBody, ht, h3]; rfl⟩

theorem runBody_throws (b : Prog) : ∀ s : State, b.throws = true →
    ∃ t, runBody b s = .thrown t := by
  induction b with
  | ret => exact fun s h => by simp [Prog.throws] at h
  | raise => exact fun s _ => ⟨s, rfl⟩
  | call d l body caught next _ ihn =>
    intro s h
    simp only [Prog.throws] at h
    by_cases ht : ((s.noteRegistered d ⟨l, body⟩).instance? d).truthy = true
    · cases hrun : runBody body ((s.noteRegistered d ⟨l, body⟩).noteInvoked d l .immediate) with
      | normal s2 =>
        obtain ⟨t, h3⟩ := ihn s2 h
        exact ⟨t, by simp only [runBody, ht, if_true, hrun, h3]⟩
      | thrown s2 =>
        cases caught with
        | true =>
          obtain ⟨t, h3⟩ := ihn s2 h
          exact ⟨t, by simp only [runBody, ht, if_true, hrun, h3]⟩
        | false => exact ⟨s2, by simp only [runBody, ht, if_true, hrun]; rfl⟩
    · obtain ⟨t, h3⟩ := ihn ((s.noteRegistered d ⟨l, body⟩).enqueue d ⟨l, body⟩) h
      exact ⟨t, by simp only [runBody, ht, h3]; rfl⟩

theorem queuedReturn_enqueue (s : State) (d : String) (op : Operation)
    (hs : QueuedReturn s) (hop : op.body.returns = true) : QueuedReturn (s.enqueue d op) := by
  intro d2 ops h x hx
  by_cases hd : d2 = d
  · subst hd
    simp only [State.enqueue, Function.update_same, Option.some.injEq] at h
    subst h
    rcases List.mem_append.1 hx with hx | hx
    · cases hq : s.pendingOperations d2 with
      | none => simp [State.queue, hq] at hx
      | some q =>
        simp only [State.queue, hq, Option.getD_some] at hx
        exact hs d2 q hq x hx
    · simp only [List.mem_singleton] at hx
      subst hx
      exact hop
  · simp only [State.enqueue, Function.update_noteq hd] at h
    exact hs d2 ops h x hx

theorem runBody_queuedReturn (b : Prog) : ∀ s : State, b.returns = true → QueuedReturn s →
    QueuedReturn (runBody b s).state := by
  induction b with
  | ret => exact fun s _ hs => hs
  | raise => exact fun s _ hs => hs
  | call d l body caught next ihb ihn =>
    intro s h hs
    simp only [Prog.returns, Bool.and_eq_true] at h
    by_cases ht : ((s.noteRegistered d ⟨l, body⟩).instance? d).truthy = true
    · have h1 := ihb ((s.noteRegistered d ⟨l, body⟩).noteInvoked d l .immediate) h.1 hs
      obtain ⟨s2, h2⟩ :=
        runBody_returns body ((s.noteRegistered d ⟨l, body⟩).noteInvoked d l .immediate) h.1
      rw [h2] at h1
      have h3 := ihn s2 h.2 h1
      simpa only [runBody, ht, if_true, h2] using h3
    · have h1 := queuedReturn_enqueue (s.noteRegistered d ⟨l, body⟩) d ⟨l, body⟩ hs h.1
      have h3 := ihn _ h.2 h1
      simpa only [runBody, ht] using h3

theorem invoke_grows (d : String) (site : Site) (op : Operation) (s : State) :
    ∃ rest, Grows s (invoke d site op s).state (⟨d, op.label, s.instance? d, site⟩ :: rest) ∧
      Immediate s rest := by
  have h1 := grows_noteInvoked s d op.label site
  obtain ⟨rest, h2, h3⟩ := runBody_grows op.body (s.noteInvoked d op.label site)
  refine ⟨rest, h1.trans h2, ?_⟩
  intro x hx
  have := h3 x hx
  rwa [h1.instance_eq] at this

theorem forEach_append {α : Type} (f : α → State → Outcome) (xs ys : List α) :
    ∀ s, forEach f (xs ++ ys) s = (forEach f xs s).andThen (forEach f ys) := by
  induction xs with
  | nil => intro s; rfl
  | cons x xs ih =>
    intro s
    simp only [List.cons_append, forEach]
    cases f x s with
    | normal t => exact ih t
    | thrown t => rfl

theorem drained_append (a b : List Invocation) : drained (a ++ b) = drained a ++ drained b := by
  simp [drained]

theorem Immediate.drained_eq {s : State} {extra : List Invocation} (h : Immediate s extra) :
    drained extra = [] := by
  simp only [drained, List.filter_eq_nil_iff, decide_eq_true_eq]
  intro x hx hd
  have := (h x hx).1
  rw [hd] at this
  exact Site.noConfusion this

theorem Mixed.extend {d : String} {s t : State} {e0 e1 e2 : List Invocation}
    (h : Grows s t e0) (h1 : Mixed d s e1) (h2 : Mixed d t e2) : Mixed d s (e1 ++ e2) := by
  intro x hx
  rcases List.mem_append.1 hx with hx | hx
  · exact h1 x hx
  · have := h2 x hx
    rwa [h.instance_eq, h.instance_eq] at this

theorem invoke_drain_mixed (d : String) (op : Operation) (s : State) :
    ∃ extra, Grows s (invoke d .drain op s).state extra ∧ Mixed d s extra ∧
      drained extra = drainCalls d (s.instance? d) [op] := by
  obtain ⟨rest, h1, h2⟩ := invoke_grows d .drain op s
  refine ⟨_, h1, ?_, ?_⟩
  · intro x hx
    rcases List.mem_cons.1 hx with hx | hx
    · subst hx
      exact Or.inl ⟨rfl, rfl, rfl⟩
    · exact Or.inr (h2 x hx)
  · have : drained (⟨d, op.label, s.instance? d, .drain⟩ :: rest) =
        ⟨d, op.label, s.instance? d, .drain⟩ :: drained rest := by
      simp [drained]
    rw [this, h2.drained_eq]
    rfl

/-- The loop of `applyPendingOperations`: it changes what running operations can change,
and when every operation returns it calls each of them once, in order. -/
theorem forEach_drain (d : String) (ops : List Operation) : ∀ s : State,
    ∃ extra, Grows s (forEach (invoke d .drain) ops s).state extra ∧ Mixed d s extra ∧
      ((∀ op ∈ ops, op.body.returns = true) →
        (forEach (invoke d .drain) ops s).returned = true ∧
        drained extra = drainCalls d (s.instance? d) ops) := by
  induction ops with
  | nil =>
    intro s
    exact ⟨[], Grows.refl s, by simp [Mixed], fun _ => ⟨rfl, rfl⟩⟩
  | cons op ops ih =>
    intro s
    obtain ⟨e1, h1, m1, d1⟩ := invoke_drain_mixed d op s
    cases hrun : invoke d .drain op s with
    | normal t =>
      rw [hrun] at h1
      obtain ⟨e2, h2, m2, r2⟩ := ih t
      refine ⟨e1 ++ e2, ?_, Mixed.extend h1 m1 m2, ?_⟩
      · simp only [forEach, hrun, Outcome.andThen]
        exact h1.trans h2
      · intro hall
        obtain ⟨r3, r4⟩ := r2 fun x hx => hall x (List.mem_cons_of_mem _ hx)
        simp only [forEach, hrun, Outcome.andThen]
        refine ⟨r3, ?_⟩
        have hi : t.instance? d = s.instance? d := h1.instance_eq d
        rw [drained_append, d1, r4, hi]
        rfl
    | thrown t =>
      rw [hrun] at h1
      refine ⟨e1, ?_, m1, ?_⟩
      · simp only [forEach, hrun, Outcome.andThen]
        exact h1
      · intro hall
        obtain ⟨u, hu⟩ := runBody_returns op.body (s.noteInvoked d op.label .drain)
          (hall op (List.mem_cons_self _ _))
        simp only [invoke, hu] at hrun
        exact Outcome.noConfusion hrun

theorem forEach_queuedReturn (d : String) (ops : List Operation) : ∀ s : State,
    (∀ op ∈ ops, op.body.returns = true) → QueuedReturn s →
    QueuedReturn (forEach (invoke d .drain) ops s).state := by
  induction ops with
  | nil => exact fun s _ hs => hs
  | cons op ops ih =>
    intro s hall hs
    have h1 := runBody_queuedReturn op.body (s.noteInvoked d op.label .drain)
      (hall op (List.mem_cons_self _ _)) hs
    obtain ⟨u, hu⟩ := runBody_returns op.body (s.noteInvoked d op.label .drain)
      (hall op (List.mem_cons_self _ _))
    rw [hu] at h1
    have h2 := ih u (fun x hx => hall x (List.mem_cons_of_mem _ hx)) h1
    simpa only [forEach, invoke, hu, Outcome.andThen] using h2

/-! ## What each function of the module changes -/

theorem registerSwiperChange_grows (d : String) (op : Operation) (s : State) :
    ∃ extra, Grows s (registerSwiperChange d op s).state extra ∧ Immediate s extra := by
  have hreg := grows_noteRegistered s d op
  by_cases ht : ((s.noteRegistered d op).instance? d).truthy = true
  · obtain ⟨rest, h1, h2⟩ := invoke_grows d .immediate op (s.noteRegistered d op)
    refine ⟨[] ++ (⟨d, op.label, (s.noteRegistered d op).instance? d, .immediate⟩ :: rest),
      ?_, ?_⟩
    · simp only [registerSwiperChange, ht, if_true]
      exact hreg.trans h1
    · intro x hx
      simp only [List.nil_append, List.mem_cons] at hx
      rcases hx with hx | hx
      · subst hx
        rw [hreg.instance_eq] at ht ⊢
        exact ⟨rfl, ht, rfl⟩
      · have := h2 x hx
        rwa [hreg.instance_eq] at this
  · have ht2 : ((s.noteRegistered d op).instance? d).truthy = false := by simpa using ht
    refine ⟨[] ++ [], ?_, ?_⟩
    · simp only [registerSwiperChange, ht]
      exact hreg.trans (grows_enqueue _ d op ht2)
    · simp [Immediate]

theorem Discovers.chain {s t u : State} (h1 : Discovers s t) (h2 : Discovers t u) :
    Discovers s u :=
  ⟨h2.instances.trans h1.instances, h2.queues.trans h1.queues, h2.invoked.trans h1.invoked,
    h2.registered.trans h1.registered⟩

theorem handleNode_discovers (node : Node) (s : State) :
    Discovers s (handleNode node s).state := by
  unfold handleNode
  split
  · split
    · exact ⟨rfl, rfl, rfl, rfl⟩
    · split <;> exact ⟨rfl, rfl, rfl, rfl⟩
  · exact ⟨rfl, rfl, rfl, rfl⟩

theorem forEach_discovers {α : Type} (f : α → State → Outcome)
    (hf : ∀ x s, Discovers s (f x s).state) (xs : List α) :
    ∀ s, Discovers s (forEach f xs s).state := by
  induction xs with
  | nil => exact fun s => ⟨rfl, rfl, rfl, rfl⟩
  | cons x xs ih =>
    intro s
    have h1 := hf x s
    simp only [forEach]
    cases hx : f x s with
    | normal t =>
      rw [hx] at h1
      exact h1.chain (ih t)
    | thrown t =>
      rw [hx] at h1
      exact h1

theorem handleMutations_discovers (mutations : List MutationRecord) (s : State) :
    Discovers s (handleMutations mutations s).state := by
  unfold handleMutations
  exact forEach_discovers _
    (fun m s => forEach_discovers handleNode handleNode_discovers m.addedNodes s) mutations s

/-- The drain: with no array for `d` nothing happens; with an array `ops` the loop runs
on it, and the array is deleted when the loop returns. -/
theorem applyPendingOperations_cases (d : String) (s : State) :
    (s.pendingOperations d = none ∧ applyPendingOperations d s = .normal s) ∨
    ∃ ops u extra, s.pendingOperations d = some ops ∧ Grows s u extra ∧ Mixed d s extra ∧
      (applyPendingOperations d s = .thrown u ∨ applyPendingOperations d s = .normal (u.clear d)) ∧
      ((∀ op ∈ ops, op.body.returns = true) →
        applyPendingOperations d s = .normal (u.clear d) ∧
        drained extra = drainCalls d (s.instance? d) ops) := by
  cases hq : s.pendingOperations d with
  | none => exact Or.inl ⟨rfl, by simp [applyPendingOperations, hq]⟩
  | some ops =>
    right
    obtain ⟨extra, h1, h2, h3⟩ := forEach_drain d ops s
    refine ⟨ops, _, extra, rfl, h1, h2, ?_, ?_⟩
    · simp only [applyPendingOperations, hq]
      cases forEach (invoke d .drain) ops s with
      | normal u => exact Or.inr rfl
      | thrown u => exact Or.inl rfl
    · intro hall
      obtain ⟨h4, h5⟩ := h3 hall
      refine ⟨?_, h5⟩
      simp only [applyPendingOperations, hq]
      cases hf : forEach (invoke d .drain) ops s with
      | normal u => rfl
      | thrown u => simp [hf, Outcome.returned] at h4

theorem readinessCallback_idle (v : Variant) (i : Nat) (classList : List String)
    (swiper : JSValue) (s : State)
    (h : s.observers.get? i = none ∨ isSwiperInitialized classList = false) :
    readinessCallback v i classList swiper s = .normal s := by
  unfold readinessCallback
  rcases h with h | h
  · rw [h]
  · cases s.observers.get? i with
    | none => rfl
    | some w => simp [h]

theorem State.clear_of_none (s : State) (d : String) (h : s.pendingOperations d = none) :
    s.clear d = s := by
  have : Function.update s.pendingOperations d none = s.pendingOperations := by
    rw [← h]
    exact Function.update_eq_self d s.pendingOperations
  simp only [State.clear, this]

/-- The readiness callback when its node carries the initialized class: the instance is
recorded, the loop runs on the queue of the identifier, and when the loop returns the
queue is deleted and the observer disconnected. -/
theorem readinessCallback_fulfilled (v : Variant) (i : Nat) (classList : List String)
    (swiper : JSValue) (s : State) (w : Watcher) (hw : s.observers.get? i = some w)
    (hc : isSwiperInitialized classList = true) :
    ∃ u extra, Grows (s.record w.dataId (recorded v w.node swiper)) u extra ∧
      Mixed w.dataId (s.record w.dataId (recorded v w.node swiper)) extra ∧
      (readinessCallback v i classList swiper s = .thrown u ∨
        readinessCallback v i classList swiper s =
          .normal ((u.clear w.dataId).disconnect i)) ∧
      ((∀ op ∈ s.queue w.dataId, op.body.returns = true) →
        readinessCallback v i classList swiper s =
          .normal ((u.clear w.dataId).disconnect i) ∧
        drained extra = drainCalls w.dataId (recorded v w.node swiper) (s.queue w.dataId)) := by
  have hi : (s.record w.dataId (recorded v w.node swiper)).instance? w.dataId =
      recorded v w.node swiper := by
    simp [State.record, State.instance?]
  have hunf : readinessCallback v i classList swiper s =
      (applyPendingOperations w.dataId (s.record w.dataId (recorded v w.node swiper))).andThen
        fun s2 => .normal (s2.disconnect i) := by
    simp only [readinessCallback, hw, hc, if_true]
  rcases applyPendingOperations_cases w.dataId (s.record w.dataId (recorded v w.node swiper))
    with ⟨hq, happ⟩ | ⟨ops, u, extra, hq, hg, hm, happ, hret⟩
  · refine ⟨_, [], Grows.refl _, by simp [Mixed], Or.inr ?_, fun _ => ⟨?_, ?_⟩⟩
    · rw [hunf, happ, State.clear_of_none _ _ hq]; rfl
    · rw [hunf, happ, State.clear_of_none _ _ hq]; rfl
    · have : s.queue w.dataId = [] := by
        have hq2 : s.pendingOperations w.dataId = none := hq
        simp [State.queue, hq2]
      rw [this]; rfl
  · have hq2 : s.pendingOperations w.dataId = some ops := hq
    have hqueue : s.queue w.dataId = ops := by simp [State.queue, hq2]
    refine ⟨u, extra, hg, hm, ?_, ?_⟩
    · rcases happ with h | h
      · left; rw [hunf, h]; rfl
      · right; rw [hunf, h]; rfl
    · intro hall
      rw [hqueue] at hall ⊢
      obtain ⟨h1, h2⟩ := hret hall
      refine ⟨by rw [hunf, h1]; rfl, ?_⟩
      rw [h2, hi]

/-- Each event leaves `swiperInstances` as it is, or assigns one property of it. -/
theorem step_instances (v : Variant) (e : Event) (s : State) :
    (step v e s).state.swiperInstances = s.swiperInstances ∨
    ∃ i classList swiper w, e = .classChange i classList swiper ∧
      s.observers.get? i = some w ∧ isSwiperInitialized classList = true ∧
      (step v e s).state.swiperInstances =
        Function.update s.swiperInstances w.dataId (some (recorded v w.node swiper)) := by
  cases e with
  | register d op =>
    obtain ⟨extra, h, _⟩ := registerSwiperChange_grows d op s
    exact Or.inl h.instances
  | mutations records => exact Or.inl (handleMutations_discovers records s).instances
  | classChange i classList swiper =>
    cases hw : s.observers.get? i with
    | none =>
      left
      simp only [step, readinessCallback_idle v i classList swiper s (Or.inl hw), Outcome.state]
    | some w =>
      cases hc : isSwiperInitialized classList with
      | false =>
        left
        simp only [step, readinessCallback_idle v i classList swiper s (Or.inr hc),
          Outcome.state]
      | true =>
        right
        refine ⟨i, classList, swiper, w, rfl, hw, hc, ?_⟩
        obtain ⟨u, extra, hg, _, hout, _⟩ :=
          readinessCallback_fulfilled v i classList swiper s w hw hc
        rcases hout with h | h
        · simp only [step, h, Outcome.state, hg.instances]; rfl
        · simp only [step, h, Outcome.state, State.disconnect, State.clear, hg.instances]; rfl

/-! ## Registration when the instance is there -/

theorem step_allElements (e : Event) (s : State) (h : AllElements s) :
    AllElements (step .src e s).state := by
  rcases step_instances .src e s with h1 | ⟨i, classList, swiper, w, _, _, _, h1⟩
  · intro d val hd
    rw [h1] at hd
    exact h d val hd
  · intro d val hd
    rw [h1] at hd
    by_cases hdw : d = w.dataId
    · subst hdw
      simp only [Function.update_same, Option.some.injEq] at hd
      exact ⟨w.node, hd.symm⟩
    · rw [Function.update_noteq hdw] at hd
      exact h d val hd

theorem exec_allElements (es : List Event) : ∀ s, AllElements s →
    AllElements (exec .src es s) := by
  induction es with
  | nil => exact fun s h => h
  | cons e es ih => exact fun s h => ih _ (step_allElements e s h)

theorem reachable_src_allElements (s : State) (h : Reachable .src s) : AllElements s := by
  obtain ⟨es, rfl⟩ := h
  exact exec_allElements es _ (fun d val hd => by simp [State.init] at hd)

/-- C1, as stated, fails in the `dist` file: `swiperInstances` holds an entry for `a`
whose value is `undefined`, and `registerSwiperChange("a", op)` does not call `op` but
pushes it on a new queue. -/
theorem registerSwiperChange_undefined_entry_queues :
    Reachable .dist undefinedEntry ∧
    undefinedEntry.swiperInstances "a" = some .undefined ∧
    undefinedEntry.pendingOperations "a" = none ∧
    (registerSwiperChange "a" ⟨7, .ret⟩ undefinedEntry).state.invoked =
      undefinedEntry.invoked ∧
    (registerSwiperChange "a" ⟨7, .ret⟩ undefinedEntry).state.pendingOperations "a" =
      some [⟨7, .ret⟩] :=
  ⟨⟨_, rfl⟩, by decide, by decide, by decide, by decide⟩

/-- C1, amended: when `swiperInstances` holds a truthy entry for `d` (in the `src` file
every entry of a reachable state is one), `registerSwiperChange(d, op)` calls `op` at
once with that entry, and queues nothing for `d`; the history of calls grows by this call
followed by the calls `op` itself caused, and when `op` does not call back into the module
the call of `op` is the only new one and `pendingOperations` is the same as before. -/
theorem registerSwiperChange_ready (v : Variant) (s : State) (d : String) (op : Operation)
    (val : JSValue) (hs : Reachable v s) (hentry : s.swiperInstances d = some val)
    (htruthy : v = .src ∨ val.truthy = true) :
    registerSwiperChange d op s = invoke d .immediate op (s.noteRegistered d op) ∧
    (registerSwiperChange d op s).state.swiperInstances = s.swiperInstances ∧
    (registerSwiperChange d op s).state.pendingOperations d = s.pendingOperations d ∧
    (∃ extra, (registerSwiperChange d op s).state.invoked =
      s.invoked ++ ⟨d, op.label, val, .immediate⟩ :: extra) ∧
    (op.body.isLeaf = true →
      (registerSwiperChange d op s).state.invoked =
        s.invoked ++ [⟨d, op.label, val, .immediate⟩] ∧
      (registerSwiperChange d op s).state.pendingOperations = s.pendingOperations) := by
  have hval : val.truthy = true := by
    rcases htruthy with h | h
    · subst h
      obtain ⟨r, rfl⟩ := reachable_src_allElements s hs d val hentry
      rfl
    · exact h
  have hinst : s.instance? d = val := by simp [State.instance?, hentry]
  have hinst2 : (s.noteRegistered d op).instance? d = val := hinst
  have hunf : registerSwiperChange d op s = invoke d .immediate op (s.noteRegistered d op) := by
    simp only [registerSwiperChange, hinst2, hval, if_true]
  obtain ⟨extra, hg, _⟩ := registerSwiperChange_grows d op s
  refine ⟨hunf, hg.instances, hg.ready d (by rw [hinst]; exact hval), ?_, ?_⟩
  · obtain ⟨rest, h1, _⟩ := invoke_grows d .immediate op (s.noteRegistered d op)
    refine ⟨rest, ?_⟩
    rw [hunf, h1.invoked, hinst2]
    rfl
  · intro hleaf
    rw [hunf]
    cases op with
    | mk l body =>
      cases body with
      | ret => simp [invoke, runBody, Outcome.state, State.noteInvoked, State.noteRegistered,
          State.instance?, hentry]
      | raise => simp [invoke, runBody, Outcome.state, State.noteInvoked, State.noteRegistered,
          State.instance?, hentry]
      | call _ _ _ _ _ => simp [Prog.isLeaf] at hleaf

/-- The theorem at the state `readyEntry` of the `src` file, for the identifier `a`. -/
theorem registerSwiperChange_ready_witness :
    Reachable .src readyEntry ∧ readyEntry.swiperInstances "a" = some (.element 1) ∧
    (registerSwiperChange "a" ⟨7, .ret⟩ readyEntry).state.pendingOperations "a" =
      readyEntry.pendingOperations "a" :=
  ⟨⟨_, rfl⟩, by decide,
    (registerSwiperChange_ready .src readyEntry "a" ⟨7, .ret⟩ (.element 1) ⟨_, rfl⟩
      (by decide) (Or.inl rfl)).2.2.1⟩

/-! ## Traces without readiness for an identifier -/

theorem callsFor_append (d : String) (a b : List Invocation) :
    callsFor d (a ++ b) = callsFor d a ++ callsFor d b := by
  simp [callsFor]

theorem Mixed.callsFor_eq_nil {d0 d : String} {s : State} {extra : List Invocation}
    (h : Mixed d0 s extra) (hne : d0 ≠ d) (hd : (s.instance? d).truthy = false) :
    callsFor d extra = [] := by
  simp only [callsFor, List.filter_eq_nil_iff, decide_eq_true_eq]
  intro x hx hxd
  rcases h x hx with ⟨_, h2, _⟩ | ⟨_, h2, _⟩
  · exact hne (h2.symm.trans hxd)
  · rw [hxd, hd] at h2
    exact Bool.noConfusion h2

theorem Immediate.callsFor_nil {d : String} {s : State} {extra : List Invocation}
    (h : Immediate s extra) (hd : (s.instance? d).truthy = false) : callsFor d extra = [] := by
  simp only [callsFor, List.filter_eq_nil_iff, decide_eq_true_eq]
  intro x hx hxd
  have h2 := (h x hx).2.1
  rw [hxd, hd] at h2
  exact Bool.noConfusion h2

/-- An event that does not make an observer of `d` record an instance leaves
`swiperInstances[d]` alone, can only add operations at the end of the queue of `d`, and
calls no operation for `d` unless the instance of `d` is truthy. -/
theorem step_quiet (v : Variant) (e : Event) (s : State) (d : String)
    (hq : e.fulfils s d = false) :
    (step v e s).state.swiperInstances d = s.swiperInstances d ∧
    (∃ extra, (step v e s).state.invoked = s.invoked ++ extra ∧
      ((s.instance? d).truthy = false → callsFor d extra = [])) ∧
    ((step v e s).state.pendingOperations d = s.pendingOperations d ∨
      ∃ more, (step v e s).state.pendingOperations d = some (s.queue d ++ more)) := by
  cases e with
  | register d2 op =>
    obtain ⟨extra, h, hi⟩ := registerSwiperChange_grows d2 op s
    exact ⟨by simp only [step, h.instances], ⟨extra, h.invoked, fun hd => hi.callsFor_nil hd⟩,
      h.queue d⟩
  | mutations records =>
    have h := handleMutations_discovers records s
    exact ⟨by simp only [step, h.instances], ⟨[], by simp [step, h.invoked], fun _ => rfl⟩,
      Or.inl (by simp only [step, h.queues])⟩
  | classChange i classList swiper =>
    have hidle : s.observers.get? i = none ∨ isSwiperInitialized classList = false →
        (step v (.classChange i classList swiper) s).state = s := by
      intro h
      simp only [step, readinessCallback_idle v i classList swiper s h, Outcome.state]
    cases hw : s.observers.get? i with
    | none =>
      rw [hidle (Or.inl hw)]
      exact ⟨rfl, ⟨[], by simp, fun _ => rfl⟩, Or.inl rfl⟩
    | some w =>
      cases hc : isSwiperInitialized classList with
      | false =>
        rw [hidle (Or.inr hc)]
        exact ⟨rfl, ⟨[], by simp, fun _ => rfl⟩, Or.inl rfl⟩
      | true =>
        have hne : w.dataId ≠ d := by
          simp only [Event.fulfils, hc, hw, Bool.true_and, decide_eq_false_iff_not] at hq
          exact hq
        have hne2 : d ≠ w.dataId := fun h => hne h.symm
        obtain ⟨u, extra, hg, hm, hout, _⟩ :=
          readinessCallback_fulfilled v i classList swiper s w hw hc
        have hinst : (s.record w.dataId (recorded v w.node swiper)).instance? d =
            s.instance? d := by
          simp [State.record, State.instance?, Function.update_noteq hne2]
        have hui : u.swiperInstances d = s.swiperInstances d := by
          rw [hg.instances]
          simp [State.record, Function.update_noteq hne2]
        have hinv : u.invoked = s.invoked ++ extra := hg.invoked
        have hcalls : (s.instance? d).truthy = false → callsFor d extra = [] := by
          intro hd
          exact hm.callsFor_eq_nil hne (by rw [hinst]; exact hd)
        have hqueue : u.pendingOperations d = s.pendingOperations d ∨
            ∃ more, u.pendingOperations d = some (s.queue d ++ more) := hg.queue d
        rcases hout with h | h
        · simp only [step, h, Outcome.state]
          exact ⟨hui, ⟨extra, hinv, hcalls⟩, hqueue⟩
        · simp only [step, h, Outcome.state, State.disconnect, State.clear,
            Function.update_noteq hne2]
          exact ⟨hui, ⟨extra, hinv, hcalls⟩, hqueue⟩

/-! ## An operation that throws during the drain -/

theorem registerSwiperChange_invoke (s : State) (d : String) (op : Operation) (val : JSValue)
    (hentry : s.swiperInstances d = some val) (hval : val.truthy = true) :
    registerSwiperChange d op s = invoke d .immediate op (s.noteRegistered d op) ∧
    ∃ rest, (registerSwiperChange d op s).state.invoked =
      s.invoked ++ ⟨d, op.label, val, .immediate⟩ :: rest := by
  have hinst : (s.noteRegistered d op).instance? d = val := by
    simp [State.instance?, State.noteRegistered, hentry]
  have hunf : registerSwiperChange d op s = invoke d .immediate op (s.noteRegistered d op) := by
    simp only [registerSwiperChange, hinst, hval, if_true]
  obtain ⟨rest, h1, _⟩ := invoke_grows d .immediate op (s.noteRegistered d op)
  refine ⟨hunf, rest, ?_⟩
  rw [hunf, h1.invoked, hinst]
  rfl

/-- The loop on a queue whose operations return up to one that throws: the exception
leaves the loop, and the loop has called the operations up to that one, in order. -/
theorem forEach_drain_throw (d : String) (pre post : List Operation) (opk : Operation)
    (s : State) (hpre : ∀ op ∈ pre, op.body.returns = true) (hk : opk.body.throws = true) :
    ∃ t extra, forEach (invoke d .drain) (pre ++ opk :: post) s = .thrown t ∧
      Grows s t extra ∧ drained extra = drainCalls d (s.instance? d) (pre ++ [opk]) := by
  obtain ⟨e1, g1, _, r1⟩ := forEach_drain d pre s
  obtain ⟨ret1, dr1⟩ := r1 hpre
  cases hf : forEach (invoke d .drain) pre s with
  | thrown t1 => simp [hf, Outcome.returned] at ret1
  | normal t1 =>
    rw [hf] at g1
    obtain ⟨e2, g2, _, dr2⟩ := invoke_drain_mixed d opk t1
    obtain ⟨t2, ht2⟩ := runBody_throws opk.body (t1.noteInvoked d opk.label .drain) hk
    have hinv : invoke d .drain opk t1 = .thrown t2 := ht2
    rw [hinv] at g2
    refine ⟨t2, e1 ++ e2, ?_, g1.trans g2, ?_⟩
    · rw [forEach_append, hf]
      simp only [Outcome.andThen, forEach, hinv]
    · have hi : t1.instance? d = s.instance? d := g1.instance_eq d
      rw [drained_append, dr1, dr2, hi]
      simp [drainCalls]

/-- In the `src` file an entry of `swiperInstances` that is an element stays one. -/
theorem exec_src_element (d : String) (es : List Event) : ∀ s : State,
    (∃ r, s.swiperInstances d = some (.element r)) →
    ∃ r, (exec .src es s).swiperInstances d = some (.element r) := by
  induction es with
  | nil => exact fun s h => h
  | cons e es ih =>
    intro s h
    apply ih
    rcases step_instances .src e s with h1 | ⟨i, classList, swiper, w, _, _, _, h1⟩
    · rw [h1]; exact h
    · rw [h1]
      by_cases hdw : d = w.dataId
      · subst hdw
        exact ⟨w.node, by simp [recorded]⟩
      · rw [Function.update_noteq hdw]; exact h

/-- C10: in the `src` file, let the queue of `d` hold operations that return, then one
that throws, then others. The readiness callback of an observer of `d` ends with the
exception (the module does not catch it); its loop has called the operations up to and
including the one that throws, in order, and none of the others; the queue of `d` is
still there; the element is recorded as the instance of `d`; and after any later events
every `registerSwiperChange(d, op)` calls `op` at once with the instance recorded then,
which is an element. -/
theorem readiness_throw_keeps_instance (s : State) (d : String) (pre post : List Operation)
    (opk : Operation) (i : Nat) (classList : List String) (swiper : JSValue) (w : Watcher)
    (hqueue : s.pendingOperations d = some (pre ++ opk :: post))
    (hpre : ∀ op ∈ pre, op.body.returns = true) (hk : opk.body.throws = true)
    (hw : s.observers.get? i = some w) (hd : w.dataId = d)
    (hc : isSwiperInitialized classList = true) :
    ∃ t extra, readinessCallback .src i classList swiper s = .thrown t ∧
      t.invoked = s.invoked ++ extra ∧
      drained extra = drainCalls d (.element w.node) (pre ++ [opk]) ∧
      t.pendingOperations d = some (pre ++ opk :: post) ∧
      t.swiperInstances d = some (.element w.node) ∧
      ∀ (es : List Event) (op : Operation), ∃ r rest,
        (exec .src es t).swiperInstances d = some (.element r) ∧
        registerSwiperChange d op (exec .src es t) =
          invoke d .immediate op ((exec .src es t).noteRegistered d op) ∧
        (registerSwiperChange d op (exec .src es t)).state.invoked =
          (exec .src es t).invoked ++ ⟨d, op.label, .element r, .immediate⟩ :: rest := by
  subst hd
  have hq1 : (s.record w.dataId (.element w.node)).pendingOperations w.dataId =
      some (pre ++ opk :: post) := hqueue
  have hi1 : (s.record w.dataId (.element w.node)).instance? w.dataId = .element w.node := by
    simp [State.record, State.instance?]
  obtain ⟨t, extra, hf, hg, hdr⟩ := forEach_drain_throw w.dataId pre post opk
    (s.record w.dataId (.element w.node)) hpre hk
  have hout : readinessCallback .src i classList swiper s = .thrown t := by
    simp only [readinessCallback, hw, hc, if_true, recorded, applyPendingOperations, hq1, hf,
      Outcome.andThen]
  have hinst : t.swiperInstances w.dataId = some (.element w.node) := by
    rw [hg.instances]
    simp [State.record]
  refine ⟨t, extra, hout, hg.invoked, by rw [hdr, hi1], ?_, hinst, ?_⟩
  · rw [hg.ready w.dataId (by rw [hi1]; rfl)]
    exact hq1
  · intro es op
    obtain ⟨r, hr⟩ := exec_src_element w.dataId es t ⟨w.node, hinst⟩
    obtain ⟨h1, rest, h2⟩ := registerSwiperChange_invoke (exec .src es t) w.dataId op
      (.element r) hr rfl
    exact ⟨r, rest, hr, h1, h2⟩

/-- The theorem at the state `waitingEntry`: the second of three queued operations throws. -/
theorem readiness_throw_keeps_instance_witness :
    waitingEntry.pendingOperations "a" = some ([⟨1, .ret⟩] ++ ⟨2, .raise⟩ :: [⟨3, .ret⟩]) ∧
    ∃ t extra, readinessCallback .src 0 ["swiper-initialized"] .undefined waitingEntry
        = .thrown t ∧
      t.invoked = waitingEntry.invoked ++ extra ∧
      drained extra = drainCalls "a" (.element 1) ([⟨1, .ret⟩] ++ [⟨2, .raise⟩]) ∧
      t.pendingOperations "a" = some ([⟨1, .ret⟩] ++ ⟨2, .raise⟩ :: [⟨3, .ret⟩]) ∧
      t.swiperInstances "a" = some (.element 1) ∧
      ∀ (es : List Event) (op : Operation), ∃ r rest,
        (exec .src es t).swiperInstances "a" = some (.element r) ∧
        registerSwiperChange "a" op (exec .src es t) =
          invoke "a" .immediate op ((exec .src es t).noteRegistered "a" op) ∧
        (registerSwiperChange "a" op (exec .src es t)).state.invoked =
          (exec .src es t).invoked ++ ⟨"a", op.label, .element r, .immediate⟩ :: rest :=
  ⟨by decide,
    readiness_throw_keeps_instance waitingEntry "a" [⟨1, .ret⟩] [⟨3, .ret⟩] ⟨2, .raise⟩ 0
      ["swiper-initialized"] .undefined ⟨1, "a"⟩ (by decide) (by decide) (by decide)
      (by decide) rfl (by decide)⟩

/-! ## An instance and a queue for the same identifier -/

theorem registerSwiperChange_queuedReturn (d : String) (op : Operation) (s : State)
    (hop : op.body.returns = true) (hs : QueuedReturn s) :
    QueuedReturn (registerSwiperChange d op s).state := by
  by_cases ht : ((s.noteRegistered d op).instance? d).truthy = true
  · simp only [registerSwiperChange, ht, if_true, invoke]
    exact runBody_queuedReturn op.body _ hop hs
  · simp only [registerSwiperChange, ht]
    exact queuedReturn_enqueue (s.noteRegistered d op) d op hs hop

theorem queuedReturn_clear (s : State) (d : String) (hs : QueuedReturn s) :
    QueuedReturn (s.clear d) := by
  intro d2 ops h
  by_cases hd : d2 = d
  · subst hd
    simp [State.clear] at h
  · simp only [State.clear, Function.update_noteq hd] at h
    exact hs d2 ops h

theorem readinessCallback_queuedReturn (v : Variant) (i : Nat) (classList : List String)
    (swiper : JSValue) (s : State) (hs : QueuedReturn s) :
    QueuedReturn (readinessCallback v i classList swiper s).state := by
  cases hw : s.observers.get? i with
  | none => rw [readinessCallback_idle v i classList swiper s (Or.inl hw)]; exact hs
  | some w =>
    cases hc : isSwiperInitialized classList with
    | false => rw [readinessCallback_idle v i classList swiper s (Or.inr hc)]; exact hs
    | true =>
      have hs1 : QueuedReturn (s.record w.dataId (recorded v w.node swiper)) := hs
      simp only [readinessCallback, hw, hc, if_true, applyPendingOperations]
      cases hq : (s.record w.dataId (recorded v w.node swiper)).pendingOperations w.dataId with
      | none => exact hs
      | some ops =>
        have hall : ∀ op ∈ ops, op.body.returns = true := hs1 w.dataId ops hq
        have h1 := forEach_queuedReturn w.dataId ops _ hall hs1
        cases hf : forEach (invoke w.dataId .drain) ops
            (s.record w.dataId (recorded v w.node swiper)) with
        | normal u =>
          rw [hf] at h1
          simp only [hf, Outcome.andThen, Outcome.state]
          exact queuedReturn_clear u w.dataId h1
        | thrown u =>
          rw [hf] at h1
          simp only [hf, Outcome.andThen, Outcome.state]
          exact h1

theorem step_queuedReturn (v : Variant) (e : Event) (s : State) (he : e.returns = true)
    (hs : QueuedReturn s) : QueuedReturn (step v e s).state := by
  cases e with
  | register d op => exact registerSwiperChange_queuedReturn d op s he hs
  | mutations records =>
    intro d ops h
    rw [show (step v (.mutations records) s).state.pendingOperations = s.pendingOperations from
      (handleMutations_discovers records s).queues] at h
    exact hs d ops h
  | classChange i classList swiper => exact readinessCallback_queuedReturn v i classList swiper s hs

theorem step_readyUnqueued (v : Variant) (e : Event) (s : State) (hq : QueuedReturn s)
    (hs : ReadyUnqueued s) : ReadyUnqueued (step v e s).state := by
  cases e with
  | register d op =>
    obtain ⟨extra, hg, _⟩ := registerSwiperChange_grows d op s
    intro d2 hd2
    have hd3 : (s.instance? d2).truthy = true := by
      have := hg.instance_eq d2
      simp only [step] at hd2
      rwa [this] at hd2
    simp only [step]
    rw [hg.ready d2 hd3]
    exact hs d2 hd3
  | mutations records =>
    have h := handleMutations_discovers records s
    intro d2 hd2
    simp only [step, State.instance?, h.instances] at hd2
    simp only [step, h.queues]
    exact hs d2 hd2
  | classChange i classList swiper =>
    cases hw : s.observers.get? i with
    | none =>
      simp only [step, readinessCallback_idle v i classList swiper s (Or.inl hw)]
      exact hs
    | some w =>
      cases hc : isSwiperInitialized classList with
      | false =>
        simp only [step, readinessCallback_idle v i classList swiper s (Or.inr hc)]
        exact hs
      | true =>
        obtain ⟨u, extra, hg, _, _, hret⟩ :=
          readinessCallback_fulfilled v i classList swiper s w hw hc
        have hall : ∀ op ∈ s.queue w.dataId, op.body.returns = true := by
          intro op hop
          cases hp : s.pendingOperations w.dataId with
          | none => simp [State.queue, hp] at hop
          | some ops =>
            simp only [State.queue, hp, Option.getD_some] at hop
            exact hq w.dataId ops hp op hop
        obtain ⟨hout, _⟩ := hret hall
        simp only [step, hout, Outcome.state]
        intro d2 hd2
        by_cases hd : d2 = w.dataId
        · subst hd
          simp [State.disconnect, State.clear]
        · have hi : ((u.clear w.dataId).disconnect i).instance? d2 = s.instance? d2 := by
            simp [State.instance?, State.disconnect, State.clear, hg.instances, State.record,
              Function.update_noteq hd]
          have hi2 : (s.record w.dataId (recorded v w.node swiper)).instance? d2 =
              s.instance? d2 := by
            simp [State.instance?, State.record, Function.update_noteq hd]
          rw [hi] at hd2
          have h1 := hg.ready d2 (by rw [hi2]; exact hd2)
          simp only [State.disconnect, State.clear, Function.update_noteq hd, h1]
          exact hs d2 hd2

theorem exec_readyUnqueued (v : Variant) (es : List Event) : ∀ s : State,
    (∀ e ∈ es, e.returns = true) → QueuedReturn s → ReadyUnqueued s →
    ReadyUnqueued (exec v es s) := by
  induction es with
  | nil => exact fun s _ _ h => h
  | cons e es ih =>
    intro s hes hq hs
    exact ih _ (fun x hx => hes x (List.mem_cons_of_mem _ hx))
      (step_queuedReturn v e s (hes e (List.mem_cons_self _ _)) hq)
      (step_readyUnqueued v e s hq hs)

/-- C4, as stated, fails. In the `src` file an operation that throws during the drain
leaves the instance recorded and the queue in place; in the `dist` file an entry whose
value is `undefined` makes the next registration create a queue beside it. -/
theorem instance_and_queue_together :
    (exec .src throwingTrace State.init).swiperInstances "a" = some (.element 1) ∧
    (exec .src throwingTrace State.init).pendingOperations "a" =
      some [⟨1, .raise⟩, ⟨2, .ret⟩] ∧
    (exec .dist (undefinedTrace ++ [.register "a" ⟨7, .ret⟩]) State.init).swiperInstances "a" =
      some .undefined ∧
    (exec .dist (undefinedTrace ++ [.register "a" ⟨7, .ret⟩]) State.init).pendingOperations "a" =
      some [⟨7, .ret⟩] := by
  decide

/-- C4, amended: in every state reached from the initial one by registrations, discoveries
and readiness callbacks in which no registered operation throws (the operations may
register others while they run), an identifier whose entry in `swiperInstances` is truthy
(in the `src` file: any entry) has no entry in `pendingOperations`. -/
theorem ready_has_no_queue (v : Variant) (es : List Event) (d : String) (val : JSValue)
    (hreturn : ∀ e ∈ es, e.returns = true)
    (hentry : (exec v es State.init).swiperInstances d = some val)
    (htruthy : v = .src ∨ val.truthy = true) :
    (exec v es State.init).pendingOperations d = none := by
  have hval : val.truthy = true := by
    rcases htruthy with h | h
    · subst h
      obtain ⟨r, rfl⟩ := reachable_src_allElements _ ⟨es, rfl⟩ d val hentry
      rfl
    · exact h
  have hinit : ReadyUnqueued State.init := fun d _ => rfl
  have hq : QueuedReturn State.init := by
    intro d ops h
    simp [State.init] at h
  apply exec_readyUnqueued v es State.init hreturn hq hinit d
  simp [State.instance?, hentry, hval]

/-- The theorem on the trace `returningTrace` of the `dist` file. -/
theorem ready_has_no_queue_witness :
    (∀ e ∈ returningTrace, e.returns = true) ∧
    (exec .dist returningTrace State.init).swiperInstances "a" = some (.object 5) ∧
    (exec .dist returningTrace State.init).pendingOperations "a" = none :=
  ⟨by decide, by decide,
    ready_has_no_queue .dist returningTrace "a" (.object 5) (by decide) (by decide)
      (Or.inr rfl)⟩

/-! ## Discovery -/

/-- C7 fails on the code: on a widget root with no container `handleMutations` ends with
an exception, and the widget root added after it in the same batch is not processed (no
readiness observer is created for it, though one is when it is added alone). The
registries are left as they were. -/
theorem handleMutations_orphan_throws :
    (handleMutations orphanBatch State.init).returned = false ∧
    (handleMutations orphanBatch State.init).state.observers = [] ∧
    (handleMutations orphanBatch State.init).state.pendingSwiperInstances "a" = none ∧
    (handleMutations [⟨[⟨2, 1, ["swiper"], some ⟨some "a"⟩⟩]⟩] State.init).state.observers =
      [⟨2, "a"⟩] := by
  decide

theorem forEach_congr_middle {α : Type} (f : α → State → Outcome) (x y : α)
    (hxy : f x = f y) (before after : List α) (s : State) :
    forEach f (before ++ x :: after) s = forEach f (before ++ y :: after) s := by
  rw [forEach_append, forEach_append]
  simp only [forEach, hxy]

theorem forEach_skip {α : Type} (f : α → State → Outcome) (x : α)
    (hx : ∀ s, f x s = .normal s) (before after : List α) (s : State) :
    forEach f (before ++ x :: after) s = forEach f (before ++ after) s := by
  rw [forEach_append, forEach_append]
  cases forEach f before s with
  | normal t => simp only [Outcome.andThen, forEach, hx t]
  | thrown t => rfl

/-- C8: an added element whose nearest container has no `data-id` attribute, or an empty
one, is passed over: the callback returns and leaves the state, observers included, as
it was; a batch with the element does what the batch without it does, and so does every
trace that continues from there, whatever is registered later. -/
theorem handleNode_without_dataId (node : Node) (containerElement : Container) (s : State)
    (hclosest : node.closest = some containerElement)
    (hid : containerElement.dataId = none ∨ containerElement.dataId = some "") :
    handleNode node s = .normal s ∧
    (∀ (before after : List MutationRecord) (pre post : List Node),
      handleMutations (before ++ ⟨pre ++ node :: post⟩ :: after) s =
        handleMutations (before ++ ⟨pre ++ post⟩ :: after) s) ∧
    (∀ (v : Variant) (before after : List MutationRecord) (pre post : List Node)
      (es : List Event),
      exec v (.mutations (before ++ ⟨pre ++ node :: post⟩ :: after) :: es) s =
        exec v (.mutations (before ++ ⟨pre ++ post⟩ :: after) :: es) s) := by
  have hfalse : dataIdTruthy containerElement.dataId = false := by
    rcases hid with h | h <;> rw [h] <;> rfl
  have hnode : ∀ t, handleNode node t = .normal t := by
    intro t
    unfold handleNode
    split
    · rw [hclosest]
      simp only [hfalse]
      rfl
    · rfl
  have hbatch : ∀ (before after : List MutationRecord) (pre post : List Node),
      handleMutations (before ++ ⟨pre ++ node :: post⟩ :: after) s =
        handleMutations (before ++ ⟨pre ++ post⟩ :: after) s := by
    intro before after pre post
    unfold handleMutations
    apply forEach_congr_middle
    funext t
    exact forEach_skip handleNode node hnode pre post t
  refine ⟨hnode s, hbatch, ?_⟩
  intro v before after pre post es
  simp only [exec, step, hbatch]

/-- The theorem at the node `unnamedNode`, whose container has an empty `data-id`. -/
theorem handleNode_without_dataId_witness :
    unnamedNode.closest = some ⟨some ""⟩ ∧ handleNode unnamedNode State.init = .normal State.init :=
  ⟨rfl, (handleNode_without_dataId unnamedNode ⟨some ""⟩ State.init rfl (Or.inr rfl)).1⟩

/-! ## The recorded instance -/

/-- C9, as stated, fails: the readiness callback of the second observer of `a` replaces
the instance the first one recorded. -/
theorem second_readiness_overwrites :
    (exec .src (twiceReady.take 2) State.init).swiperInstances "a" = some (.element 1) ∧
    (exec .src twiceReady State.init).swiperInstances "a" = some (.element 2) := by
  decide

theorem exec_entry (v : Variant) (d : String) (es : List Event) : ∀ (s : State) (val : JSValue),
    s.swiperInstances d = some val →
    (∃ val2, (exec v es s).swiperInstances d = some val2) ∧
    (Quiet v d es s → (exec v es s).swiperInstances d = some val) := by
  induction es with
  | nil => exact fun s val h => ⟨⟨val, h⟩, fun _ => h⟩
  | cons e es ih =>
    intro s val h
    have hstep : ∃ val1, (step v e s).state.swiperInstances d = some val1 := by
      rcases step_instances v e s with h1 | ⟨i, classList, swiper, w, _, _, _, h1⟩
      · exact ⟨val, by rw [h1]; exact h⟩
      · by_cases hdw : d = w.dataId
        · exact ⟨recorded v w.node swiper, by rw [h1, hdw]; simp⟩
        · exact ⟨val, by rw [h1, Function.update_noteq hdw]; exact h⟩
    obtain ⟨val1, h1⟩ := hstep
    refine ⟨(ih _ val1 h1).1, ?_⟩
    intro hq
    have h2 := (step_quiet v e s d hq.1).1
    exact (ih _ val (h2.trans h)).2 hq.2

/-- C9, amended: once `swiperInstances[d]` has been written, no later event removes the
entry, and registrations, discoveries and readiness callbacks of other identifiers leave
its value unchanged; a readiness callback of an observer of `d` whose node carries the
initialized class writes the entry again, with the value of that observer. -/
theorem entry_stays (v : Variant) (s : State) (d : String) (val : JSValue)
    (hentry : s.swiperInstances d = some val) :
    (∀ es : List Event, ∃ val2, (exec v es s).swiperInstances d = some val2) ∧
    (∀ es : List Event, Quiet v d es s → (exec v es s).swiperInstances d = some val) ∧
    (∀ (i : Nat) (classList : List String) (swiper : JSValue) (w : Watcher),
      s.observers.get? i = some w → w.dataId = d → isSwiperInitialized classList = true →
      (step v (.classChange i classList swiper) s).state.swiperInstances d =
        some (recorded v w.node swiper)) := by
  refine ⟨fun es => (exec_entry v d es s val hentry).1,
    fun es => (exec_entry v d es s val hentry).2, ?_⟩
  intro i classList swiper w hw hd hc
  subst hd
  rcases step_instances v (.classChange i classList swiper) s with
    h1 | ⟨i2, classList2, swiper2, w2, he, hw2, _, h1⟩
  · obtain ⟨u, extra, hg, _, hout, _⟩ :=
      readinessCallback_fulfilled v i classList swiper s w hw hc
    rcases hout with h | h
    · simp only [step, h, Outcome.state, hg.instances]
      simp [State.record]
    · simp only [step, h, Outcome.state, State.disconnect, State.clear, hg.instances]
      simp [State.record]
  · cases he
    rw [hw] at hw2
    cases hw2
    rw [h1]
    simp

/-- The theorem at the state `readyEntry` and the trace `strayTrace`. -/
theorem entry_stays_witness :
    readyEntry.swiperInstances "a" = some (.element 1) ∧
    (exec .src strayTrace readyEntry).swiperInstances "a" = some (.element 1) :=
  ⟨by decide,
    (entry_stays .src readyEntry "a" (.element 1) (by decide)).2.1 strayTrace
      (by decide)⟩

/-! ## Lookups through the prototype chain: what running operations change -/

/-- An operation that calls `registerSwiperChange` does what the function does, followed
by the rest of the operation unless an exception that is not caught leaves it. -/
theorem Js.runBody_registers (h : Js.Host) (dataId : String) (label : Nat) (body : Prog)
    (caught : Bool) (next : Prog) (s : Js.State) :
    Js.runBody h (.call dataId label body caught next) s =
      match Js.registerSwiperChange h dataId ⟨label, body⟩ s with
      | .normal s2 => Js.runBody h next s2
      | .thrown s2 => if caught then Js.runBody h next s2 else .thrown s2 := by
  simp only [Js.runBody, Js.registerSwiperChange]
  split
  · rfl
  · split
    · split <;> rfl
    · split <;> rfl

theorem Js.Runs.same (h : Js.Host) (s : Js.State) : Js.Runs h s s [] :=
  ⟨rfl, rfl, rfl, rfl, rfl, fun _ _ _ _ => rfl, fun _ => Or.inl rfl, by simp⟩

theorem Js.Runs.lookup_eq {h : Js.Host} {s t : Js.State} {extra : List Js.Invocation}
    (hr : Js.Runs h s t extra) (d : String) : t.instance? h d = s.instance? h d := by
  simp [Js.State.instance?, hr.instances, hr.instancesProto]

theorem Js.Runs.followedBy {h : Js.Host} {s t u : Js.State} {e1 e2 : List Js.Invocation}
    (h1 : Js.Runs h s t e1) (h2 : Js.Runs h t u e2) : Js.Runs h s u (e1 ++ e2) := by
  refine ⟨h2.instances.trans h1.instances, h2.instancesProto.trans h1.instancesProto,
    h2.elements.trans h1.elements, h2.elementsProto.trans h1.elementsProto,
    h2.observers.trans h1.observers, ?_, ?_, ?_⟩
  · intro d value hd hv
    rw [h2.ready d value (by rw [h1.lookup_eq]; exact hd) hv, h1.ready d value hd hv]
  · intro d
    rcases h1.queue d with a | ⟨m1, a⟩ <;> rcases h2.queue d with b | ⟨m2, b⟩
    · exact Or.inl (b.trans a)
    · right; exact ⟨m2, by rw [b]; simp [Js.State.queue, a]⟩
    · right; exact ⟨m1, b.trans a⟩
    · right; exact ⟨m1 ++ m2, by rw [b]; simp [Js.State.queue, a]⟩
  · rw [h2.invoked, h1.invoked, List.append_assoc]

theorem Js.runs_noteRegistered (h : Js.Host) (s : Js.State) (d : String) (op : Operation) :
    Js.Runs h s (s.noteRegistered d op) [] :=
  ⟨rfl, rfl, rfl, rfl, rfl, fun _ _ _ _ => rfl, fun _ => Or.inl rfl,
    by simp [Js.State.noteRegistered]⟩

theorem Js.runs_noteInvoked (h : Js.Host) (s : Js.State) (d : String) (l : Nat)
    (value : Js.Value) (site : Site) :
    Js.Runs h s (s.noteInvoked d l value site) [⟨d, l, value, site⟩] :=
  ⟨rfl, rfl, rfl, rfl, rfl, fun _ _ _ _ => rfl, fun _ => Or.inl rfl, rfl⟩

theorem Js.runs_enqueue (h : Js.Host) (s : Js.State) (d : String) (op : Operation)
    (value : Js.Value) (hd : s.instance? h d = .found value) (hv : value.truthy = false) :
    Js.Runs h s (s.enqueue d op) [] := by
  refine ⟨rfl, rfl, rfl, rfl, rfl, ?_, ?_, by simp [Js.State.enqueue]⟩
  · intro d2 value2 hd2 hv2
    have hne : d2 ≠ d := by
      rintro rfl
      rw [hd] at hd2
      cases hd2
      rw [hv] at hv2
      exact Bool.noConfusion hv2
    simp [Js.State.enqueue, Function.update_noteq hne]
  · intro d2
    by_cases hdd : d2 = d
    · subst hdd
      right
      exact ⟨[op], by simp [Js.State.enqueue]⟩
    · left
      simp [Js.State.enqueue, Function.update_noteq hdd]

theorem Js.Direct.join {h : Js.Host} {s t : Js.State} {e0 e1 e2 : List Js.Invocation}
    (hr : Js.Runs h s t e0) (h1 : Js.Direct h s e1) (h2 : Js.Direct h t e2) :
    Js.Direct h s (e1 ++ e2) := by
  intro x hx
  rcases List.mem_append.1 hx with hx | hx
  · exact h1 x hx
  · have := h2 x hx
    rwa [hr.lookup_eq] at this

theorem Js.direct_nil (h : Js.Host) (s : Js.State) : Js.Direct h s [] := by
  intro x hx
  cases hx

/-- Running the body of an operation changes what running operations can change, and the
calls it causes are made from the first branch of `registerSwiperChange`. -/
theorem Js.runBody_runs (h : Js.Host) (b : Prog) : ∀ s : Js.State,
    ∃ extra, Js.Runs h s (Js.runBody h b s).state extra ∧ Js.Direct h s extra := by
  induction b with
  | ret => exact fun s => ⟨[], Js.Runs.same h s, Js.direct_nil h s⟩
  | raise => exact fun s => ⟨[], Js.Runs.same h s, Js.direct_nil h s⟩
  | call d l body caught next ihb ihn =>
    intro s
    have hreg := Js.runs_noteRegistered h s d ⟨l, body⟩
    have skip : ∃ extra, Js.Runs h s
        (if caught then Js.runBody h next (s.noteRegistered d ⟨l, body⟩)
          else Js.Outcome.thrown (s.noteRegistered d ⟨l, body⟩)).state extra ∧
        Js.Direct h s extra := by
      cases caught with
      | true =>
        obtain ⟨en, hn, hni⟩ := ihn (s.noteRegistered d ⟨l, body⟩)
        exact ⟨[] ++ en, hreg.followedBy hn, Js.Direct.join hreg (Js.direct_nil h s) hni⟩
      | false => exact ⟨[], hreg, Js.direct_nil h s⟩
    cases hlook : (s.noteRegistered d ⟨l, body⟩).instance? h d with
    | raises =>
      simp only [Js.runBody, hlook]
      exact skip
    | found value =>
      cases hv : value.truthy with
      | true =>
        have hinv := Js.runs_noteInvoked h (s.noteRegistered d ⟨l, body⟩) d l value .immediate
        have h01 := hreg.followedBy hinv
        have hd1 : Js.Direct h s ([] ++ [⟨d, l, value, .immediate⟩]) := by
          intro x hx
          simp only [List.nil_append, List.mem_singleton] at hx
          subst hx
          rw [hreg.lookup_eq] at hlook
          exact ⟨rfl, hlook, hv⟩
        obtain ⟨eb, hb, hbi⟩ :=
          ihb ((s.noteRegistered d ⟨l, body⟩).noteInvoked d l value .immediate)
        have h02 := h01.followedBy hb
        have hd2 := Js.Direct.join h01 hd1 hbi
        cases hrun : Js.runBody h body
            ((s.noteRegistered d ⟨l, body⟩).noteInvoked d l value .immediate) with
        | normal s2 =>
          rw [hrun] at hb h02
          obtain ⟨en, hn, hni⟩ := ihn s2
          refine ⟨_, ?_, Js.Direct.join h02 hd2 hni⟩
          simp only [Js.runBody, hlook, hv, if_true, hrun]
          exact h02.followedBy hn
        | thrown s2 =>
          rw [hrun] at hb h02
          cases caught with
          | true =>
            obtain ⟨en, hn, hni⟩ := ihn s2
            refine ⟨_, ?_, Js.Direct.join h02 hd2 hni⟩
            simp only [Js.runBody, hlook, hv, if_true, hrun]
            exact h02.followedBy hn
          | false =>
            refine ⟨_, ?_, hd2⟩
            simp only [Js.runBody, hlook, hv, if_true, hrun]
            exact h02
      | false =>
        have henq := Js.runs_enqueue h (s.noteRegistered d ⟨l, body⟩) d ⟨l, body⟩ value hlook hv
        have h01 := hreg.followedBy henq
        have push : ∃ extra, Js.Runs h s (Js.runBody h next
            ((s.noteRegistered d ⟨l, body⟩).enqueue d ⟨l, body⟩)).state extra ∧
            Js.Direct h s extra := by
          obtain ⟨en, hn, hni⟩ := ihn ((s.noteRegistered d ⟨l, body⟩).enqueue d ⟨l, body⟩)
          have hnil : Js.Direct h s ([] ++ []) := Js.direct_nil h s
          exact ⟨_, h01.followedBy hn, Js.Direct.join h01 hnil hni⟩
        cases hq : (s.noteRegistered d ⟨l, body⟩).queue? d with
        | inherited =>
          simp only [Js.runBody, hlook, hv, hq]
          exact skip
        | array ops =>
          simp only [Js.runBody, hlook, hv, hq]
          exact push
        | absent =>
          simp only [Js.runBody, hlook, hv, hq]
          exact push

theorem Js.registerSwiperChange_runs (h : Js.Host) (d : String) (op : Operation)
    (s : Js.State) :
    ∃ extra, Js.Runs h s (Js.registerSwiperChange h d op s).state extra ∧
      Js.Direct h s extra := by
  have hreg := Js.runs_noteRegistered h s d op
  cases hlook : (s.noteRegistered d op).instance? h d with
  | raises =>
    simp only [Js.registerSwiperChange, hlook]
    exact ⟨[], hreg, Js.direct_nil h s⟩
  | found value =>
    cases hv : value.truthy with
    | true =>
      have hinv := Js.runs_noteInvoked h (s.noteRegistered d op) d op.label value .immediate
      have h01 := hreg.followedBy hinv
      have hd1 : Js.Direct h s ([] ++ [⟨d, op.label, value, .immediate⟩]) := by
        intro x hx
        simp only [List.nil_append, List.mem_singleton] at hx
        subst hx
        rw [hreg.lookup_eq] at hlook
        exact ⟨rfl, hlook, hv⟩
      obtain ⟨eb, hb, hbi⟩ := Js.runBody_runs h op.body
        ((s.noteRegistered d op).noteInvoked d op.label value .immediate)
      refine ⟨_, ?_, Js.Direct.join h01 hd1 hbi⟩
      simp only [Js.registerSwiperChange, hlook, hv, if_true]
      exact h01.followedBy hb
    | false =>
      have henq := Js.runs_enqueue h (s.noteRegistered d op) d op value hlook hv
      cases hq : (s.noteRegistered d op).queue? d with
      | inherited =>
        simp only [Js.registerSwiperChange, hlook, hv, hq]
        exact ⟨[], hreg, Js.direct_nil h s⟩
      | array ops =>
        simp only [Js.registerSwiperChange, hlook, hv, hq]
        exact ⟨[] ++ [], hreg.followedBy henq, Js.direct_nil h s⟩
      | absent =>
        simp only [Js.registerSwiperChange, hlook, hv, hq]
        exact ⟨[] ++ [], hreg.followedBy henq, Js.direct_nil h s⟩

theorem Js.drained_split (a b : List Js.Invocation) :
    Js.drained (a ++ b) = Js.drained a ++ Js.drained b := by
  simp [Js.drained]

theorem Js.callsFor_split (d : String) (a b : List Js.Invocation) :
    Js.callsFor d (a ++ b) = Js.callsFor d a ++ Js.callsFor d b := by
  simp [Js.callsFor]

theorem Js.Direct.drained_nil {h : Js.Host} {s : Js.State} {extra : List Js.Invocation}
    (hd : Js.Direct h s extra) : Js.drained extra = [] := by
  simp only [Js.drained, List.filter_eq_nil_iff, decide_eq_true_eq]
  intro x hx hsite
  have := (hd x hx).1
  rw [hsite] at this
  exact Site.noConfusion this

theorem Js.Mixed.glue {h : Js.Host} {d : String} {s t : Js.State}
    {e0 e1 e2 : List Js.Invocation} (hr : Js.Runs h s t e0) (h1 : Js.Mixed h d s e1)
    (h2 : Js.Mixed h d t e2) : Js.Mixed h d s (e1 ++ e2) := by
  intro x hx
  rcases List.mem_append.1 hx with hx | hx
  · exact h1 x hx
  · have := h2 x hx
    rwa [hr.lookup_eq] at this

/-- One turn of the loop of `applyPendingOperations`. -/
theorem Js.invoke_runs (h : Js.Host) (d : String) (op : Operation) (s : Js.State) :
    ∃ extra, Js.Runs h s (Js.invoke h d op s).state extra ∧ Js.Mixed h d s extra ∧
      ((Js.invoke h d op s).returned = true → ∀ value, s.instance? h d = .found value →
        Js.drained extra = Js.drainCalls d value [op]) := by
  cases hlook : s.instance? h d with
  | raises =>
    refine ⟨[], ?_, (by intro x hx; cases hx), ?_⟩
    · simp only [Js.invoke, hlook]
      exact Js.Runs.same h s
    · intro hret
      simp [Js.invoke, hlook, Js.Outcome.returned] at hret
  | found value =>
    have h1 := Js.runs_noteInvoked h s d op.label value .drain
    obtain ⟨rest, h2, h3⟩ := Js.runBody_runs h op.body (s.noteInvoked d op.label value .drain)
    refine ⟨[⟨d, op.label, value, .drain⟩] ++ rest, ?_, ?_, ?_⟩
    · simp only [Js.invoke, hlook]
      exact h1.followedBy h2
    · intro x hx
      rcases List.mem_append.1 hx with hx | hx
      · simp only [List.mem_singleton] at hx
        subst hx
        exact Or.inl ⟨rfl, rfl⟩
      · have := h3 x hx
        rw [h1.lookup_eq] at this
        exact Or.inr this
    · intro _ value2 hv2
      cases hv2
      rw [Js.drained_split, h3.drained_nil]
      simp [Js.drained, Js.drainCalls]

/-- The loop of `applyPendingOperations`: it changes what running operations can change,
its calls from the loop are calls for `d`, and when no exception leaves it, it has called
each operation once, in order, with the value `swiperInstances[d]` yields. -/
theorem Js.forEach_runs (h : Js.Host) (d : String) (ops : List Operation) : ∀ s : Js.State,
    ∃ extra, Js.Runs h s (Js.forEach (Js.invoke h d) ops s).state extra ∧
      Js.Mixed h d s extra ∧
      ((Js.forEach (Js.invoke h d) ops s).returned = true → ∀ value,
        s.instance? h d = .found value → Js.drained extra = Js.drainCalls d value ops) := by
  induction ops with
  | nil =>
    intro s
    exact ⟨[], Js.Runs.same h s, (by intro x hx; cases hx), fun _ _ _ => rfl⟩
  | cons op ops ih =>
    intro s
    obtain ⟨e1, h1, m1, d1⟩ := Js.invoke_runs h d op s
    cases hrun : Js.invoke h d op s with
    | normal t =>
      rw [hrun] at h1 d1
      obtain ⟨e2, h2, m2, d2⟩ := ih t
      refine ⟨e1 ++ e2, ?_, Js.Mixed.glue h1 m1 m2, ?_⟩
      · simp only [Js.forEach, hrun, Js.Outcome.andThen]
        exact h1.followedBy h2
      · intro hret value hv
        simp only [Js.forEach, hrun, Js.Outcome.andThen] at hret
        have hv2 : t.instance? h d = .found value := by
          have := h1.lookup_eq d
          simp only [Js.Outcome.state] at this
          rw [this]; exact hv
        rw [Js.drained_split, d1 rfl value hv, d2 hret value hv2]
        rfl
    | thrown t =>
      rw [hrun] at h1
      refine ⟨e1, ?_, m1, ?_⟩
      · simp only [Js.forEach, hrun, Js.Outcome.andThen]
        exact h1
      · intro hret
        simp [Js.forEach, hrun, Js.Outcome.andThen, Js.Outcome.returned] at hret

theorem Js.Finds.next {s t u : Js.State} (h1 : Js.Finds s t) (h2 : Js.Finds t u) :
    Js.Finds s u :=
  ⟨h2.instances.trans h1.instances, h2.instancesProto.trans h1.instancesProto,
    h2.queues.trans h1.queues, h2.invoked.trans h1.invoked,
    h2.registered.trans h1.registered⟩

theorem Js.remember_finds (h : Js.Host) (s s1 : Js.State) (d : String) (value : Js.Value)
    (hs : s.remember h d value = some s1) : Js.Finds s s1 := by
  unfold Js.State.remember at hs
  split at hs
  · cases hs
    exact ⟨rfl, rfl, rfl, rfl, rfl⟩
  · cases hs

theorem Js.handleNode_finds (h : Js.Host) (node : Node) (s : Js.State) :
    Js.Finds s (Js.handleNode h node s).state := by
  unfold Js.handleNode
  split
  · split
    · exact ⟨rfl, rfl, rfl, rfl, rfl⟩
    · split
      · split
        · rename_i s1 hs
          exact (Js.remember_finds h s s1 _ _ hs).next ⟨rfl, rfl, rfl, rfl, rfl⟩
        · exact ⟨rfl, rfl, rfl, rfl, rfl⟩
      · exact ⟨rfl, rfl, rfl, rfl, rfl⟩
  · exact ⟨rfl, rfl, rfl, rfl, rfl⟩

theorem Js.forEach_finds {α : Type} (f : α → Js.State → Js.Outcome)
    (hf : ∀ x s, Js.Finds s (f x s).state) (xs : List α) :
    ∀ s, Js.Finds s (Js.forEach f xs s).state := by
  induction xs with
  | nil => exact fun s => ⟨rfl, rfl, rfl, rfl, rfl⟩
  | cons x xs ih =>
    intro s
    have h1 := hf x s
    simp only [Js.forEach]
    cases hx : f x s with
    | normal t =>
      rw [hx] at h1
      exact h1.next (ih t)
    | thrown t =>
      rw [hx] at h1
      exact h1

theorem Js.handleMutations_finds (h : Js.Host) (mutations : List MutationRecord)
    (s : Js.State) : Js.Finds s (Js.handleMutations h mutations s).state := by
  unfold Js.handleMutations
  exact Js.forEach_finds _
    (fun m s => Js.forEach_finds (Js.handleNode h) (Js.handleNode_finds h) m.addedNodes s)
    mutations s

theorem Js.assign_other (h : Js.Host) (own own2 : String → Option Js.Value)
    (proto proto2 : Js.Value) (k : String) (value : Js.Value)
    (ha : Js.assign h own proto k value = some (own2, proto2)) (d : String) (hd : d ≠ k) :
    own2 d = own d := by
  have hup : Function.update own k (some value) d = own d := Function.update_noteq hd _ _
  unfold Js.assign at ha
  split at ha
  · cases ha; exact hup
  · split at ha
    · split at ha
      · cases ha; rfl
      · cases ha; exact hup
    · cases ha; exact hup
    · cases ha; exact hup
    · cases ha; exact hup
    · split at ha
      · cases ha; exact hup
      · cases ha; rfl
      · cases ha
      · cases ha; rfl

/-- The assignment `swiperInstances[k] = value` touches nothing but `swiperInstances`, and
there nothing but the own property `k` and the prototype. -/
theorem Js.record_frame (h : Js.Host) (s s1 : Js.State) (k : String) (value : Js.Value)
    (hs : s.record h k value = some s1) :
    s1.pendingOperations = s.pendingOperations ∧ s1.observers = s.observers ∧
    s1.invoked = s.invoked ∧ s1.registered = s.registered ∧
    ∀ d, d ≠ k → s1.swiperInstances d = s.swiperInstances d := by
  unfold Js.State.record at hs
  split at hs
  · rename_i own proto ha
    cases hs
    exact ⟨rfl, rfl, rfl, rfl, fun d hd => Js.assign_other h _ _ _ _ k value ha d hd⟩
  · cases hs

theorem Js.State.clear_none (s : Js.State) (d : String) (hq : s.pendingOperations d = none) :
    s.clear d = s := by
  have : Function.update s.pendingOperations d none = s.pendingOperations := by
    rw [← hq]
    exact Function.update_eq_self d s.pendingOperations
  simp only [Js.State.clear, this]

/-- The drain: on an inherited member it raises at once; with no own array nothing
happens; with an own array the loop runs on it, and the array is deleted when the loop
returns. -/
theorem Js.applyPendingOperations_runs (h : Js.Host) (d : String) (s : Js.State) :
    ∃ u extra, Js.Runs h s u extra ∧ Js.Mixed h d s extra ∧
      (Js.applyPendingOperations h d s = .thrown u ∨
        Js.applyPendingOperations h d s = .normal (u.clear d)) ∧
      ((Js.applyPendingOperations h d s).returned = true → ∀ value,
        s.instance? h d = .found value →
        Js.drained extra = Js.drainCalls d value (s.queue d)) := by
  cases hq : s.pendingOperations d with
  | none =>
    have hqueue : s.queue d = [] := by simp [Js.State.queue, hq]
    refine ⟨s, [], Js.Runs.same h s, (by intro x hx; cases hx), ?_, ?_⟩
    · by_cases hsafe : Js.safe d = true
      · right
        simp [Js.applyPendingOperations, Js.State.queue?, hq, hsafe, Js.State.clear_none s d hq]
      · left
        simp [Js.applyPendingOperations, Js.State.queue?, hq, hsafe]
    · intro _ value _
      rw [hqueue]
      rfl
  | some ops =>
    have hqueue : s.queue d = ops := by simp [Js.State.queue, hq]
    obtain ⟨extra, h1, h2, h3⟩ := Js.forEach_runs h d ops s
    refine ⟨_, extra, h1, h2, ?_, ?_⟩
    · simp only [Js.applyPendingOperations, Js.State.queue?, hq]
      cases Js.forEach (Js.invoke h d) ops s with
      | normal u => exact Or.inr rfl
      | thrown u => exact Or.inl rfl
    · intro hret value hv
      rw [hqueue]
      apply h3 _ value hv
      simp only [Js.applyPendingOperations, Js.State.queue?, hq] at hret
      cases hf : Js.forEach (Js.invoke h d) ops s with
      | normal u => rfl
      | thrown u => simp [hf, Js.Outcome.andThen, Js.Outcome.returned] at hret

theorem Js.readinessCallback_skips (h : Js.Host) (v : Variant) (i : Nat)
    (classList : List String) (swiper : Js.Value) (s : Js.State)
    (hi : s.observers.get? i = none ∨ isSwiperInitialized classList = false) :
    Js.readinessCallback h v i classList swiper s = .normal s := by
  unfold Js.readinessCallback
  rcases hi with hi | hi
  · rw [hi]
  · cases s.observers.get? i with
    | none => rfl
    | some w => simp [hi]

/-- The readiness callback when its node carries the initialized class: the assignment
raises, or it is made and the drain follows; when the drain returns the observer is
disconnected. -/
theorem Js.readinessCallback_cases (h : Js.Host) (v : Variant) (i : Nat)
    (classList : List String) (swiper : Js.Value) (s : Js.State) (w : Watcher)
    (hw : s.observers.get? i = some w) (hc : isSwiperInitialized classList = true) :
    (s.record h w.dataId (Js.recorded v w.node swiper) = none ∧
      Js.readinessCallback h v i classList swiper s = .thrown s) ∨
    ∃ s1 u extra, s.record h w.dataId (Js.recorded v w.node swiper) = some s1 ∧
      Js.Runs h s1 u extra ∧ Js.Mixed h w.dataId s1 extra ∧
      (Js.readinessCallback h v i classList swiper s = .thrown u ∨
        Js.readinessCallback h v i classList swiper s =
          .normal ((u.clear w.dataId).disconnect i)) ∧
      ((Js.readinessCallback h v i classList swiper s).returned = true → ∀ value,
        s1.instance? h w.dataId = .found value →
        Js.drained extra = Js.drainCalls w.dataId value (s1.queue w.dataId)) := by
  cases hrec : s.record h w.dataId (Js.recorded v w.node swiper) with
  | none =>
    left
    exact ⟨rfl, by simp only [Js.readinessCallback, hw, hc, if_true, hrec]⟩
  | some s1 =>
    right
    have hunf : Js.readinessCallback h v i classList swiper s =
        (Js.applyPendingOperations h w.dataId s1).andThen
          fun s2 => .normal (s2.disconnect i) := by
      simp only [Js.readinessCallback, hw, hc, if_true, hrec]
    obtain ⟨u, extra, h1, h2, h3, h4⟩ := Js.applyPendingOperations_runs h w.dataId s1
    refine ⟨s1, u, extra, rfl, h1, h2, ?_, ?_⟩
    · rcases h3 with h3 | h3
      · left; rw [hunf, h3]; rfl
      · right; rw [hunf, h3]; rfl
    · intro hret value hv
      apply h4 _ value hv
      rw [hunf] at hret
      cases happ : Js.applyPendingOperations h w.dataId s1 with
      | normal u2 => rfl
      | thrown u2 => simp [happ, Js.Outcome.andThen, Js.Outcome.returned] at hret

/-! ## Lookups through the prototype chain: registration for an identifier that is not ready -/

theorem Js.lookup_congr (h : Js.Host) (s t : Js.State) (d : String)
    (hown : t.swiperInstances d = s.swiperInstances d)
    (hproto : t.swiperInstancesProto = s.swiperInstancesProto) :
    t.instance? h d = s.instance? h d := by
  simp [Js.State.instance?, hown, hproto]

/-- An event that does not make an observer of `d` assign `swiperInstances[d]` leaves the
own property `d` alone, can only add operations at the end of the own queue of `d`, and
makes no call for `d` from the loop of a drain; it makes no call for `d` at all when it
keeps the prototype of `swiperInstances` and the lookup of `d` is not truthy. -/
theorem Js.step_still (h : Js.Host) (v : Variant) (e : Js.Event) (s : Js.State) (d : String)
    (hq : e.fulfils s d = false) :
    (Js.step h v e s).state.swiperInstances d = s.swiperInstances d ∧
    ((Js.step h v e s).state.pendingOperations d = s.pendingOperations d ∨
      ∃ more, (Js.step h v e s).state.pendingOperations d = some (s.queue d ++ more)) ∧
    ∃ extra, (Js.step h v e s).state.invoked = s.invoked ++ extra ∧
      (∀ x ∈ extra, x.site = .drain → x.dataId ≠ d) ∧
      ((Js.step h v e s).state.swiperInstancesProto = s.swiperInstancesProto →
        (∀ value, s.instance? h d = .found value → value.truthy = false) →
        Js.callsFor d extra = []) := by
  have nocalls : ∀ (s1 : Js.State) (extra : List Js.Invocation) (d0 : String),
      d0 ≠ d → Js.Mixed h d0 s1 extra → s1.instance? h d = s.instance? h d →
      (∀ value, s.instance? h d = .found value → value.truthy = false) →
      Js.callsFor d extra = [] := by
    intro s1 extra d0 hne hm hlook hfalsy
    simp only [Js.callsFor, List.filter_eq_nil_iff, decide_eq_true_eq]
    intro x hx hxd
    rcases hm x hx with ⟨_, h2⟩ | ⟨_, h2, h3⟩
    · exact hne (h2.symm.trans hxd)
    · rw [hxd, hlook] at h2
      rw [hfalsy _ h2] at h3
      exact Bool.noConfusion h3
  cases e with
  | register d2 op =>
    obtain ⟨extra, hr, hd⟩ := Js.registerSwiperChange_runs h d2 op s
    refine ⟨by simp only [Js.step, hr.instances], hr.queue d, extra, hr.invoked, ?_, ?_⟩
    · intro x hx hsite
      rw [(hd x hx).1] at hsite
      exact Site.noConfusion hsite
    · intro _ hfalsy
      simp only [Js.callsFor, List.filter_eq_nil_iff, decide_eq_true_eq]
      intro x hx hxd
      obtain ⟨_, h2, h3⟩ := hd x hx
      rw [hxd] at h2
      rw [hfalsy _ h2] at h3
      exact Bool.noConfusion h3
  | mutations records =>
    have hf := Js.handleMutations_finds h records s
    exact ⟨by simp only [Js.step, hf.instances], Or.inl (by simp only [Js.step, hf.queues]),
      [], by simp [Js.step, hf.invoked], (by intro x hx; cases hx), fun _ _ => rfl⟩
  | classChange i classList swiper =>
    have hsame : (Js.step h v (.classChange i classList swiper) s).state = s →
        (Js.step h v (.classChange i classList swiper) s).state.swiperInstances d =
          s.swiperInstances d ∧
        ((Js.step h v (.classChange i classList swiper) s).state.pendingOperations d =
            s.pendingOperations d ∨
          ∃ more, (Js.step h v (.classChange i classList swiper) s).state.pendingOperations d =
            some (s.queue d ++ more)) ∧
        ∃ extra, (Js.step h v (.classChange i classList swiper) s).state.invoked =
            s.invoked ++ extra ∧
          (∀ x ∈ extra, x.site = .drain → x.dataId ≠ d) ∧
          ((Js.step h v (.classChange i classList swiper) s).state.swiperInstancesProto =
              s.swiperInstancesProto →
            (∀ value, s.instance? h d = .found value → value.truthy = false) →
            Js.callsFor d extra = []) := by
      intro hst
      rw [hst]
      exact ⟨rfl, Or.inl rfl, [], by simp, (by intro x hx; cases hx), fun _ _ => rfl⟩
    cases hw : s.observers.get? i with
    | none =>
      apply hsame
      simp only [Js.step, Js.readinessCallback_skips h v i classList swiper s (Or.inl hw),
        Js.Outcome.state]
    | some w =>
      cases hc : isSwiperInitialized classList with
      | false =>
        apply hsame
        simp only [Js.step, Js.readinessCallback_skips h v i classList swiper s (Or.inr hc),
          Js.Outcome.state]
      | true =>
        have hne : w.dataId ≠ d := by
          simp only [Js.Event.fulfils, hc, hw, Bool.true_and, decide_eq_false_iff_not] at hq
          exact hq
        have hne2 : d ≠ w.dataId := fun hh => hne hh.symm
        rcases Js.readinessCallback_cases h v i classList swiper s w hw hc with
          ⟨_, hout⟩ | ⟨s1, u, extra, hrec, hr, hm, hout, _⟩
        · apply hsame
          simp only [Js.step, hout, Js.Outcome.state]
        · obtain ⟨f1, _, f3, _, f5⟩ := Js.record_frame h s s1 w.dataId _ hrec
          have hown : u.swiperInstances d = s.swiperInstances d := by
            rw [hr.instances]; exact f5 d hne2
          have hinv : u.invoked = s.invoked ++ extra := by rw [hr.invoked, f3]
          have hqueue : u.pendingOperations d = s.pendingOperations d ∨
              ∃ more, u.pendingOperations d = some (s.queue d ++ more) := by
            have := hr.queue d
            simp only [Js.State.queue, f1] at this ⊢
            exact this
          have hdrain : ∀ x ∈ extra, x.site = .drain → x.dataId ≠ d := by
            intro x hx hsite
            rcases hm x hx with ⟨_, h2⟩ | ⟨h1, _⟩
            · rw [h2]; exact hne
            · rw [h1] at hsite
              exact Site.noConfusion hsite
          have hcalls : u.swiperInstancesProto = s.swiperInstancesProto →
              (∀ value, s.instance? h d = .found value → value.truthy = false) →
              Js.callsFor d extra = [] := by
            intro hproto hfalsy
            apply nocalls s1 extra w.dataId hne hm _ hfalsy
            exact Js.lookup_congr h s s1 d (f5 d hne2) (by rw [← hr.instancesProto]; exact hproto)
          rcases hout with hh | hh
          · simp only [Js.step, hh, Js.Outcome.state]
            exact ⟨hown, hqueue, extra, hinv, hdrain, hcalls⟩
          · simp only [Js.step, hh, Js.Outcome.state, Js.State.disconnect, Js.State.clear,
              Function.update_noteq hne2]
            exact ⟨hown, hqueue, extra, hinv, hdrain, hcalls⟩

theorem Js.assign_pristine (h : Js.Host) (own own2 : String → Option Js.Value)
    (proto2 : Js.Value) (k : String) (value : Js.Value) (hk : k ≠ "__proto__")
    (ha : Js.assign h own .objectPrototype k value = some (own2, proto2)) :
    proto2 = .objectPrototype := by
  unfold Js.assign at ha
  split at ha
  · cases ha; rfl
  · simp only [hk, if_false] at ha
    cases ha; rfl

/-- An event that does not make an observer of `__proto__` assign
`swiperInstances["__proto__"]` keeps `Object.prototype` as prototype of `swiperInstances`. -/
theorem Js.step_pristine (h : Js.Host) (v : Variant) (e : Js.Event) (s : Js.State)
    (hp : s.swiperInstancesProto = .objectPrototype)
    (hq : e.fulfils s "__proto__" = false) :
    (Js.step h v e s).state.swiperInstancesProto = .objectPrototype := by
  cases e with
  | register d2 op =>
    obtain ⟨extra, hr, _⟩ := Js.registerSwiperChange_runs h d2 op s
    simp only [Js.step, hr.instancesProto, hp]
  | mutations records =>
    simp only [Js.step, (Js.handleMutations_finds h records s).instancesProto, hp]
  | classChange i classList swiper =>
    cases hw : s.observers.get? i with
    | none =>
      simp only [Js.step, Js.readinessCallback_skips h v i classList swiper s (Or.inl hw),
        Js.Outcome.state, hp]
    | some w =>
      cases hc : isSwiperInitialized classList with
      | false =>
        simp only [Js.step, Js.readinessCallback_skips h v i classList swiper s (Or.inr hc),
          Js.Outcome.state, hp]
      | true =>
        have hne : w.dataId ≠ "__proto__" := by
          simp only [Js.Event.fulfils, hc, hw, Bool.true_and, decide_eq_false_iff_not] at hq
          exact hq
        rcases Js.readinessCallback_cases h v i classList swiper s w hw hc with
          ⟨_, hout⟩ | ⟨s1, u, extra, hrec, hr, _, hout, _⟩
        · simp only [Js.step, hout, Js.Outcome.state, hp]
        · have h1 : s1.swiperInstancesProto = .objectPrototype := by
            unfold Js.State.record at hrec
            split at hrec
            · rename_i own proto ha
              cases hrec
              rw [hp] at ha
              exact Js.assign_pristine h _ _ _ _ _ hne ha
            · cases hrec
          rcases hout with hh | hh
          · simp only [Js.step, hh, Js.Outcome.state, hr.instancesProto, h1]
          · simp only [Js.step, hh, Js.Outcome.state, Js.State.disconnect, Js.State.clear,
              hr.instancesProto, h1]

theorem Js.lookup_safe (h : Js.Host) (s : Js.State) (d : String)
    (hown : s.swiperInstances d = none) (hproto : s.swiperInstancesProto = .objectPrototype)
    (hsafe : Js.safe d = true) : s.instance? h d = .found .undefined := by
  simp only [Js.safe, Bool.and_eq_true, bne_iff_ne, ne_eq, Bool.not_eq_true'] at hsafe
  have h2 : d ∉ Js.objectPrototypeMembers := by simpa using hsafe.2
  simp [Js.State.instance?, hown, hproto, Js.inherited, hsafe.1, h2]

/-- Along a trace in which no observer of `d` assigns `swiperInstances[d]`, an absent own
entry stays absent, the own queue of `d` only grows at its end, and no call for `d` is
made from the loop of a drain. -/
theorem Js.exec_still (h : Js.Host) (v : Variant) (d : String) (es : List Js.Event) :
    ∀ (s : Js.State) (q : List Operation),
    Js.Quiet h v d es s → s.swiperInstances d = none → s.pendingOperations d = some q →
    (Js.exec h v es s).swiperInstances d = none ∧
    (∃ more, (Js.exec h v es s).pendingOperations d = some (q ++ more)) ∧
    ∃ extra, (Js.exec h v es s).invoked = s.invoked ++ extra ∧
      (∀ x ∈ extra, x.site = .drain → x.dataId ≠ d) ∧
      (s.swiperInstancesProto = .objectPrototype → Js.safe d = true →
        Js.Quiet h v "__proto__" es s → Js.callsFor d extra = []) := by
  induction es with
  | nil =>
    intro s q _ hi hp
    exact ⟨hi, ⟨[], by simpa [Js.exec] using hp⟩, [], by simp [Js.exec],
      (by intro x hx; cases hx), fun _ _ _ => rfl⟩
  | cons e es ih =>
    intro s q hq hi hp
    obtain ⟨h1, h4, e1, h2, h3, h5⟩ := Js.step_still h v e s d hq.1
    have hp2 : ∃ m1, (Js.step h v e s).state.pendingOperations d = some (q ++ m1) := by
      rcases h4 with hh | ⟨m, hh⟩
      · exact ⟨[], by rw [hh, hp]; simp⟩
      · exact ⟨m, by rw [hh]; simp [Js.State.queue, hp]⟩
    obtain ⟨m1, hp3⟩ := hp2
    obtain ⟨r1, ⟨m2, r3⟩, e2, r4, r5, r6⟩ :=
      ih (Js.step h v e s).state (q ++ m1) hq.2 (h1.trans hi) hp3
    refine ⟨r1, ⟨m1 ++ m2, ?_⟩, e1 ++ e2, ?_, ?_, ?_⟩
    · simp only [Js.exec]
      rw [r3, List.append_assoc]
    · simp only [Js.exec]
      rw [r4, h2, List.append_assoc]
    · intro x hx
      rcases List.mem_append.1 hx with hx | hx
      · exact h3 x hx
      · exact r5 x hx
    · intro hproto hsafe hquiet
      have hstep := Js.step_pristine h v e s hproto hquiet.1
      have hlook := Js.lookup_safe h s d hi hproto hsafe
      have c1 : Js.callsFor d e1 = [] := by
        apply h5 (by rw [hstep, hproto])
        intro value hv
        rw [hlook] at hv
        cases hv
        rfl
      rw [Js.callsFor_split, c1, r6 hstep hsafe hquiet.2]
      rfl

/-- C2, as stated, fails: on a freshly loaded module `swiperInstances` has no entry for
`constructor`, yet `registerSwiperChange("constructor", op)` calls `op` at once, with the
function `swiperInstances` inherits under that name, and queues nothing. -/
theorem Js.registration_for_inherited_name_runs :
    Js.State.init.swiperInstances "constructor" = none ∧
    (Js.registerSwiperChange Js.pageHost "constructor" ⟨7, .ret⟩ Js.State.init).state.invoked =
      [⟨"constructor", 7, .function "constructor", .immediate⟩] ∧
    (Js.registerSwiperChange Js.pageHost "constructor" ⟨7, .ret⟩
      Js.State.init).state.pendingOperations "constructor" = none := by
  decide

/-- C2, amended: let `swiperInstances` have no entry for `d`, let the read
`swiperInstances[d]` find nothing truthy up the prototype chain either, and let `d` not be
a name that `pendingOperations` inherits from `Object.prototype`. Then
`registerSwiperChange(d, op)` returns without calling any operation and leaves
`pendingOperations[d]` equal to the previous list (the empty list if there was none)
followed by `op`. Along every later trace in which no readiness observer of `d` assigns
`swiperInstances[d]`, the entry for `d` stays absent, `op` stays in the queue of `d` behind
the operations that were there before it, and no drain calls an operation for `d`; when
in addition the prototype of `swiperInstances` is `Object.prototype` and no observer of
`__proto__` replaces it, no operation at all is called for `d`. -/
theorem Js.registerSwiperChange_unready (h : Js.Host) (s : Js.State) (d : String)
    (op : Operation) (value : Js.Value) (habsent : s.swiperInstances d = none)
    (hlookup : s.instance? h d = .found value) (hfalsy : value.truthy = false)
    (hsafe : Js.safe d = true) :
    Js.registerSwiperChange h d op s = .normal ((s.noteRegistered d op).enqueue d op) ∧
    (Js.registerSwiperChange h d op s).state.invoked = s.invoked ∧
    (Js.registerSwiperChange h d op s).state.pendingOperations d = some (s.queue d ++ [op]) ∧
    ∀ (v : Variant) (es : List Js.Event),
      Js.Quiet h v d es (Js.registerSwiperChange h d op s).state →
      (Js.exec h v es (Js.registerSwiperChange h d op s).state).swiperInstances d = none ∧
      (∃ more, (Js.exec h v es (Js.registerSwiperChange h d op s).state).pendingOperations d =
        some (s.queue d ++ op :: more)) ∧
      ∃ extra, (Js.exec h v es (Js.registerSwiperChange h d op s).state).invoked =
          s.invoked ++ extra ∧
        (∀ x ∈ extra, x.site = .drain → x.dataId ≠ d) ∧
        (s.swiperInstancesProto = .objectPrototype →
          Js.Quiet h v "__proto__" es (Js.registerSwiperChange h d op s).state →
          Js.callsFor d extra = []) := by
  have hlook2 : (s.noteRegistered d op).instance? h d = .found value := hlookup
  have hq : (s.noteRegistered d op).queue? d ≠ .inherited := by
    simp only [Js.State.queue?, Js.State.noteRegistered]
    cases s.pendingOperations d with
    | none => simp [hsafe]
    | some ops => simp
  have hunf : Js.registerSwiperChange h d op s =
      .normal ((s.noteRegistered d op).enqueue d op) := by
    simp only [Js.registerSwiperChange, hlook2, hfalsy]
    cases hq2 : (s.noteRegistered d op).queue? d with
    | inherited => exact absurd hq2 hq
    | array ops => rfl
    | absent => rfl
  have hqueue : (Js.registerSwiperChange h d op s).state.pendingOperations d =
      some (s.queue d ++ [op]) := by
    rw [hunf]
    simp [Js.Outcome.state, Js.State.enqueue, Js.State.queue, Js.State.noteRegistered]
  refine ⟨hunf, by rw [hunf]; rfl, hqueue, ?_⟩
  intro v es hquiet
  have hi : (Js.registerSwiperChange h d op s).state.swiperInstances d = none := by
    rw [hunf]
    exact habsent
  obtain ⟨r1, ⟨more, r3⟩, extra, r4, r5, r6⟩ := Js.exec_still h v d es _ _ hquiet hi hqueue
  refine ⟨r1, ⟨more, by rw [r3]; simp⟩, extra, ?_, r5, ?_⟩
  · rw [r4, hunf]
    rfl
  · intro hproto hq2
    apply r6 _ hsafe hq2
    rw [hunf]
    exact hproto

/-- The theorem on the freshly loaded module, for the identifier `a` and the trace
`Js.strayTrace`. -/
theorem Js.registerSwiperChange_unready_witness :
    Js.State.init.swiperInstances "a" = none ∧
    Js.State.init.instance? Js.pageHost "a" = .found .undefined ∧
    Js.safe "a" = true ∧
    (Js.registerSwiperChange Js.pageHost "a" ⟨7, .ret⟩ Js.State.init).state.pendingOperations "a" =
      some (Js.State.init.queue "a" ++ [⟨7, .ret⟩]) ∧
    (Js.exec Js.pageHost .dist Js.strayTrace
      (Js.registerSwiperChange Js.pageHost "a" ⟨7, .ret⟩ Js.State.init).state).swiperInstances "a"
      = none :=
  ⟨by decide, by decide, by decide,
    (Js.registerSwiperChange_unready Js.pageHost Js.State.init "a" ⟨7, .ret⟩ .undefined
      (by decide) (by decide) rfl (by decide)).2.2.1,
    ((Js.registerSwiperChange_unready Js.pageHost Js.State.init "a" ⟨7, .ret⟩ .undefined
      (by decide) (by decide) rfl (by decide)).2.2.2 .dist Js.strayTrace (by decide)).1⟩

/-! ## Lookups through the prototype chain: the drain at readiness -/

theorem Js.registerSwiperChange_enqueue (h : Js.Host) (s : Js.State) (d : String)
    (op : Operation) (value : Js.Value) (hlookup : s.instance? h d = .found value)
    (hfalsy : value.truthy = false) (hsafe : Js.safe d = true) :
    Js.registerSwiperChange h d op s = .normal ((s.noteRegistered d op).enqueue d op) := by
  have hlook2 : (s.noteRegistered d op).instance? h d = .found value := hlookup
  simp only [Js.registerSwiperChange, hlook2, hfalsy]
  cases hq2 : (s.noteRegistered d op).queue? d with
  | inherited =>
    simp only [Js.State.queue?, Js.State.noteRegistered] at hq2
    cases hp : s.pendingOperations d with
    | none => simp [hp, hsafe] at hq2
    | some ops => simp [hp] at hq2
  | array ops => rfl
  | absent => rfl

theorem Js.lookup_unready (h : Js.Host) (s : Js.State) (d : String)
    (hsafe : Js.safe d = true) (hproto : s.swiperInstancesProto = .objectPrototype)
    (hunready : ∀ value, s.swiperInstances d = some value → value.truthy = false) :
    ∃ value, s.instance? h d = .found value ∧ value.truthy = false := by
  cases hown : s.swiperInstances d with
  | none => exact ⟨.undefined, Js.lookup_safe h s d hown hproto hsafe, rfl⟩
  | some value => exact ⟨value, by simp [Js.State.instance?, hown], hunready value hown⟩

/-- Registering `ops` one after the other for a safe identifier whose lookup is not truthy
calls nothing and leaves them at the end of its queue, in order. -/
theorem Js.exec_register_unready (h : Js.Host) (v : Variant) (d : String)
    (hsafe : Js.safe d = true) (ops : List Operation) : ∀ s : Js.State,
    s.swiperInstancesProto = .objectPrototype →
    (∀ value, s.swiperInstances d = some value → value.truthy = false) →
    (Js.exec h v (ops.map (Js.Event.register d)) s).swiperInstances = s.swiperInstances ∧
    (Js.exec h v (ops.map (Js.Event.register d)) s).swiperInstancesProto =
      s.swiperInstancesProto ∧
    (Js.exec h v (ops.map (Js.Event.register d)) s).observers = s.observers ∧
    (Js.exec h v (ops.map (Js.Event.register d)) s).invoked = s.invoked ∧
    (Js.exec h v (ops.map (Js.Event.register d)) s).queue d = s.queue d ++ ops := by
  induction ops with
  | nil => exact fun s _ _ => ⟨rfl, rfl, rfl, rfl, by simp [Js.exec]⟩
  | cons op ops ih =>
    intro s hproto hunready
    obtain ⟨value, hlook, hfalsy⟩ := Js.lookup_unready h s d hsafe hproto hunready
    have hstep : (Js.step h v (.register d op) s).state =
        (s.noteRegistered d op).enqueue d op := by
      simp only [Js.step, Js.registerSwiperChange_enqueue h s d op value hlook hfalsy hsafe,
        Js.Outcome.state]
    obtain ⟨h1, h2, h3, h4, h5⟩ := ih ((s.noteRegistered d op).enqueue d op) hproto hunready
    simp only [List.map_cons, Js.exec, hstep]
    refine ⟨h1, h2, h3, h4, ?_⟩
    rw [h5]
    simp [Js.State.queue, Js.State.enqueue, Js.State.noteRegistered]

/-- With `Object.prototype` as prototype, an assignment under a name other than
`__proto__` writes the own property. -/
theorem Js.record_define (h : Js.Host) (s : Js.State) (d : String) (value : Js.Value)
    (hproto : s.swiperInstancesProto = .objectPrototype) (hd : d ≠ "__proto__") :
    s.record h d value = some (s.define d value) := by
  unfold Js.State.record Js.assign Js.State.define
  rw [hproto]
  cases s.swiperInstances d with
  | none => simp [hd, hproto]
  | some old => simp [hproto]

/-- C3, as stated, fails. The first of two operations registered for `a` throws: the
readiness step calls it and not the second, and the queue of `a` is still there. And an
operation registered for `constructor` before any readiness is called at once, with the
function `swiperInstances` inherits; the readiness callback of `constructor` then ends
with an exception (`pendingOperations.constructor` is inherited and has no `forEach`),
calls nothing and leaves its observer connected. -/
theorem Js.drain_stops_or_never_starts :
    (Js.exec Js.pageHost .src Js.throwingTrace Js.State.init).invoked =
      [⟨"a", 1, .element 1, .drain⟩] ∧
    (Js.exec Js.pageHost .src Js.throwingTrace Js.State.init).pendingOperations "a" =
      some [⟨1, .raise⟩, ⟨2, .ret⟩] ∧
    (Js.exec Js.pageHost .src (Js.constructorTrace.take 1) Js.State.init).invoked =
      [⟨"constructor", 1, .function "constructor", .immediate⟩] ∧
    (Js.step Js.pageHost .src (.classChange 0 ["swiper", "swiper-initialized"] .undefined)
      (Js.exec Js.pageHost .src (Js.constructorTrace.take 2) Js.State.init)).returned = false ∧
    (Js.exec Js.pageHost .src Js.constructorTrace Js.State.init).invoked =
      [⟨"constructor", 1, .function "constructor", .immediate⟩] ∧
    (Js.exec Js.pageHost .src Js.constructorTrace Js.State.init).observers =
      [⟨1, "constructor"⟩] := by
  decide

/-- C3, amended: let `d` be an identifier that is not a name inherited from
`Object.prototype`, on a module whose `swiperInstances` has `Object.prototype` as
prototype and no truthy entry for `d`, and let `ops` be registered one after the other
for `d`. If no exception leaves the readiness callback of an observer of `d` (none of the
queued operations throws), then the calls made by its loop are exactly those of the
operations queued before followed by `ops`, in that order, once each, each with the
instance just recorded; the instance is recorded under `d`, and afterwards
`pendingOperations` has no entry for `d`. -/
theorem Js.readiness_drains_queue (h : Js.Host) (v : Variant) (s : Js.State) (d : String)
    (ops : List Operation) (i : Nat) (classList : List String) (swiper : Js.Value)
    (w : Watcher) (hsafe : Js.safe d = true)
    (hproto : s.swiperInstancesProto = .objectPrototype)
    (hunready : ∀ value, s.swiperInstances d = some value → value.truthy = false)
    (hw : s.observers.get? i = some w) (hd : w.dataId = d)
    (hc : isSwiperInitialized classList = true)
    (hreturn : (Js.readinessCallback h v i classList swiper
      (Js.exec h v (ops.map (Js.Event.register d)) s)).returned = true) :
    (∃ extra,
      (Js.readinessCallback h v i classList swiper
        (Js.exec h v (ops.map (Js.Event.register d)) s)).state.invoked = s.invoked ++ extra ∧
      Js.drained extra = Js.drainCalls d (Js.recorded v w.node swiper) (s.queue d ++ ops)) ∧
    (Js.readinessCallback h v i classList swiper
      (Js.exec h v (ops.map (Js.Event.register d)) s)).state.swiperInstances d =
        some (Js.recorded v w.node swiper) ∧
    (Js.readinessCallback h v i classList swiper
      (Js.exec h v (ops.map (Js.Event.register d)) s)).state.pendingOperations d = none := by
  subst hd
  obtain ⟨h1, h2, h3, h4, h5⟩ :=
    Js.exec_register_unready h v w.dataId hsafe ops s hproto hunready
  have hw2 : (Js.exec h v (ops.map (Js.Event.register w.dataId)) s).observers.get? i =
      some w := by
    rw [h3]; exact hw
  have hne : w.dataId ≠ "__proto__" := by
    intro hh
    rw [hh] at hsafe
    exact absurd hsafe (by decide)
  have hrec := Js.record_define h (Js.exec h v (ops.map (Js.Event.register w.dataId)) s)
    w.dataId (Js.recorded v w.node swiper) (by rw [h2]; exact hproto) hne
  rcases Js.readinessCallback_cases h v i classList swiper _ w hw2 hc with
    ⟨hnone, _⟩ | ⟨s1, u, extra, hsome, hr, _, hout, hdr⟩
  · rw [hrec] at hnone
    cases hnone
  · rw [hrec] at hsome
    cases hsome
    have hlook : ((Js.exec h v (ops.map (Js.Event.register w.dataId)) s).define w.dataId
        (Js.recorded v w.node swiper)).instance? h w.dataId =
        .found (Js.recorded v w.node swiper) := by
      simp [Js.State.instance?, Js.State.define]
    have hdr2 := hdr hreturn _ hlook
    have hqueue : ((Js.exec h v (ops.map (Js.Event.register w.dataId)) s).define w.dataId
        (Js.recorded v w.node swiper)).queue w.dataId = s.queue w.dataId ++ ops := h5
    rw [hqueue] at hdr2
    rcases hout with hh | hh
    · rw [hh] at hreturn
      exact absurd hreturn (by simp [Js.Outcome.returned])
    · rw [hh]
      refine ⟨⟨extra, ?_, hdr2⟩, ?_, ?_⟩
      · simp only [Js.Outcome.state, Js.State.disconnect, Js.State.clear]
        rw [hr.invoked]
        simp only [Js.State.define, h4]
      · simp only [Js.Outcome.state, Js.State.disconnect, Js.State.clear]
        rw [hr.instances]
        simp [Js.State.define]
      · simp [Js.Outcome.state, Js.State.disconnect, Js.State.clear]

/-- The theorem at the state `Js.discoveredEntry` with the operations
`Js.threeOperations`. -/
theorem Js.readiness_drains_queue_witness :
    Js.safe "a" = true ∧
    (Js.readinessCallback Js.pageHost .dist 0 ["swiper", "swiper-initialized"] (.object 5)
      (Js.exec Js.pageHost .dist (Js.threeOperations.map (Js.Event.register "a"))
        Js.discoveredEntry)).returned = true ∧
    (Js.readinessCallback Js.pageHost .dist 0 ["swiper", "swiper-initialized"] (.object 5)
      (Js.exec Js.pageHost .dist (Js.threeOperations.map (Js.Event.register "a"))
        Js.discoveredEntry)).state.pendingOperations "a" = none :=
  ⟨by decide, by decide,
    (Js.readiness_drains_queue Js.pageHost .dist Js.discoveredEntry "a" Js.threeOperations 0
      ["swiper", "swiper-initialized"] (.object 5) ⟨1, "a"⟩ (by decide) (by decide)
      (by decide) (by decide) rfl (by decide) (by decide)).2.2⟩

/-! ## Lookups through the prototype chain: two identifiers -/

/-- The loop on operations that do not call back into the module: it calls the operations
of a first part of the queue (up to the first that throws; none when the read of the
argument raises) and changes nothing else. -/
theorem Js.forEach_leaf (h : Js.Host) (d : String) (ops : List Operation) : ∀ s : Js.State,
    (∀ op ∈ ops, op.body.isLeaf = true) →
    ∃ called, called <+: ops ∧
      (Js.forEach (Js.invoke h d) ops s).state =
        { s with invoked := s.invoked ++ Js.drainCalls d (s.instance? h d).value called } := by
  induction ops with
  | nil =>
    intro s _
    exact ⟨[], List.prefix_refl _, by simp [Js.forEach, Js.drainCalls, Js.Outcome.state]⟩
  | cons op ops ih =>
    intro s hleaf
    have hop := hleaf op (List.mem_cons_self _ _)
    cases hlook : s.instance? h d with
    | raises =>
      refine ⟨[], List.nil_prefix, ?_⟩
      simp [Js.forEach, Js.invoke, hlook, Js.Outcome.andThen, Js.Outcome.state, Js.drainCalls]
    | found value =>
      cases hb : op.body with
      | call _ _ _ _ _ => simp [hb, Prog.isLeaf] at hop
      | raise =>
        refine ⟨[op], by simp, ?_⟩
        simp [Js.forEach, Js.invoke, hlook, hb, Js.runBody, Js.Outcome.andThen,
          Js.Outcome.state, Js.State.noteInvoked, Js.drainCalls, Js.Lookup.value]
      | ret =>
        obtain ⟨called, hc1, hc2⟩ := ih (s.noteInvoked d op.label value .drain)
          fun x hx => hleaf x (List.mem_cons_of_mem _ hx)
        have hlook2 : (s.noteInvoked d op.label value .drain).instance? h d = .found value :=
          hlook
        refine ⟨op :: called, (List.prefix_cons_inj op).2 hc1, ?_⟩
        simp only [Js.forEach, Js.invoke, hlook, hb, Js.runBody, Js.Outcome.andThen]
        rw [hc2, hlook2]
        simp [Js.State.noteInvoked, Js.drainCalls, Js.Lookup.value]

theorem Js.record_pristine (h : Js.Host) (s s1 : Js.State) (a : String) (value : Js.Value)
    (hrec : s.record h a value = some s1)
    (hp : s.swiperInstancesProto = .objectPrototype) (ha : a ≠ "__proto__") :
    s1.swiperInstancesProto = s.swiperInstancesProto := by
  rw [Js.record_define h s a value hp ha] at hrec
  cases hrec
  rfl

/-- C6, as stated, fails: the readiness step for the identifier `__proto__` assigns
`swiperInstances["__proto__"] = node`, which makes the element the prototype of
`swiperInstances`; for the other identifier `closest` the read `swiperInstances["closest"]`
yields `undefined` before and the method `closest` after, so that a registration for
`closest` is queued before and called at once after. -/
theorem Js.readiness_of_proto_changes_others :
    Js.discoveredProto.observers = [⟨1, "__proto__"⟩] ∧
    Js.discoveredProto.instance? Js.pageHost "closest" = .found .undefined ∧
    (Js.step Js.pageHost .src (.classChange 0 ["swiper", "swiper-initialized"] .undefined)
      Js.discoveredProto).state.instance? Js.pageHost "closest" =
      .found (.function "closest") ∧
    (Js.registerSwiperChange Js.pageHost "closest" ⟨2, .ret⟩
      Js.discoveredProto).state.invoked = [] ∧
    (Js.registerSwiperChange Js.pageHost "closest" ⟨2, .ret⟩
      (Js.step Js.pageHost .src (.classChange 0 ["swiper", "swiper-initialized"] .undefined)
        Js.discoveredProto).state).state.invoked =
      [⟨"closest", 2, .function "closest", .immediate⟩] := by
  decide

/-- C6, amended: for two distinct identifiers `a` and `b`, when the operations do not call
back into the module, the readiness callback of an observer of `a` leaves
`pendingOperations[b]` and the entry of `b` in `swiperInstances` unchanged and calls only
operations of a first part of the queue of `a`; what the read `swiperInstances[b]` yields is
unchanged as long as the callback keeps the prototype of `swiperInstances`, which it does
when that prototype is `Object.prototype` and `a` is not `__proto__`. And
`registerSwiperChange(a, op)` leaves `pendingOperations[b]` and all of `swiperInstances`
unchanged and calls no operation for `b`. -/
theorem Js.identifiers_apart (h : Js.Host) (v : Variant) (s : Js.State) (a b : String)
    (hab : a ≠ b) :
    (∀ (i : Nat) (classList : List String) (swiper : Js.Value) (w : Watcher),
      s.observers.get? i = some w → w.dataId = a →
      (∀ op ∈ s.queue a, op.body.isLeaf = true) →
      (Js.readinessCallback h v i classList swiper s).state.pendingOperations b =
        s.pendingOperations b ∧
      (Js.readinessCallback h v i classList swiper s).state.swiperInstances b =
        s.swiperInstances b ∧
      ((Js.readinessCallback h v i classList swiper s).state.swiperInstancesProto =
          s.swiperInstancesProto →
        (Js.readinessCallback h v i classList swiper s).state.instance? h b =
          s.instance? h b) ∧
      (s.swiperInstancesProto = .objectPrototype → a ≠ "__proto__" →
        (Js.readinessCallback h v i classList swiper s).state.swiperInstancesProto =
          s.swiperInstancesProto) ∧
      ∃ called value, called <+: s.queue a ∧
        (Js.readinessCallback h v i classList swiper s).state.invoked =
          s.invoked ++ Js.drainCalls a value called) ∧
    (∀ op : Operation, op.body.isLeaf = true →
      (Js.registerSwiperChange h a op s).state.pendingOperations b = s.pendingOperations b ∧
      (Js.registerSwiperChange h a op s).state.swiperInstances = s.swiperInstances ∧
      (Js.registerSwiperChange h a op s).state.swiperInstancesProto =
        s.swiperInstancesProto ∧
      Js.callsFor b (Js.registerSwiperChange h a op s).state.invoked =
        Js.callsFor b s.invoked) := by
  have hba : b ≠ a := fun hh => hab hh.symm
  refine ⟨?_, ?_⟩
  · intro i classList swiper w hw hwa hleaf
    subst hwa
    have same : (Js.readinessCallback h v i classList swiper s).state = s →
        (Js.readinessCallback h v i classList swiper s).state.pendingOperations b =
          s.pendingOperations b ∧
        (Js.readinessCallback h v i classList swiper s).state.swiperInstances b =
          s.swiperInstances b ∧
        ((Js.readinessCallback h v i classList swiper s).state.swiperInstancesProto =
            s.swiperInstancesProto →
          (Js.readinessCallback h v i classList swiper s).state.instance? h b =
            s.instance? h b) ∧
        (s.swiperInstancesProto = .objectPrototype → w.dataId ≠ "__proto__" →
          (Js.readinessCallback h v i classList swiper s).state.swiperInstancesProto =
            s.swiperInstancesProto) ∧
        ∃ called value, called <+: s.queue w.dataId ∧
          (Js.readinessCallback h v i classList swiper s).state.invoked =
            s.invoked ++ Js.drainCalls w.dataId value called := by
      intro hst
      rw [hst]
      exact ⟨rfl, rfl, fun _ => rfl, fun _ _ => rfl, [], .undefined, List.nil_prefix,
        by simp [Js.drainCalls]⟩
    cases hc : isSwiperInitialized classList with
    | false =>
      apply same
      rw [Js.readinessCallback_skips h v i classList swiper s (Or.inr hc)]
      rfl
    | true =>
      cases hrec : s.record h w.dataId (Js.recorded v w.node swiper) with
      | none =>
        apply same
        simp only [Js.readinessCallback, hw, hc, if_true, hrec, Js.Outcome.state]
      | some s1 =>
        obtain ⟨f1, _, f3, _, f5⟩ := Js.record_frame h s s1 w.dataId _ hrec
        have hqueue : s1.queue w.dataId = s.queue w.dataId := by
          simp [Js.State.queue, f1]
        have hunf : Js.readinessCallback h v i classList swiper s =
            (Js.applyPendingOperations h w.dataId s1).andThen
              fun s2 => .normal (s2.disconnect i) := by
          simp only [Js.readinessCallback, hw, hc, if_true, hrec]
        have key : ∃ t called, called <+: s.queue w.dataId ∧
            (Js.readinessCallback h v i classList swiper s).state = t ∧
            t.swiperInstances = s1.swiperInstances ∧
            t.swiperInstancesProto = s1.swiperInstancesProto ∧
            t.pendingOperations b = s1.pendingOperations b ∧
            t.invoked = s1.invoked ++ Js.drainCalls w.dataId (s1.instance? h w.dataId).value
              called := by
          cases hq : s1.pendingOperations w.dataId with
          | none =>
            refine ⟨(Js.readinessCallback h v i classList swiper s).state, [],
              List.nil_prefix, rfl, ?_⟩
            rw [hunf]
            by_cases hsafe : Js.safe w.dataId = true
            · simp [Js.applyPendingOperations, Js.State.queue?, hq, hsafe, Js.Outcome.andThen,
                Js.Outcome.state, Js.State.disconnect, Js.drainCalls]
            · simp [Js.applyPendingOperations, Js.State.queue?, hq, hsafe, Js.Outcome.andThen,
                Js.Outcome.state, Js.drainCalls]
          | some ops =>
            have hq2 : s.queue w.dataId = ops := by
              rw [← hqueue]; simp [Js.State.queue, hq]
            rw [hq2] at hleaf ⊢
            obtain ⟨called, hc1, hc2⟩ := Js.forEach_leaf h w.dataId ops s1 hleaf
            refine ⟨(Js.readinessCallback h v i classList swiper s).state, called, hc1, rfl, ?_⟩
            rw [hunf]
            simp only [Js.applyPendingOperations, Js.State.queue?, hq]
            cases hf : Js.forEach (Js.invoke h w.dataId) ops s1 with
            | normal u =>
              rw [hf] at hc2
              simp only [Js.Outcome.state] at hc2
              simp [Js.Outcome.andThen, Js.Outcome.state, hc2, Js.State.disconnect,
                Js.State.clear, Function.update_noteq hba]
            | thrown u =>
              rw [hf] at hc2
              simp only [Js.Outcome.state] at hc2
              simp [Js.Outcome.andThen, Js.Outcome.state, hc2]
        obtain ⟨t, called, hc1, ht, k1, k2, k3, k4⟩ := key
        rw [ht]
        refine ⟨by rw [k3, f1], by rw [k1]; exact f5 b hba, ?_, ?_,
          called, _, hc1, by rw [k4, f3]⟩
        · intro hproto
          exact Js.lookup_congr h s t b (by rw [k1]; exact f5 b hba) hproto
        · intro hp ha
          rw [k2]
          exact Js.record_pristine h s s1 w.dataId _ hrec hp ha
  · intro op hleaf
    have hst : (Js.registerSwiperChange h a op s).state = s.noteRegistered a op ∨
        (∃ value, (Js.registerSwiperChange h a op s).state =
          (s.noteRegistered a op).noteInvoked a op.label value .immediate) ∨
        (Js.registerSwiperChange h a op s).state = (s.noteRegistered a op).enqueue a op := by
      cases hlook : (s.noteRegistered a op).instance? h a with
      | raises =>
        left
        simp only [Js.registerSwiperChange, hlook, Js.Outcome.state]
      | found value =>
        cases hv : value.truthy with
        | true =>
          right; left
          refine ⟨value, ?_⟩
          cases hb : op.body with
          | call _ _ _ _ _ => simp [hb, Prog.isLeaf] at hleaf
          | ret => simp only [Js.registerSwiperChange, hlook, hv, if_true, hb, Js.runBody,
              Js.Outcome.state]
          | raise => simp only [Js.registerSwiperChange, hlook, hv, if_true, hb, Js.runBody,
              Js.Outcome.state]
        | false =>
          cases hq : (s.noteRegistered a op).queue? a with
          | inherited =>
            left
            simp only [Js.registerSwiperChange, hlook, hv, hq, Js.Outcome.state]
            rfl
          | array ops =>
            right; right
            simp only [Js.registerSwiperChange, hlook, hv, hq, Js.Outcome.state]
            rfl
          | absent =>
            right; right
            simp only [Js.registerSwiperChange, hlook, hv, hq, Js.Outcome.state]
            rfl
    rcases hst with hst | ⟨value, hst⟩ | hst
    · rw [hst]
      exact ⟨rfl, rfl, rfl, rfl⟩
    · rw [hst]
      exact ⟨rfl, rfl, rfl, by simp [Js.callsFor, Js.State.noteInvoked, Js.State.noteRegistered,
        List.filter_append, hab]⟩
    · rw [hst]
      exact ⟨by simp [Js.State.enqueue, Js.State.noteRegistered, Function.update_noteq hba],
        rfl, rfl, rfl⟩

/-- The theorem at the state `Js.twoQueues`, for the identifiers `a` and `b`. -/
theorem Js.identifiers_apart_witness :
    "a" ≠ "b" ∧
    (Js.readinessCallback Js.pageHost .src 0 ["swiper", "swiper-initialized"] .undefined
      Js.twoQueues).state.pendingOperations "b" = Js.twoQueues.pendingOperations "b" :=
  ⟨by decide,
    ((Js.identifiers_apart Js.pageHost .src Js.twoQueues "a" "b" (by decide)).1 0
      ["swiper", "swiper-initialized"] .undefined ⟨1, "a"⟩ (by decide) rfl (by decide)).1⟩

/-! ## Lookups through the prototype chain: the order of the calls -/

theorem Js.Tallies.none (ids : List String) (s : Js.State) : Js.Tallies ids s s :=
  ⟨fun _ _ => ⟨rfl, rfl, rfl⟩, fun _ hb => hb, fun hq => hq⟩

theorem Js.Tallies.andThen {ids : List String} {s t u : Js.State}
    (h1 : Js.Tallies ids s t) (h2 : Js.Tallies ids t u) : Js.Tallies ids s u := by
  refine ⟨?_, fun b hb => h2.balanced b (h1.balanced b hb), fun hq => h2.fit (h1.fit hq)⟩
  intro b hb
  obtain ⟨a1, a2, a3⟩ := h1.frame b hb
  obtain ⟨b1, b2, b3⟩ := h2.frame b hb
  exact ⟨b1.trans a1, b2.trans a2, b3.trans a3⟩

theorem Js.Tallies.widen {ids ids2 : List String} {s t : Js.State}
    (h1 : Js.Tallies ids s t) (hsub : ∀ b, b ∈ ids → b ∈ ids2) : Js.Tallies ids2 s t :=
  ⟨fun b hb => h1.frame b (fun hin => hb (hsub b hin)), h1.balanced, h1.fit⟩

/-- The first branch of `registerSwiperChange` up to the call: the registration and the
call are noted for `d`, which has no queue. -/
theorem Js.tallies_called (s : Js.State) (d : String) (op : Operation) (value : Js.Value)
    (hq : s.pendingOperations d = none) :
    Js.Tallies [d] s ((s.noteRegistered d op).noteInvoked d op.label value .immediate) := by
  refine ⟨?_, ?_, fun hfit => hfit⟩
  · intro b hb
    have hne : ¬ d = b := fun hh => hb (by simp [hh])
    simp [Js.calledFor, Js.registeredFor, Js.callsFor, Js.State.noteInvoked,
      Js.State.noteRegistered, List.filter_append, hne]
  · intro b hbal
    by_cases hd : d = b
    · subst hd
      have hw : Js.waitingFor d s = [] := by simp [Js.waitingFor, Js.State.queue, hq]
      have hw2 : Js.waitingFor d
          ((s.noteRegistered d op).noteInvoked d op.label value .immediate) = [] := hw
      simp only [Js.Balanced, hw, hw2, List.append_nil] at hbal ⊢
      simp [Js.calledFor, Js.registeredFor, Js.callsFor, Js.State.noteInvoked,
        Js.State.noteRegistered, List.filter_append] at hbal ⊢
      exact hbal
    · have hw2 : Js.waitingFor b
          ((s.noteRegistered d op).noteInvoked d op.label value .immediate) =
          Js.waitingFor b s := rfl
      simp only [Js.Balanced, hw2] at hbal ⊢
      simp [Js.calledFor, Js.registeredFor, Js.callsFor, Js.State.noteInvoked,
        Js.State.noteRegistered, List.filter_append, hd] at hbal ⊢
      exact hbal

/-- The second branch of `registerSwiperChange`: the registration is noted for `d` and the
operation is put at the end of the queue of `d`. -/
theorem Js.tallies_queued (s : Js.State) (d : String) (op : Operation)
    (hfit : Js.fit d op = true) :
    Js.Tallies [d] s ((s.noteRegistered d op).enqueue d op) := by
  refine ⟨?_, ?_, ?_⟩
  · intro b hb
    have hne : ¬ d = b := fun hh => hb (by simp [hh])
    have hne2 : b ≠ d := fun hh => hne hh.symm
    simp [Js.calledFor, Js.registeredFor, Js.callsFor, Js.State.enqueue,
      Js.State.noteRegistered, List.filter_append, hne, Function.update_noteq hne2]
  · intro b hbal
    by_cases hd : d = b
    · subst hd
      simp [Js.Balanced, Js.calledFor, Js.registeredFor, Js.waitingFor, Js.callsFor,
        Js.State.enqueue, Js.State.queue, Js.State.noteRegistered, List.filter_append]
        at hbal ⊢
      rw [← hbal]
      simp
    · have hd2 : b ≠ d := fun hh => hd hh.symm
      simp [Js.Balanced, Js.calledFor, Js.registeredFor, Js.waitingFor, Js.callsFor,
        Js.State.enqueue, Js.State.queue, Js.State.noteRegistered, List.filter_append, hd,
        Function.update_noteq hd2] at hbal ⊢
      exact hbal
  · intro hq b ops hb x hx
    by_cases hd : b = d
    · subst hd
      simp only [Js.State.enqueue, Function.update_same, Option.some.injEq] at hb
      subst hb
      rcases List.mem_append.1 hx with hx | hx
      · cases hp : s.pendingOperations b with
        | none => simp [Js.State.queue, Js.State.noteRegistered, hp] at hx
        | some q =>
          simp only [Js.State.queue, Js.State.noteRegistered, hp, Option.getD_some] at hx
          exact hq b q hp x hx
      · simp only [List.mem_singleton] at hx
        rw [hx]; exact hfit
    · simp only [Js.State.enqueue, Function.update_noteq hd] at hb
      exact hq b ops hb x hx

theorem Js.lookup_pristine (h : Js.Host) (s : Js.State) (d : String)
    (hproto : s.swiperInstancesProto = .objectPrototype) (hsafe : Js.safe d = true) :
    s.instance? h d = .found ((s.swiperInstances d).getD .undefined) := by
  cases hown : s.swiperInstances d with
  | none => simpa using Js.lookup_safe h s d hown hproto hsafe
  | some value => simp [Js.State.instance?, hown]

theorem Js.queue_safe (s : Js.State) (d : String) (hsafe : Js.safe d = true) :
    s.queue? d ≠ .inherited := by
  simp only [Js.State.queue?]
  cases s.pendingOperations d with
  | none => simp [hsafe]
  | some ops => simp

theorem Js.Runs.unqueued {h : Js.Host} {s t : Js.State} {extra : List Js.Invocation}
    (hr : Js.Runs h s t extra) (b : String) (hu : Js.Unqueued b s) : Js.Unqueued b t := by
  intro value hv ht
  rw [hr.instances] at hv
  have hlook : s.instance? h b = .found value := by simp [Js.State.instance?, hv]
  rw [hr.ready b value hlook ht]
  exact hu value hv ht

/-- Running an operation that registers only for safe identifiers, none of them with both
a truthy entry and a queue, and in which no registered operation registers for its own
identifier: the tallies of the identifiers it does not register for are untouched, and
every balance is kept. -/
theorem Js.runBody_tallies (h : Js.Host) (body : Prog) : ∀ s : Js.State,
    body.selfFree = true → body.ids.all Js.safe = true →
    s.swiperInstancesProto = .objectPrototype →
    (∀ b ∈ body.ids, Js.Unqueued b s) →
    Js.Tallies body.ids s (Js.runBody h body s).state := by
  induction body with
  | ret => exact fun s _ _ _ _ => Js.Tallies.none _ s
  | raise => exact fun s _ _ _ _ => Js.Tallies.none _ s
  | call d l body caught next ihb ihn =>
    intro s hfree hsafe hproto hunq
    simp only [Prog.selfFree, Bool.and_eq_true, Bool.not_eq_true'] at hfree
    obtain ⟨⟨hf1, hf2⟩, hf3⟩ := hfree
    simp only [Prog.ids, List.all_cons, List.all_append, Bool.and_eq_true] at hsafe
    obtain ⟨hs1, hs2, hs3⟩ := hsafe
    have hmem : d ∉ body.ids := by simpa using hf1
    have hfit : Js.fit d ⟨l, body⟩ = true := by
      simp [Js.fit, hmem, hf2, hs2]
    have sub1 : ∀ b, b ∈ [d] → b ∈ (Prog.call d l body caught next).ids := by
      intro b hb
      simp only [List.mem_singleton] at hb
      simp [Prog.ids, hb]
    have sub2 : ∀ b, b ∈ body.ids → b ∈ (Prog.call d l body caught next).ids := by
      intro b hb
      simp [Prog.ids, hb]
    have sub3 : ∀ b, b ∈ next.ids → b ∈ (Prog.call d l body caught next).ids := by
      intro b hb
      simp [Prog.ids, hb]
    have hlook : (s.noteRegistered d ⟨l, body⟩).instance? h d =
        .found ((s.swiperInstances d).getD .undefined) :=
      Js.lookup_pristine h s d hproto hs1
    have hq := Js.queue_safe (s.noteRegistered d ⟨l, body⟩) d hs1
    cases hv : ((s.swiperInstances d).getD .undefined).truthy with
    | true =>
      have hown : s.swiperInstances d = some ((s.swiperInstances d).getD .undefined) := by
        cases hh : s.swiperInstances d with
        | none => simp [hh, Js.Value.truthy] at hv
        | some value => simp
      have hnone : s.pendingOperations d = none :=
        hunq d (sub1 d (by simp)) _ hown hv
      have t1 := (Js.tallies_called s d ⟨l, body⟩ ((s.swiperInstances d).getD .undefined)
        hnone).widen sub1
      have hunq2 : ∀ b ∈ body.ids, Js.Unqueued b
          ((s.noteRegistered d ⟨l, body⟩).noteInvoked d l
            ((s.swiperInstances d).getD .undefined) .immediate) :=
        fun b hb => hunq b (sub2 b hb)
      have t2 := (ihb ((s.noteRegistered d ⟨l, body⟩).noteInvoked d l
        ((s.swiperInstances d).getD .undefined) .immediate) hf2 hs2 hproto hunq2).widen sub2
      obtain ⟨eb, hrb, _⟩ := Js.runBody_runs h body
        ((s.noteRegistered d ⟨l, body⟩).noteInvoked d l
          ((s.swiperInstances d).getD .undefined) .immediate)
      have t12 := t1.andThen t2
      have hnext : Js.Tallies (Prog.call d l body caught next).ids s
          (Js.runBody h next (Js.runBody h body
            ((s.noteRegistered d ⟨l, body⟩).noteInvoked d l
              ((s.swiperInstances d).getD .undefined) .immediate)).state).state := by
        have hunq3 : ∀ b ∈ next.ids, Js.Unqueued b (Js.runBody h body
            ((s.noteRegistered d ⟨l, body⟩).noteInvoked d l
              ((s.swiperInstances d).getD .undefined) .immediate)).state :=
          fun b hb => hrb.unqueued b (hunq b (sub3 b hb))
        exact t12.andThen ((ihn (Js.runBody h body
            ((s.noteRegistered d ⟨l, body⟩).noteInvoked d l
              ((s.swiperInstances d).getD .undefined) .immediate)).state hf3 hs3
          (by rw [hrb.instancesProto]; exact hproto) hunq3).widen sub3)
      cases hrun : Js.runBody h body
          ((s.noteRegistered d ⟨l, body⟩).noteInvoked d l
            ((s.swiperInstances d).getD .undefined) .immediate) with
      | normal s2 =>
        rw [hrun] at hnext
        simp only [Js.runBody, hlook, hv, if_true, hrun]
        exact hnext
      | thrown s2 =>
        rw [hrun] at hnext t12
        cases caught with
        | true =>
          simp only [Js.runBody, hlook, hv, if_true, hrun]
          exact hnext
        | false =>
          simp only [Js.runBody, hlook, hv, if_true, hrun]
          exact t12
    | false =>
      have t1 := (Js.tallies_queued s d ⟨l, body⟩ hfit).widen sub1
      have hunq2 : ∀ b ∈ next.ids, Js.Unqueued b
          ((s.noteRegistered d ⟨l, body⟩).enqueue d ⟨l, body⟩) := by
        intro b hb value hval ht
        by_cases hbd : b = d
        · subst hbd
          have hval2 : s.swiperInstances b = some value := hval
          rw [hval2] at hv
          simp only [Option.getD_some] at hv
          rw [hv] at ht
          exact Bool.noConfusion ht
        · have := hunq b (sub3 b hb) value hval ht
          simp [Js.State.enqueue, Js.State.noteRegistered, Function.update_noteq hbd, this]
      have t2 := (ihn ((s.noteRegistered d ⟨l, body⟩).enqueue d ⟨l, body⟩) hf3 hs3 hproto
        hunq2).widen sub3
      have hrun : Js.runBody h (.call d l body caught next) s =
          Js.runBody h next ((s.noteRegistered d ⟨l, body⟩).enqueue d ⟨l, body⟩) := by
        simp only [Js.runBody, hlook, hv]
        cases hq2 : (s.noteRegistered d ⟨l, body⟩).queue? d with
        | inherited => exact absurd hq2 hq
        | array ops => rfl
        | absent => rfl
      rw [hrun]
      exact t1.andThen t2

theorem Js.balanced_noteInvoked (s : Js.State) (d b : String) (l : Nat) (value : Js.Value)
    (site : Site) (hne : b ≠ d) (hb : Js.Balanced b s) :
    Js.Balanced b (s.noteInvoked d l value site) := by
  have hne2 : ¬ d = b := fun hh => hne hh.symm
  simp [Js.Balanced, Js.calledFor, Js.registeredFor, Js.waitingFor, Js.callsFor,
    Js.State.noteInvoked, Js.State.queue, List.filter_append, hne2] at hb ⊢
  exact hb

/-- The loop of a drain of the safe identifier `d` on operations that fit `d`: the other
identifiers stay balanced and unqueued, the queue and the registrations of `d` are
untouched, and when no exception leaves the loop the calls for `d` have grown by the
operations of the loop, in order. -/
theorem Js.forEach_tallies (h : Js.Host) (d : String) (hsafe : Js.safe d = true)
    (ops : List Operation) : ∀ s : Js.State,
    (∀ op ∈ ops, Js.fit d op = true) → s.swiperInstancesProto = .objectPrototype →
    (∀ b, b ≠ d → Js.Unqueued b s) → Js.QueuedFit s →
    Js.QueuedFit (Js.forEach (Js.invoke h d) ops s).state ∧
    (Js.forEach (Js.invoke h d) ops s).state.swiperInstancesProto = .objectPrototype ∧
    (Js.forEach (Js.invoke h d) ops s).state.swiperInstances = s.swiperInstances ∧
    (∀ b, b ≠ d → Js.Unqueued b (Js.forEach (Js.invoke h d) ops s).state) ∧
    (∀ b, b ≠ d → Js.Balanced b s → Js.Balanced b (Js.forEach (Js.invoke h d) ops s).state) ∧
    (Js.forEach (Js.invoke h d) ops s).state.pendingOperations d = s.pendingOperations d ∧
    Js.registeredFor d (Js.forEach (Js.invoke h d) ops s).state = Js.registeredFor d s ∧
    ((Js.forEach (Js.invoke h d) ops s).returned = true →
      Js.calledFor d (Js.forEach (Js.invoke h d) ops s).state =
        Js.calledFor d s ++ ops.map fun op => op.label) := by
  induction ops with
  | nil =>
    intro s _ hp hu hq
    exact ⟨hq, hp, rfl, hu, fun _ _ hb => hb, rfl, rfl, fun _ => by simp [Js.forEach,
      Js.Outcome.state]⟩
  | cons op ops ih =>
    intro s hfit hp hu hq
    have hop := hfit op (List.mem_cons_self _ _)
    simp only [Js.fit, Bool.and_eq_true, Bool.not_eq_true'] at hop
    obtain ⟨⟨hf1, hf2⟩, hf3⟩ := hop
    have hmem : d ∉ op.body.ids := by simpa using hf1
    have hlook := Js.lookup_pristine h s d hp hsafe
    have hinv : Js.invoke h d op s = Js.runBody h op.body
        (s.noteInvoked d op.label ((s.swiperInstances d).getD .undefined) .drain) := by
      simp only [Js.invoke, hlook]
    have hunq2 : ∀ b ∈ op.body.ids, Js.Unqueued b
        (s.noteInvoked d op.label ((s.swiperInstances d).getD .undefined) .drain) := by
      intro b hb
      exact hu b (fun hh => hmem (hh ▸ hb))
    have t1 := Js.runBody_tallies h op.body
      (s.noteInvoked d op.label ((s.swiperInstances d).getD .undefined) .drain)
      hf2 hf3 hp hunq2
    obtain ⟨eb, hrb, _⟩ := Js.runBody_runs h op.body
      (s.noteInvoked d op.label ((s.swiperInstances d).getD .undefined) .drain)
    obtain ⟨c1, c2, c3⟩ := t1.frame d hmem
    have hq1 : Js.QueuedFit (Js.invoke h d op s).state := by
      rw [hinv]; exact t1.fit hq
    have hp1 : (Js.invoke h d op s).state.swiperInstancesProto = .objectPrototype := by
      rw [hinv, hrb.instancesProto]; exact hp
    have hi1 : (Js.invoke h d op s).state.swiperInstances = s.swiperInstances := by
      rw [hinv, hrb.instances]; rfl
    have hu1 : ∀ b, b ≠ d → Js.Unqueued b (Js.invoke h d op s).state := by
      intro b hb
      rw [hinv]
      exact hrb.unqueued b (hu b hb)
    have hb1 : ∀ b, b ≠ d → Js.Balanced b s → Js.Balanced b (Js.invoke h d op s).state := by
      intro b hb hbal
      rw [hinv]
      exact t1.balanced b (Js.balanced_noteInvoked s d b _ _ _ hb hbal)
    have hpo1 : (Js.invoke h d op s).state.pendingOperations d = s.pendingOperations d := by
      rw [hinv, c3]; rfl
    have hr1 : Js.registeredFor d (Js.invoke h d op s).state = Js.registeredFor d s := by
      rw [hinv, c2]; rfl
    have hc1 : Js.calledFor d (Js.invoke h d op s).state = Js.calledFor d s ++ [op.label] := by
      rw [hinv, c1]
      simp [Js.calledFor, Js.callsFor, Js.State.noteInvoked, List.filter_append]
    cases hrun : Js.invoke h d op s with
    | thrown t =>
      rw [hrun] at hq1 hp1 hi1 hu1 hb1 hpo1 hr1
      simp only [Js.forEach, hrun, Js.Outcome.andThen]
      exact ⟨hq1, hp1, hi1, hu1, hb1, hpo1, hr1, fun hret => by
        simp [Js.Outcome.returned] at hret⟩
    | normal t =>
      rw [hrun] at hq1 hp1 hi1 hu1 hb1 hpo1 hr1 hc1
      simp only [Js.Outcome.state] at hq1 hp1 hi1 hu1 hb1 hpo1 hr1 hc1
      obtain ⟨r1, r2, r3, r4, r5, r6, r7, r8⟩ :=
        ih t (fun x hx => hfit x (List.mem_cons_of_mem _ hx)) hp1 hu1 hq1
      simp only [Js.forEach, hrun, Js.Outcome.andThen]
      refine ⟨r1, r2, r3.trans hi1, r4, fun b hb hbal => r5 b hb (hb1 b hb hbal),
        r6.trans hpo1, r7.trans hr1, ?_⟩
      intro hret
      rw [r8 hret, hc1]
      simp

/-- An orderly event keeps what the order of the calls rests on. -/
theorem Js.step_sound (h : Js.Host) (v : Variant) (e : Js.Event) (s : Js.State)
    (ho : e.orderly h v s = true) (hs : Js.Sound s) : Js.Sound (Js.step h v e s).state := by
  cases e with
  | register d op =>
    simp only [Js.Event.orderly, Bool.and_eq_true] at ho
    obtain ⟨hsafe, hfit⟩ := ho
    have hfit2 := hfit
    simp only [Js.fit, Bool.and_eq_true, Bool.not_eq_true'] at hfit2
    obtain ⟨⟨_, hf2⟩, hf3⟩ := hfit2
    have hlook : (s.noteRegistered d op).instance? h d =
        .found ((s.swiperInstances d).getD .undefined) :=
      Js.lookup_pristine h s d hs.pristine hsafe
    obtain ⟨extra, hr, _⟩ := Js.registerSwiperChange_runs h d op s
    cases hv : ((s.swiperInstances d).getD .undefined).truthy with
    | true =>
      have hown : s.swiperInstances d = some ((s.swiperInstances d).getD .undefined) := by
        cases hh : s.swiperInstances d with
        | none => simp [hh, Js.Value.truthy] at hv
        | some value => simp
      have hnone := hs.unqueued d _ hown hv
      have t1 := Js.tallies_called s d op ((s.swiperInstances d).getD .undefined) hnone
      have t2 := Js.runBody_tallies h op.body
        ((s.noteRegistered d op).noteInvoked d op.label
          ((s.swiperInstances d).getD .undefined) .immediate) hf2 hf3 hs.pristine
        (fun b _ => hs.unqueued b)
      have hst : Js.registerSwiperChange h d op s = Js.runBody h op.body
          ((s.noteRegistered d op).noteInvoked d op.label
            ((s.swiperInstances d).getD .undefined) .immediate) := by
        simp only [Js.registerSwiperChange, hlook, hv, if_true]
      refine ⟨by simp only [Js.step, hr.instancesProto, hs.pristine],
        fun b => hr.unqueued b (hs.unqueued b), ?_, ?_⟩
      · simp only [Js.step, hst]
        exact t2.fit (t1.fit hs.fit)
      · intro b
        simp only [Js.step, hst]
        exact t2.balanced b (t1.balanced b (hs.balanced b))
    | false =>
      have hst : Js.registerSwiperChange h d op s =
          .normal ((s.noteRegistered d op).enqueue d op) :=
        Js.registerSwiperChange_enqueue h s d op _ (Js.lookup_pristine h s d hs.pristine hsafe)
          hv hsafe
      have t1 := Js.tallies_queued s d op hfit
      simp only [Js.step, hst, Js.Outcome.state]
      refine ⟨hs.pristine, ?_, t1.fit hs.fit, fun b => t1.balanced b (hs.balanced b)⟩
      intro b value hval ht
      by_cases hbd : b = d
      · subst hbd
        have hval2 : s.swiperInstances b = some value := hval
        rw [hval2] at hv
        simp only [Option.getD_some] at hv
        rw [hv] at ht
        exact Bool.noConfusion ht
      · have := hs.unqueued b value hval ht
        simp [Js.State.enqueue, Js.State.noteRegistered, Function.update_noteq hbd, this]
  | mutations records =>
    have hf := Js.handleMutations_finds h records s
    refine ⟨by simp only [Js.step, hf.instancesProto, hs.pristine], ?_, ?_, ?_⟩
    · intro b value hval ht
      simp only [Js.step, hf.instances] at hval
      simp only [Js.step, hf.queues]
      exact hs.unqueued b value hval ht
    · intro b ops hb
      simp only [Js.step, hf.queues] at hb
      exact hs.fit b ops hb
    · intro b
      have := hs.balanced b
      simp only [Js.Balanced, Js.calledFor, Js.registeredFor, Js.waitingFor, Js.State.queue,
        Js.step, hf.invoked, hf.registered, hf.queues] at this ⊢
      exact this
  | classChange i classList swiper =>
    cases hw : s.observers.get? i with
    | none =>
      simp only [Js.step, Js.readinessCallback_skips h v i classList swiper s (Or.inl hw),
        Js.Outcome.state]
      exact hs
    | some w =>
      cases hc : isSwiperInitialized classList with
      | false =>
        simp only [Js.step, Js.readinessCallback_skips h v i classList swiper s (Or.inr hc),
          Js.Outcome.state]
        exact hs
      | true =>
        simp only [Js.Event.orderly, hw, hc, Bool.not_true, Bool.false_or,
          Bool.and_eq_true] at ho
        obtain ⟨hsafe, hret⟩ := ho
        have hne : w.dataId ≠ "__proto__" := by
          intro hh
          rw [hh] at hsafe
          exact absurd hsafe (by decide)
        have hrec := Js.record_define h s w.dataId (Js.recorded v w.node swiper)
          hs.pristine hne
        have hunf : Js.readinessCallback h v i classList swiper s =
            (Js.applyPendingOperations h w.dataId
              (s.define w.dataId (Js.recorded v w.node swiper))).andThen
              fun s2 => .normal (s2.disconnect i) := by
          simp only [Js.readinessCallback, hw, hc, if_true, hrec]
        have hu1 : ∀ b, b ≠ w.dataId → Js.Unqueued b
            (s.define w.dataId (Js.recorded v w.node swiper)) := by
          intro b hb value hval ht
          simp only [Js.State.define, Function.update_noteq hb] at hval
          exact hs.unqueued b value hval ht
        cases hq : s.pendingOperations w.dataId with
        | none =>
          have hq1 : (s.define w.dataId (Js.recorded v w.node swiper)).pendingOperations
              w.dataId = none := hq
          have hst : (Js.step h v (.classChange i classList swiper) s).state =
              Js.State.disconnect
                (s.define w.dataId (Js.recorded v w.node swiper)) i := by
            simp [Js.step, hunf, Js.applyPendingOperations, Js.State.queue?, hq1, hsafe,
              Js.Outcome.andThen, Js.Outcome.state]
          rw [hst]
          refine ⟨hs.pristine, ?_, hs.fit, hs.balanced⟩
          intro b value hval ht
          by_cases hb : b = w.dataId
          · subst hb
            exact hq
          · exact hu1 b hb value hval ht
        | some ops =>
          have hfit : ∀ op ∈ ops, Js.fit w.dataId op = true := hs.fit w.dataId ops hq
          obtain ⟨r1, r2, r3, r4, r5, r6, r7, r8⟩ := Js.forEach_tallies h w.dataId hsafe ops
            (s.define w.dataId (Js.recorded v w.node swiper)) hfit hs.pristine hu1 hs.fit
          have happ : Js.applyPendingOperations h w.dataId
              (s.define w.dataId (Js.recorded v w.node swiper)) =
              (Js.forEach (Js.invoke h w.dataId) ops
                (s.define w.dataId (Js.recorded v w.node swiper))).andThen
                fun s1 => .normal (s1.clear w.dataId) := by
            have hq1 : (s.define w.dataId (Js.recorded v w.node swiper)).pendingOperations
                w.dataId = some ops := hq
            simp only [Js.applyPendingOperations, Js.State.queue?, hq1]
          cases hf : Js.forEach (Js.invoke h w.dataId) ops
              (s.define w.dataId (Js.recorded v w.node swiper)) with
          | thrown u =>
            rw [hunf, happ, hf] at hret
            simp [Js.Outcome.andThen, Js.Outcome.returned] at hret
          | normal u =>
            rw [hf] at r1 r2 r3 r4 r5 r6 r7 r8
            simp only [Js.Outcome.state, Js.Outcome.returned] at r1 r2 r3 r4 r5 r6 r7 r8
            have hst : (Js.step h v (.classChange i classList swiper) s).state =
                (u.clear w.dataId).disconnect i := by
              simp only [Js.step, hunf, happ, hf, Js.Outcome.andThen, Js.Outcome.state]
            rw [hst]
            refine ⟨r2, ?_, ?_, ?_⟩
            · intro b value hval ht
              by_cases hb : b = w.dataId
              · subst hb
                simp [Js.State.disconnect, Js.State.clear]
              · have := r4 b hb value hval ht
                simp [Js.State.disconnect, Js.State.clear, Function.update_noteq hb, this]
            · intro b ops2 hb x hx
              by_cases hbd : b = w.dataId
              · subst hbd
                simp [Js.State.disconnect, Js.State.clear] at hb
              · simp only [Js.State.disconnect, Js.State.clear,
                  Function.update_noteq hbd] at hb
                exact r1 b ops2 hb x hx
            · intro b
              by_cases hbd : b = w.dataId
              · subst hbd
                have hbal := hs.balanced w.dataId
                have hwait : Js.waitingFor w.dataId s = ops.map fun op => op.label := by
                  simp [Js.waitingFor, Js.State.queue, hq]
                have hc0 : Js.calledFor w.dataId ((u.clear w.dataId).disconnect i) =
                    Js.calledFor w.dataId u := rfl
                have hr0 : Js.registeredFor w.dataId ((u.clear w.dataId).disconnect i) =
                    Js.registeredFor w.dataId u := rfl
                have hw0 : Js.waitingFor w.dataId ((u.clear w.dataId).disconnect i) = [] := by
                  simp [Js.waitingFor, Js.State.queue, Js.State.disconnect, Js.State.clear]
                simp only [Js.Balanced, hc0, hr0, hw0, r8 trivial, r7, List.append_nil]
                rw [← hwait]
                exact hbal
              · have hbal := r5 b hbd (hs.balanced b)
                simp only [Js.Balanced, Js.calledFor, Js.registeredFor, Js.waitingFor,
                  Js.State.queue, Js.State.disconnect, Js.State.clear,
                  Function.update_noteq hbd] at hbal ⊢
                exact hbal

theorem Js.exec_sound (h : Js.Host) (v : Variant) (es : List Js.Event) : ∀ s : Js.State,
    Js.Orderly h v es s → Js.Sound s → Js.Sound (Js.exec h v es s) := by
  induction es with
  | nil => exact fun s _ hs => hs
  | cons e es ih => exact fun s ho hs => ih _ ho.2 (Js.step_sound h v e s ho.1 hs)

/-- C5, as stated, fails. An operation registered during the drain of its identifier runs
before the operations still queued, which were registered earlier. After an operation
has thrown in the drain, the observer is still connected and its next callback calls the
same operation again. And once a container whose `data-id` is `__proto__` has become
ready, an operation registered for `closest` is called at once while the operation
registered for `closest` before it still waits. -/
theorem Js.calls_out_of_order :
    Js.registeredFor "a" (Js.exec Js.pageHost .src Js.reentrantTrace Js.State.init) =
      [1, 2, 3] ∧
    Js.calledFor "a" (Js.exec Js.pageHost .src Js.reentrantTrace Js.State.init) = [1, 3, 2] ∧
    Js.registeredFor "a" (Js.exec Js.pageHost .src
      (Js.throwingTrace ++ [.classChange 0 ["swiper", "swiper-initialized"] .undefined])
      Js.State.init) = [1, 2] ∧
    Js.calledFor "a" (Js.exec Js.pageHost .src
      (Js.throwingTrace ++ [.classChange 0 ["swiper", "swiper-initialized"] .undefined])
      Js.State.init) = [1, 1] ∧
    Js.registeredFor "closest" (Js.exec Js.pageHost .src Js.protoTrace Js.State.init) =
      [1, 2] ∧
    Js.calledFor "closest" (Js.exec Js.pageHost .src Js.protoTrace Js.State.init) = [2] ∧
    Js.waitingFor "closest" (Js.exec Js.pageHost .src Js.protoTrace Js.State.init) = [1] := by
  decide

/-- C5, amended: over every trace of registrations, discoveries and readiness callbacks
(repeated ones for the same identifier included) in which the identifiers registered for
and the identifiers of the readiness callbacks that find the initialized class are not
names inherited from `Object.prototype`, no exception leaves such a readiness callback,
and no operation registers, itself or through the operations it registers, an operation
for the identifier it is registered for: the operations called for an identifier,
followed by those still in its queue, are the operations registered for it, in the order
of registration. None runs before one registered earlier, none is skipped, and none is
called twice. -/
theorem Js.calls_follow_registrations (h : Js.Host) (v : Variant) (es : List Js.Event)
    (d : String) (horderly : Js.Orderly h v es Js.State.init) :
    Js.calledFor d (Js.exec h v es Js.State.init) ++
        Js.waitingFor d (Js.exec h v es Js.State.init) =
      Js.registeredFor d (Js.exec h v es Js.State.init) := by
  have hinit : Js.Sound Js.State.init := by
    refine ⟨rfl, fun _ _ _ _ => rfl, ?_, fun _ => rfl⟩
    intro b ops hb
    simp [Js.State.init] at hb
  exact (Js.exec_sound h v es Js.State.init horderly hinit).balanced d

/-- The theorem on the trace `Js.orderlyTrace` of the `dist` file, for the identifier
`b`. -/
theorem Js.calls_follow_registrations_witness :
    Js.Orderly Js.pageHost .dist Js.orderlyTrace Js.State.init ∧
    Js.calledFor "b" (Js.exec Js.pageHost .dist Js.orderlyTrace Js.State.init) ++
        Js.waitingFor "b" (Js.exec Js.pageHost .dist Js.orderlyTrace Js.State.init) =
      Js.registeredFor "b" (Js.exec Js.pageHost .dist Js.orderlyTrace Js.State.init) :=
  ⟨by decide, Js.calls_follow_registrations Js.pageHost .dist Js.orderlyTrace "b" (by decide)⟩

theorem JSValue.toJs_truthy (x : JSValue) : x.toJs.truthy = x.truthy := by
  cases x <;> rfl

theorem State.toJs_lookup (h : Js.Host) (s : State) (d : String) (hd : Js.safe d = true) :
    s.toJs.instance? h d = .found (s.instance? d).toJs := by
  cases hown : s.swiperInstances d with
  | none =>
    have h1 : s.toJs.swiperInstances d = none := by simp [State.toJs, hown]
    rw [Js.lookup_safe h s.toJs d h1 rfl hd]
    simp [State.instance?, hown, JSValue.toJs]
  | some x =>
    simp [Js.State.instance?, State.toJs, hown, State.instance?]

theorem State.toJs_queue (s : State) (d : String) (hd : Js.safe d = true) :
    s.toJs.queue? d = .array (s.queue d) ∨ s.toJs.queue? d = .absent := by
  cases hq : s.pendingOperations d with
  | none => right; simp [Js.State.queue?, State.toJs, hq, hd]
  | some ops => left; simp [Js.State.queue?, State.toJs, hq, State.queue]

theorem State.toJs_noteInvoked (s : State) (d : String) (l : Nat) (site : Site) :
    (s.noteInvoked d l site).toJs = s.toJs.noteInvoked d l (s.instance? d).toJs site := by
  simp [State.toJs, State.noteInvoked, Js.State.noteInvoked, Invocation.toJs]

theorem State.toJs_record (s : State) (d : String) (x : JSValue) :
    (s.record d x).toJs = s.toJs.define d x.toJs := by
  have h1 : (fun k => (Function.update s.swiperInstances d (some x) k).map JSValue.toJs) =
      Function.update (fun k => (s.swiperInstances k).map JSValue.toJs) d (some x.toJs) := by
    funext k
    by_cases hk : k = d
    · subst hk; simp
    · simp [Function.update_noteq hk]
  simp only [State.toJs, State.record, Js.State.define, h1]

theorem State.toJs_discover (h : Js.Host) (s : State) (node : Node) (d : String)
    (hd : d ≠ "__proto__") :
    (s.toJs.remember h d (.element node.ref)).map (fun s1 => s1.observe node.ref d) =
      some (s.discover node d).toJs := by
  have h1 : (fun k => (Function.update s.pendingSwiperInstances d
        (some (JSValue.element node.ref)) k).map JSValue.toJs) =
      Function.update (fun k => (s.pendingSwiperInstances k).map JSValue.toJs) d
        (some (.element node.ref)) := by
    funext k
    by_cases hk : k = d
    · subst hk; simp [JSValue.toJs]
    · simp [Function.update_noteq hk]
  unfold Js.State.remember Js.assign
  cases hown : s.toJs.pendingSwiperInstances d with
  | none =>
    simp only [State.toJs] at hown
    simp [State.toJs, hown, hd, State.discover, Js.State.observe, h1]
  | some old =>
    simp only [State.toJs] at hown
    simp [State.toJs, hown, State.discover, Js.State.observe, h1]

theorem Outcome.toJs_andThen (o : Outcome) (k : State → Outcome)
    (k2 : Js.State → Js.Outcome) (hk : ∀ s, k2 s.toJs = (k s).toJs) :
    o.toJs.andThen k2 = (o.andThen k).toJs := by
  cases o with
  | normal s => exact hk s
  | thrown s => rfl

theorem Outcome.toJs_state (o : Outcome) : o.toJs.state = o.state.toJs := by
  cases o <;> rfl

theorem forEach_toJs {α : Type} (f : α → State → Outcome) (g : α → Js.State → Js.Outcome)
    (P : State → Prop) (xs : List α)
    (hf : ∀ x ∈ xs, ∀ s, P s → g x s.toJs = (f x s).toJs ∧ P (f x s).state) :
    ∀ s, P s → Js.forEach g xs s.toJs = (forEach f xs s).toJs ∧ P (forEach f xs s).state := by
  induction xs with
  | nil => exact fun s hs => ⟨rfl, hs⟩
  | cons x xs ih =>
    intro s hs
    obtain ⟨h1, h2⟩ := hf x (List.mem_cons_self x xs) s hs
    have ih2 := ih fun y hy => hf y (List.mem_cons_of_mem x hy)
    simp only [Js.forEach, forEach, h1]
    cases hfx : f x s with
    | normal t =>
      rw [hfx] at h2
      exact ih2 t h2
    | thrown t =>
      rw [hfx] at h2
      exact ⟨rfl, h2⟩

theorem plain_enqueue {s : State} (hs : Plain s) (d : String) (op : Operation)
    (hop : op.body.ids.all Js.safe = true) : Plain (s.enqueue d op) := by
  refine ⟨hs.observers, ?_⟩
  intro k ops hk x hx
  by_cases hkd : k = d
  · subst hkd
    simp only [State.enqueue, Function.update_same, Option.some.injEq] at hk
    subst hk
    rcases List.mem_append.1 hx with hx | hx
    · cases hq : s.pendingOperations k with
      | none => simp [State.queue, hq] at hx
      | some old =>
        simp only [State.queue, hq, Option.getD_some] at hx
        exact hs.queued k old hq x hx
    · simp only [List.mem_singleton] at hx
      subst hx
      exact hop
  · simp only [State.enqueue, Function.update_noteq hkd] at hk
    exact hs.queued k ops hk x hx

/-- An operation that registers for plain identifiers only does the same in both layers,
and keeps the state plain. -/
theorem runBody_toJs (h : Js.Host) (b : Prog) : ∀ s : State, b.ids.all Js.safe = true →
    Plain s → Js.runBody h b s.toJs = (runBody b s).toJs ∧ Plain (runBody b s).state := by
  induction b with
  | ret => exact fun s _ hs => ⟨rfl, hs⟩
  | raise => exact fun s _ hs => ⟨rfl, hs⟩
  | call d l body caught next ihb ihn =>
    intro s hids hs
    simp only [Prog.ids, List.all_cons, List.all_append, Bool.and_eq_true] at hids
    obtain ⟨hd, hbody, hnext⟩ := hids
    have hlook := State.toJs_lookup h (s.noteRegistered d ⟨l, body⟩) d hd
    have hs1 : Plain (s.noteRegistered d ⟨l, body⟩) := ⟨hs.observers, hs.queued⟩
    have hlook2 : (s.toJs.noteRegistered d ⟨l, body⟩).instance? h d =
        .found ((s.noteRegistered d ⟨l, body⟩).instance? d).toJs := hlook
    by_cases ht : ((s.noteRegistered d ⟨l, body⟩).instance? d).truthy = true
    · have ht2 : ((s.noteRegistered d ⟨l, body⟩).instance? d).toJs.truthy = true := by
        rw [JSValue.toJs_truthy]; exact ht
      have hs2 : Plain ((s.noteRegistered d ⟨l, body⟩).noteInvoked d l .immediate) :=
        ⟨hs.observers, hs.queued⟩
      obtain ⟨e1, p1⟩ := ihb _ hbody hs2
      rw [State.toJs_noteInvoked] at e1
      have e2 : Js.runBody h body ((s.toJs.noteRegistered d ⟨l, body⟩).noteInvoked d l
          ((s.noteRegistered d ⟨l, body⟩).instance? d).toJs .immediate) =
          (runBody body ((s.noteRegistered d ⟨l, body⟩).noteInvoked d l .immediate)).toJs := e1
      simp only [Js.runBody, runBody, hlook2, ht, ht2, if_true, e2]
      cases hrun : runBody body ((s.noteRegistered d ⟨l, body⟩).noteInvoked d l .immediate) with
      | normal s2 =>
        rw [hrun] at p1
        exact ihn s2 hnext p1
      | thrown s2 =>
        rw [hrun] at p1
        cases caught with
        | true => exact ihn s2 hnext p1
        | false => exact ⟨rfl, p1⟩
    · have ht2 : ((s.noteRegistered d ⟨l, body⟩).instance? d).toJs.truthy = false := by
        rw [JSValue.toJs_truthy]; simpa using ht
      have ht3 : ((s.noteRegistered d ⟨l, body⟩).instance? d).truthy = false := by
        simpa using ht
      have hs2 := plain_enqueue hs1 d ⟨l, body⟩ hbody
      have e3 := ihn _ hnext hs2
      have hq := State.toJs_queue (s.noteRegistered d ⟨l, body⟩) d hd
      have hq2 : (s.toJs.noteRegistered d ⟨l, body⟩).queue? d =
            .array ((s.noteRegistered d ⟨l, body⟩).queue d) ∨
          (s.toJs.noteRegistered d ⟨l, body⟩).queue? d = .absent := hq
      have e4 : (s.toJs.noteRegistered d ⟨l, body⟩).enqueue d ⟨l, body⟩ =
          ((s.noteRegistered d ⟨l, body⟩).enqueue d ⟨l, body⟩).toJs := rfl
      rcases hq2 with hq2 | hq2
      · simp only [Js.runBody, runBody, hlook2, ht2, ht3, hq2, e4]
        simpa using e3
      · simp only [Js.runBody, runBody, hlook2, ht2, ht3, hq2, e4]
        simpa using e3

/-- The function `registerSwiperChange` does the same in both layers for a plain
identifier and an operation that registers for plain identifiers only. -/
theorem registerSwiperChange_toJs (h : Js.Host) (d : String) (op : Operation) (s : State)
    (hd : Js.safe d = true) (hop : op.body.ids.all Js.safe = true) (hs : Plain s) :
    Js.registerSwiperChange h d op s.toJs = (registerSwiperChange d op s).toJs ∧
      Plain (registerSwiperChange d op s).state := by
  have e := runBody_toJs h (.call d op.label op.body false .ret) s
    (by
      simp only [Prog.ids, List.all_cons, List.all_append, Bool.and_eq_true]
      exact ⟨hd, hop, rfl⟩) hs
  rw [Js.runBody_registers, runBody_call] at e
  obtain ⟨e1, e2⟩ := e
  cases hj : Js.registerSwiperChange h d ⟨op.label, op.body⟩ s.toJs with
  | normal t =>
    cases hr : registerSwiperChange d ⟨op.label, op.body⟩ s with
    | normal u =>
      rw [hj, hr] at e1
      rw [hr] at e2
      exact ⟨by simpa [Js.runBody, runBody] using e1, by simpa [runBody] using e2⟩
    | thrown u =>
      rw [hj, hr] at e1
      simp [Js.runBody, runBody, Outcome.toJs] at e1
  | thrown t =>
    cases hr : registerSwiperChange d ⟨op.label, op.body⟩ s with
    | normal u =>
      rw [hj, hr] at e1
      simp [Js.runBody, runBody, Outcome.toJs] at e1
    | thrown u =>
      rw [hj, hr] at e1
      rw [hr] at e2
      exact ⟨by simpa [Js.runBody, runBody] using e1, by simpa [runBody] using e2⟩

theorem invoke_toJs (h : Js.Host) (d : String) (op : Operation) (s : State)
    (hd : Js.safe d = true) (hop : op.body.ids.all Js.safe = true) (hs : Plain s) :
    Js.invoke h d op s.toJs = (invoke d .drain op s).toJs ∧
      Plain (invoke d .drain op s).state := by
  have hs2 : Plain (s.noteInvoked d op.label .drain) := ⟨hs.observers, hs.queued⟩
  obtain ⟨e1, p1⟩ := runBody_toJs h op.body _ hop hs2
  rw [State.toJs_noteInvoked] at e1
  refine ⟨?_, p1⟩
  simp only [Js.invoke, State.toJs_lookup h s d hd, invoke]
  exact e1

/-- The function `applyPendingOperations` does the same in both layers for a plain
identifier. -/
theorem applyPendingOperations_toJs (h : Js.Host) (d : String) (s : State)
    (hd : Js.safe d = true) (hs : Plain s) :
    Js.applyPendingOperations h d s.toJs = (applyPendingOperations d s).toJs ∧
      Plain (applyPendingOperations d s).state := by
  cases hq : s.pendingOperations d with
  | none =>
    have h1 : s.toJs.queue? d = .absent := by simp [Js.State.queue?, State.toJs, hq, hd]
    simp only [Js.applyPendingOperations, h1, applyPendingOperations, hq]
    exact ⟨rfl, hs⟩
  | some ops =>
    have h1 : s.toJs.queue? d = .array ops := by simp [Js.State.queue?, State.toJs, hq]
    obtain ⟨e1, p1⟩ := forEach_toJs (invoke d .drain) (Js.invoke h d) Plain ops
      (fun op hop t ht => invoke_toJs h d op t hd (hs.queued d ops hq op hop) ht) s hs
    simp only [Js.applyPendingOperations, h1, applyPendingOperations, hq, e1]
    constructor
    · exact Outcome.toJs_andThen _ (fun s1 => .normal (s1.clear d))
        (fun s1 => .normal (s1.clear d)) fun t => rfl
    · cases hf : forEach (invoke d .drain) ops s with
      | normal t =>
        rw [hf] at p1
        refine ⟨p1.observers, ?_⟩
        intro k ops2 hk x hx
        by_cases hkd : k = d
        · subst hkd
          simp [Outcome.andThen, Outcome.state, State.clear] at hk
        · simp only [Outcome.andThen, Outcome.state, State.clear,
            Function.update_noteq hkd] at hk
          exact p1.queued k ops2 hk x hx
      | thrown t =>
        rw [hf] at p1
        exact p1

theorem recorded_toJs (v : Variant) (node : Nat) (swiper : JSValue) :
    Js.recorded v node swiper.toJs = (recorded v node swiper).toJs := by
  cases v <;> rfl

/-- The readiness callback does the same in both layers on a plain state. -/
theorem readinessCallback_toJs (h : Js.Host) (v : Variant) (i : Nat) (classList : List String)
    (swiper : JSValue) (s : State) (hs : Plain s) :
    Js.readinessCallback h v i classList swiper.toJs s.toJs =
        (readinessCallback v i classList swiper s).toJs ∧
      Plain (readinessCallback v i classList swiper s).state := by
  cases hw : s.observers.get? i with
  | none =>
    have hw2 : s.toJs.observers.get? i = none := hw
    simp only [Js.readinessCallback, hw2, readinessCallback, hw]
    exact ⟨rfl, hs⟩
  | some w =>
    have hw2 : s.toJs.observers.get? i = some w := hw
    cases hc : isSwiperInitialized classList with
    | false =>
      simp only [Js.readinessCallback, hw2, readinessCallback, hw, hc]
      exact ⟨rfl, hs⟩
    | true =>
      have hsafe : Js.safe w.dataId = true := hs.observers w (List.get?_mem hw)
      have hne : w.dataId ≠ "__proto__" := by
        intro hh
        rw [hh] at hsafe
        exact absurd hsafe (by decide)
      have hrec := Js.record_define h s.toJs w.dataId (Js.recorded v w.node swiper.toJs) rfl hne
      rw [recorded_toJs, ← State.toJs_record] at hrec
      have hs1 : Plain (s.record w.dataId (recorded v w.node swiper)) :=
        ⟨hs.observers, hs.queued⟩
      obtain ⟨e1, p1⟩ := applyPendingOperations_toJs h w.dataId _ hsafe hs1
      simp only [Js.readinessCallback, hw2, readinessCallback, hw, hc, if_true, recorded_toJs,
        hrec, e1]
      constructor
      · exact Outcome.toJs_andThen _ (fun s2 => .normal (s2.disconnect i))
          (fun s2 => .normal (s2.disconnect i)) fun t => rfl
      · cases hf : applyPendingOperations w.dataId
            (s.record w.dataId (recorded v w.node swiper)) with
        | normal t =>
          rw [hf] at p1
          refine ⟨?_, p1.queued⟩
          intro x hx
          exact p1.observers x (List.mem_of_mem_eraseIdx hx)
        | thrown t =>
          rw [hf] at p1
          exact p1

/-- The node callback of `handleMutations` does the same in both layers when the
`data-id` of the container is plain. -/
theorem handleNode_toJs (h : Js.Host) (node : Node) (s : State)
    (hn : ∀ c, node.closest = some c → Js.safe (c.dataId.getD "") = true) (hs : Plain s) :
    Js.handleNode h node s.toJs = (handleNode node s).toJs ∧
      Plain (handleNode node s).state := by
  by_cases hg : (node.nodeType == 1 && isSwiperElement node.classList) = true
  · cases hcl : node.closest with
    | none =>
      simp only [Js.handleNode, handleNode, hg, if_true, hcl]
      exact ⟨rfl, hs⟩
    | some c =>
      by_cases hd : dataIdTruthy c.dataId = true
      · have hsafe := hn c hcl
        have hne : c.dataId.getD "" ≠ "__proto__" := by
          intro hh
          rw [hh] at hsafe
          exact absurd hsafe (by decide)
        have e := State.toJs_discover h s node (c.dataId.getD "") hne
        simp only [Js.handleNode, handleNode, hg, if_true, hcl, hd]
        cases hr : s.toJs.remember h (c.dataId.getD "") (.element node.ref) with
        | none => rw [hr] at e; simp at e
        | some s1 =>
          rw [hr] at e
          simp only [Option.map_some', Option.some.injEq] at e
          refine ⟨by simp only [e]; rfl, ?_⟩
          refine ⟨?_, hs.queued⟩
          intro w hw
          simp only [Outcome.state, State.discover, List.mem_append, List.mem_singleton] at hw
          rcases hw with hw | hw
          · exact hs.observers w hw
          · subst hw
            exact hsafe
      · simp only [Js.handleNode, handleNode, hg, if_true, hcl, hd]
        exact ⟨rfl, hs⟩
  · simp only [Js.handleNode, handleNode, hg]
    exact ⟨rfl, hs⟩

/-- One event whose identifiers are plain does the same in both layers on a plain state,
and leaves a plain state. -/
theorem step_toJs (h : Js.Host) (v : Variant) (e : Event) (s : State)
    (he : e.plain = true) (hs : Plain s) :
    Js.step h v e.toJs s.toJs = (step v e s).toJs ∧ Plain (step v e s).state := by
  cases e with
  | register d op =>
    simp only [Event.plain, Bool.and_eq_true] at he
    exact registerSwiperChange_toJs h d op s he.1 he.2 hs
  | mutations records =>
    simp only [Event.plain, List.all_eq_true] at he
    exact forEach_toJs (fun m => forEach handleNode m.addedNodes)
      (fun m => Js.forEach (Js.handleNode h) m.addedNodes) Plain records
      (fun m hm t ht => forEach_toJs handleNode (Js.handleNode h) Plain m.addedNodes
        (fun n hn u hu => handleNode_toJs h n u
          (fun c hc => by have := he m hm n hn; simpa [hc] using this) hu) t ht) s hs
  | classChange i classList swiper =>
    exact readinessCallback_toJs h v i classList swiper s hs

/-- The two layers agree: on a state whose observers and queued operations name only
identifiers that are not inherited from `Object.prototype`, a trace whose events bring in
only such identifiers leads both layers to the same state, whatever the page holds. -/
theorem exec_toJs (h : Js.Host) (v : Variant) (es : List Event) : ∀ s : State,
    Plain s → (∀ e ∈ es, e.plain = true) →
    Js.exec h v (es.map Event.toJs) s.toJs = (exec v es s).toJs := by
  induction es with
  | nil => exact fun s _ _ => rfl
  | cons e es ih =>
    intro s hs he
    obtain ⟨e1, p1⟩ := step_toJs h v e s (he e (List.mem_cons_self e es)) hs
    simp only [List.map_cons, Js.exec, exec, e1, Outcome.toJs_state]
    exact ih _ p1 fun x hx => he x (List.mem_cons_of_mem e hx)

/-- From the freshly loaded module, a trace that brings in only identifiers that are not
inherited from `Object.prototype` leads both layers to the same state. -/
theorem exec_init_toJs (h : Js.Host) (v : Variant) (es : List Event)
    (he : ∀ e ∈ es, e.plain = true) :
    Js.exec h v (es.map Event.toJs) Js.State.init = (exec v es State.init).toJs :=
  exec_toJs h v es State.init
    ⟨fun w hw => (by cases hw), fun d ops hd => (by simp [State.init] at hd)⟩ he

end SwiperSniffer
